import Mathlib

/-!
Verification of the packet-data codec and memo/validation layer of the
`dymensionxyz/ibc-go-fork` transfer module.

Byte strings are modelled as `List Nat` (each element a byte value < 256).
Machine-integer arithmetic from the Go source (`uint64`, `int32`/`int64`
conversions) is modelled on `Nat`/`Int` with explicit `% 2 ^ 64` where the
source overflows.  Fallible code returns `Except`.

The decoders from `modules/apps/transfer/types/packet.pb.go` are index loops
in the source (`iNdEx` walking `dAtA`); here they consume the suffix of the
input directly, which is equivalent because every source read of `dAtA[iNdEx]`
is preceded by an `iNdEx >= l` guard and every slice is `dAtA[iNdEx:postIndex]`
with `postIndex <= l` checked first.  The loops take an explicit fuel argument;
exhausting it yields the sentinel error `PErr.fuelOut`, which no Go code path
corresponds to; its unreachability (for fuel = input length + 1) is proved
below, which is the termination/in-bounds content of the source loops.
-/

namespace IbcTransfer

/-- Decode errors of `packet.pb.go`: `ErrIntOverflowPacket`,
`io.ErrUnexpectedEOF`, `ErrInvalidLengthPacket`,
`ErrUnexpectedEndOfGroupPacket`, and the `fmt.Errorf` cases, plus the
`fuelOut` sentinel described in the file header. -/
inductive PErr where
  | intOverflow
  | unexpectedEOF
  | invalidLength
  | unexpectedEndOfGroup
  | endGroupForNonGroup
  | illegalTag
  | wrongWireType
  | illegalWireType
  | fuelOut
deriving DecidableEq, Repr

/-- `encodeVarintPacket`: little-endian base-128 varint with continuation
bits (the source writes the bytes back-to-front into a sized buffer; this
emits the same bytes front-to-back). -/
def putVarint (v : Nat) : List Nat :=
  if _h : v < 0x80 then [v]
  else (v &&& 0x7f ||| 0x80) :: putVarint (v >>> 7)
decreasing_by
  simp only [Nat.shiftRight_eq_div_pow]
  exact Nat.div_lt_self (by omega) (by norm_num)

/-- `math/bits.Len64` for inputs below `2 ^ 64`. -/
def len64 (x : Nat) : Nat := if x = 0 then 0 else Nat.log2 x + 1

/-- `sovPacket x = (bits.Len64(x|1) + 6) / 7`. -/
def sovPacket (x : Nat) : Nat := (len64 (x ||| 1) + 6) / 7

/-- Go's `int32(n)` conversion of an unsigned value: truncate to 32 bits and
reinterpret in two's complement (used for `fieldNum := int32(wire >> 3)`). -/
def toInt32 (n : Nat) : Int :=
  if n % 2 ^ 32 < 2 ^ 31 then ((n % 2 ^ 32 : Nat) : Int)
  else ((n % 2 ^ 32 : Nat) : Int) - 2 ^ 32

/-- The shared varint-reading loop of the `Unmarshal` functions:
`for shift := uint(0); ; shift += 7 { if shift >= 64 { overflow };
if iNdEx >= l { EOF }; b := dAtA[iNdEx]; iNdEx++;
acc |= uint64(b&0x7F) << shift; if b < 0x80 { break } }`.
Returns the accumulated value, the number of bytes consumed, and the
remaining input. -/
def readVarint : List Nat → Nat → Nat → Except PErr (Nat × Nat × List Nat)
  | rem, shift, acc =>
    if 64 ≤ shift then .error .intOverflow
    else
      match rem with
      | [] => .error .unexpectedEOF
      | b :: rest =>
        let acc2 := acc ||| (((b &&& 0x7f) <<< shift) % 2 ^ 64)
        if b < 0x80 then .ok (acc2, 1, rest)
        else
          match readVarint rest (shift + 7) acc2 with
          | .error e => .error e
          | .ok (v, c, r) => .ok (v, c + 1, r)

/-- `FungibleTokenPacketData` (legacy wire form), fields as byte strings. -/
structure FungibleTokenPacketData where
  Denom : List Nat
  Amount : List Nat
  Sender : List Nat
  Receiver : List Nat
  Memo : List Nat
deriving DecidableEq, Repr

/-- `Token` of the multi-token wire form; `Amount` is a `uint64`. -/
structure Token where
  Denom : List Nat
  Amount : Nat
  Trace : List (List Nat)
deriving DecidableEq, Repr

/-- `FungibleTokenPacketDataV2` (multi-token wire form). -/
structure FungibleTokenPacketDataV2 where
  Tokens : List Token
  Sender : List Nat
  Receiver : List Nat
  Memo : List Nat
deriving DecidableEq, Repr

/-- A length-delimited field block (tag byte, varint length, payload),
emitted unconditionally (used for repeated-string entries, which the
source writes without an emptiness guard). -/
def rawLenField (tag : Nat) (s : List Nat) : List Nat :=
  tag :: (putVarint s.length ++ s)

/-- A length-delimited field block guarded by `if len(...) > 0` as in
`MarshalToSizedBuffer`. -/
def lenField (tag : Nat) (s : List Nat) : List Nat :=
  if 0 < s.length then rawLenField tag s else []

/-- `FungibleTokenPacketData.Marshal` / `MarshalToSizedBuffer`: the source
writes Memo, Receiver, Sender, Amount, Denom back-to-front, so the produced
bytes are the field blocks for tags 1..5 in ascending order. -/
def FungibleTokenPacketData.Marshal (m : FungibleTokenPacketData) : List Nat :=
  lenField 0xa m.Denom ++ (lenField 0x12 m.Amount ++ (lenField 0x1a m.Sender ++
    (lenField 0x22 m.Receiver ++ lenField 0x2a m.Memo)))

/-- `Token.Marshal` / `MarshalToSizedBuffer`: Denom (tag 1), Amount as a bare
varint when nonzero (tag 2, wire type 0), then every Trace entry (tag 3) in
order, each emitted even when empty. -/
def Token.Marshal (m : Token) : List Nat :=
  lenField 0xa m.Denom ++
    ((if m.Amount ≠ 0 then 0x10 :: putVarint m.Amount else []) ++
      (m.Trace.map (rawLenField 0x1a)).flatten)

/-- `FungibleTokenPacketDataV2.Marshal` / `MarshalToSizedBuffer`: every Token
as a length-delimited submessage (tag 1) in order, then Sender (2),
Receiver (3), Memo (4).  The submessage length written by the source is the
byte count returned by the token's `MarshalToSizedBuffer`. -/
def FungibleTokenPacketDataV2.Marshal (m : FungibleTokenPacketDataV2) : List Nat :=
  (m.Tokens.map (fun t => rawLenField 0xa t.Marshal)).flatten ++
    (lenField 0x12 m.Sender ++ (lenField 0x1a m.Receiver ++ lenField 0x22 m.Memo))

/-- `FungibleTokenPacketData.Size`. -/
def FungibleTokenPacketData.Size (m : FungibleTokenPacketData) : Nat :=
  (if 0 < m.Denom.length then 1 + m.Denom.length + sovPacket m.Denom.length else 0) +
  (if 0 < m.Amount.length then 1 + m.Amount.length + sovPacket m.Amount.length else 0) +
  (if 0 < m.Sender.length then 1 + m.Sender.length + sovPacket m.Sender.length else 0) +
  (if 0 < m.Receiver.length then 1 + m.Receiver.length + sovPacket m.Receiver.length else 0) +
  (if 0 < m.Memo.length then 1 + m.Memo.length + sovPacket m.Memo.length else 0)

/-- `Token.Size`. -/
def Token.Size (m : Token) : Nat :=
  (if 0 < m.Denom.length then 1 + m.Denom.length + sovPacket m.Denom.length else 0) +
  (if m.Amount ≠ 0 then 1 + sovPacket m.Amount else 0) +
  (m.Trace.map (fun s => 1 + s.length + sovPacket s.length)).sum

/-- `FungibleTokenPacketDataV2.Size`. -/
def FungibleTokenPacketDataV2.Size (m : FungibleTokenPacketDataV2) : Nat :=
  (m.Tokens.map (fun t => 1 + t.Size + sovPacket t.Size)).sum +
  (if 0 < m.Sender.length then 1 + m.Sender.length + sovPacket m.Sender.length else 0) +
  (if 0 < m.Receiver.length then 1 + m.Receiver.length + sovPacket m.Receiver.length else 0) +
  (if 0 < m.Memo.length then 1 + m.Memo.length + sovPacket m.Memo.length else 0)

/-- The loop body of `skipPacket`.  `n` is the source's `iNdEx` (relative to
the start of the slice passed to `skipPacket`), `depth` the group depth.
The source checks `iNdEx < 0` after each case; that is unreachable with
`Nat` arithmetic.  Reaching the end of input with the loop still running is
`return 0, io.ErrUnexpectedEOF`. -/
def skipLoop : Nat → List Nat → Nat → Nat → Except PErr Nat
  | 0, _, _, _ => .error .fuelOut
  | _ + 1, [], _, _ => .error .unexpectedEOF
  | fuel + 1, b :: tl, n, depth =>
    match readVarint (b :: tl) 0 0 with
    | .error e => .error e
    | .ok (wire, c, rem1) =>
      -- wireType := int(wire & 0x7)
      if wire &&& 0x7 = 0 then
        -- the value of the skipped varint is discarded; the error conditions
        -- (shift >= 64, EOF) are those of the shared varint loop
        match readVarint rem1 0 0 with
        | .error e => .error e
        | .ok (_, c2, rem2) =>
          if depth = 0 then .ok (n + c + c2) else skipLoop fuel rem2 (n + c + c2) depth
      else if wire &&& 0x7 = 1 then
        if depth = 0 then .ok (n + c + 8) else skipLoop fuel (rem1.drop 8) (n + c + 8) depth
      else if wire &&& 0x7 = 2 then
        match readVarint rem1 0 0 with
        | .error e => .error e
        | .ok (len, c2, rem2) =>
          -- `length |= int(b&0x7F) << shift; if length < 0` : the accumulated
          -- uint64 reinterpreted as int64 is negative iff it is >= 2^63
          if 2 ^ 63 ≤ len then .error .invalidLength
          else if depth = 0 then .ok (n + c + c2 + len)
          else skipLoop fuel (rem2.drop len) (n + c + c2 + len) depth
      else if wire &&& 0x7 = 3 then
        skipLoop fuel rem1 (n + c) (depth + 1)
      else if wire &&& 0x7 = 4 then
        if depth = 0 then .error .unexpectedEndOfGroup
        else if depth - 1 = 0 then .ok (n + c)
        else skipLoop fuel rem1 (n + c) (depth - 1)
      else if wire &&& 0x7 = 5 then
        if depth = 0 then .ok (n + c + 4) else skipLoop fuel (rem1.drop 4) (n + c + 4) depth
      else .error .illegalWireType

/-- `skipPacket`: returns the number of bytes spanned by one complete field
starting at the head of the input (which may exceed the input length; the
callers check). -/
def skipPacket (bs : List Nat) : Except PErr Nat :=
  skipLoop (bs.length + 1) bs 0 0

/-- The loop of `FungibleTokenPacketData.Unmarshal`.  `postIndex > l` is
`rem.length < stringLen` here; `intStringLen < 0` (a `uint64` length cast to
`int`) is `2 ^ 63 ≤ stringLen`; `postIndex < 0` is unreachable with `Nat`
arithmetic.  The final `if iNdEx > l` of the source cannot fire because every
advance is bounds-checked first. -/
def FungibleTokenPacketData.unmarshalLoop :
    Nat → List Nat → FungibleTokenPacketData → Except PErr FungibleTokenPacketData
  | 0, _, _ => .error .fuelOut
  | _ + 1, [], m => .ok m
  | fuel + 1, b :: tl, m =>
    match readVarint (b :: tl) 0 0 with
    | .error e => .error e
    | .ok (wire, _, rem1) =>
      -- fieldNum := int32(wire >> 3) ; wireType := int(wire & 0x7)
      if wire &&& 0x7 = 4 then .error .endGroupForNonGroup
      else if toInt32 (wire >>> 3) ≤ 0 then .error .illegalTag
      else if toInt32 (wire >>> 3) = 1 then
        if wire &&& 0x7 ≠ 2 then .error .wrongWireType
        else
          match readVarint rem1 0 0 with
          | .error e => .error e
          | .ok (stringLen, _, rem2) =>
            if 2 ^ 63 ≤ stringLen then .error .invalidLength
            else if rem2.length < stringLen then .error .unexpectedEOF
            else unmarshalLoop fuel (rem2.drop stringLen) { m with Denom := rem2.take stringLen }
      else if toInt32 (wire >>> 3) = 2 then
        if wire &&& 0x7 ≠ 2 then .error .wrongWireType
        else
          match readVarint rem1 0 0 with
          | .error e => .error e
          | .ok (stringLen, _, rem2) =>
            if 2 ^ 63 ≤ stringLen then .error .invalidLength
            else if rem2.length < stringLen then .error .unexpectedEOF
            else unmarshalLoop fuel (rem2.drop stringLen) { m with Amount := rem2.take stringLen }
      else if toInt32 (wire >>> 3) = 3 then
        if wire &&& 0x7 ≠ 2 then .error .wrongWireType
        else
          match readVarint rem1 0 0 with
          | .error e => .error e
          | .ok (stringLen, _, rem2) =>
            if 2 ^ 63 ≤ stringLen then .error .invalidLength
            else if rem2.length < stringLen then .error .unexpectedEOF
            else unmarshalLoop fuel (rem2.drop stringLen) { m with Sender := rem2.take stringLen }
      else if toInt32 (wire >>> 3) = 4 then
        if wire &&& 0x7 ≠ 2 then .error .wrongWireType
        else
          match readVarint rem1 0 0 with
          | .error e => .error e
          | .ok (stringLen, _, rem2) =>
            if 2 ^ 63 ≤ stringLen then .error .invalidLength
            else if rem2.length < stringLen then .error .unexpectedEOF
            else unmarshalLoop fuel (rem2.drop stringLen) { m with Receiver := rem2.take stringLen }
      else if toInt32 (wire >>> 3) = 5 then
        if wire &&& 0x7 ≠ 2 then .error .wrongWireType
        else
          match readVarint rem1 0 0 with
          | .error e => .error e
          | .ok (stringLen, _, rem2) =>
            if 2 ^ 63 ≤ stringLen then .error .invalidLength
            else if rem2.length < stringLen then .error .unexpectedEOF
            else unmarshalLoop fuel (rem2.drop stringLen) { m with Memo := rem2.take stringLen }
      else
        match skipPacket (b :: tl) with
        | .error e => .error e
        | .ok skippy =>
          if (b :: tl).length < skippy then .error .unexpectedEOF
          else unmarshalLoop fuel ((b :: tl).drop skippy) m

/-- `FungibleTokenPacketData.Unmarshal` on a fresh (zero) message, as used
through `XXX_Unmarshal`. -/
def FungibleTokenPacketData.Unmarshal (bs : List Nat) : Except PErr FungibleTokenPacketData :=
  FungibleTokenPacketData.unmarshalLoop (bs.length + 1) bs ⟨[], [], [], [], []⟩

/-- The loop of `Token.Unmarshal`: Denom (tag 1, length-delimited), Amount
(tag 2, wire type 0, `m.Amount = 0` then re-accumulated, i.e. set to the
varint read), Trace (tag 3, appended). -/
def Token.unmarshalLoop : Nat → List Nat → Token → Except PErr Token
  | 0, _, _ => .error .fuelOut
  | _ + 1, [], m => .ok m
  | fuel + 1, b :: tl, m =>
    match readVarint (b :: tl) 0 0 with
    | .error e => .error e
    | .ok (wire, _, rem1) =>
      -- fieldNum := int32(wire >> 3) ; wireType := int(wire & 0x7)
      if wire &&& 0x7 = 4 then .error .endGroupForNonGroup
      else if toInt32 (wire >>> 3) ≤ 0 then .error .illegalTag
      else if toInt32 (wire >>> 3) = 1 then
        if wire &&& 0x7 ≠ 2 then .error .wrongWireType
        else
          match readVarint rem1 0 0 with
          | .error e => .error e
          | .ok (stringLen, _, rem2) =>
            if 2 ^ 63 ≤ stringLen then .error .invalidLength
            else if rem2.length < stringLen then .error .unexpectedEOF
            else unmarshalLoop fuel (rem2.drop stringLen) { m with Denom := rem2.take stringLen }
      else if toInt32 (wire >>> 3) = 2 then
        if wire &&& 0x7 ≠ 0 then .error .wrongWireType
        else
          match readVarint rem1 0 0 with
          | .error e => .error e
          | .ok (amount, _, rem2) =>
            unmarshalLoop fuel rem2 { m with Amount := amount }
      else if toInt32 (wire >>> 3) = 3 then
        if wire &&& 0x7 ≠ 2 then .error .wrongWireType
        else
          match readVarint rem1 0 0 with
          | .error e => .error e
          | .ok (stringLen, _, rem2) =>
            if 2 ^ 63 ≤ stringLen then .error .invalidLength
            else if rem2.length < stringLen then .error .unexpectedEOF
            else unmarshalLoop fuel (rem2.drop stringLen)
              { m with Trace := m.Trace ++ [rem2.take stringLen] }
      else
        match skipPacket (b :: tl) with
        | .error e => .error e
        | .ok skippy =>
          if (b :: tl).length < skippy then .error .unexpectedEOF
          else unmarshalLoop fuel ((b :: tl).drop skippy) m

/-- `Token.Unmarshal` on a fresh (zero) message. -/
def Token.Unmarshal (bs : List Nat) : Except PErr Token :=
  Token.unmarshalLoop (bs.length + 1) bs ⟨[], 0, []⟩

/-- The loop of `FungibleTokenPacketDataV2.Unmarshal`: Tokens (tag 1, each a
length-delimited submessage decoded by `Token.Unmarshal` on the slice and
appended), Sender (2), Receiver (3), Memo (4). -/
def FungibleTokenPacketDataV2.unmarshalLoop :
    Nat → List Nat → FungibleTokenPacketDataV2 → Except PErr FungibleTokenPacketDataV2
  | 0, _, _ => .error .fuelOut
  | _ + 1, [], m => .ok m
  | fuel + 1, b :: tl, m =>
    match readVarint (b :: tl) 0 0 with
    | .error e => .error e
    | .ok (wire, _, rem1) =>
      -- fieldNum := int32(wire >> 3) ; wireType := int(wire & 0x7)
      if wire &&& 0x7 = 4 then .error .endGroupForNonGroup
      else if toInt32 (wire >>> 3) ≤ 0 then .error .illegalTag
      else if toInt32 (wire >>> 3) = 1 then
        if wire &&& 0x7 ≠ 2 then .error .wrongWireType
        else
          match readVarint rem1 0 0 with
          | .error e => .error e
          | .ok (msglen, _, rem2) =>
            if 2 ^ 63 ≤ msglen then .error .invalidLength
            else if rem2.length < msglen then .error .unexpectedEOF
            else
              match Token.Unmarshal (rem2.take msglen) with
              | .error e => .error e
              | .ok t => unmarshalLoop fuel (rem2.drop msglen) { m with Tokens := m.Tokens ++ [t] }
      else if toInt32 (wire >>> 3) = 2 then
        if wire &&& 0x7 ≠ 2 then .error .wrongWireType
        else
          match readVarint rem1 0 0 with
          | .error e => .error e
          | .ok (stringLen, _, rem2) =>
            if 2 ^ 63 ≤ stringLen then .error .invalidLength
            else if rem2.length < stringLen then .error .unexpectedEOF
            else unmarshalLoop fuel (rem2.drop stringLen) { m with Sender := rem2.take stringLen }
      else if toInt32 (wire >>> 3) = 3 then
        if wire &&& 0x7 ≠ 2 then .error .wrongWireType
        else
          match readVarint rem1 0 0 with
          | .error e => .error e
          | .ok (stringLen, _, rem2) =>
            if 2 ^ 63 ≤ stringLen then .error .invalidLength
            else if rem2.length < stringLen then .error .unexpectedEOF
            else unmarshalLoop fuel (rem2.drop stringLen) { m with Receiver := rem2.take stringLen }
      else if toInt32 (wire >>> 3) = 4 then
        if wire &&& 0x7 ≠ 2 then .error .wrongWireType
        else
          match readVarint rem1 0 0 with
          | .error e => .error e
          | .ok (stringLen, _, rem2) =>
            if 2 ^ 63 ≤ stringLen then .error .invalidLength
            else if rem2.length < stringLen then .error .unexpectedEOF
            else unmarshalLoop fuel (rem2.drop stringLen) { m with Memo := rem2.take stringLen }
      else
        match skipPacket (b :: tl) with
        | .error e => .error e
        | .ok skippy =>
          if (b :: tl).length < skippy then .error .unexpectedEOF
          else unmarshalLoop fuel ((b :: tl).drop skippy) m

/-- `FungibleTokenPacketDataV2.Unmarshal` on a fresh (zero) message. -/
def FungibleTokenPacketDataV2.Unmarshal (bs : List Nat) :
    Except PErr FungibleTokenPacketDataV2 :=
  FungibleTokenPacketDataV2.unmarshalLoop (bs.length + 1) bs ⟨[], [], [], []⟩

/-! ### Varint lemmas -/

theorem and_127_eq_mod (v : Nat) : v &&& 0x7f = v % 128 :=
  Nat.and_pow_two_sub_one_eq_mod v 7

theorem lor_shiftLeft_eq_add {a : Nat} (b : Nat) {k : Nat} (h : a < 2 ^ k) :
    a ||| (b <<< k) = a + b * 2 ^ k := by
  rw [Nat.shiftLeft_eq, Nat.lor_comm, Nat.mul_comm b (2 ^ k), ← Nat.mul_add_lt_is_or h b]
  ring

theorem putVarint_small {v : Nat} (h : v < 0x80) : putVarint v = [v] := by
  rw [putVarint]; simp [h]

theorem putVarint_large {v : Nat} (h : ¬ v < 0x80) :
    putVarint v = (v &&& 0x7f ||| 0x80) :: putVarint (v >>> 7) := by
  rw [putVarint]; simp [h]

theorem readVarint_putVarint_general :
    ∀ (v shift acc : Nat) (rest : List Nat),
      shift ≤ 63 → acc < 2 ^ shift → v < 2 ^ (64 - shift) →
      readVarint (putVarint v ++ rest) shift acc =
        .ok (acc + v * 2 ^ shift, (putVarint v).length, rest) := by
  intro v
  induction v using Nat.strong_induction_on with
  | _ v ih =>
    intro shift acc rest hs hacc hv
    by_cases h : v < 0x80
    · rw [putVarint_small h]
      rw [readVarint.eq_def]
      have hv64 : v * 2 ^ shift < 2 ^ 64 := by
        calc v * 2 ^ shift < 2 ^ (64 - shift) * 2 ^ shift :=
              (Nat.mul_lt_mul_right (Nat.pos_pow_of_pos shift (by norm_num))).mpr hv
          _ = 2 ^ 64 := by rw [← Nat.pow_add]; congr 1; omega
      simp only [List.cons_append, List.nil_append, Nat.not_le.mpr (by omega : shift < 64),
        if_false, and_127_eq_mod, Nat.mod_eq_of_lt (by omega : v < 128), if_pos h]
      rw [← Nat.shiftLeft_eq] at hv64
      rw [Nat.mod_eq_of_lt hv64, lor_shiftLeft_eq_add v hacc]
      simp
    · rw [putVarint_large h]
      have hv128 : 128 ≤ v := by omega
      -- v >= 128 forces at least 8 more value bits, so shift <= 56
      have hsh : shift ≤ 56 := by
        by_contra hc
        have : 2 ^ (64 - shift) ≤ 2 ^ 7 := Nat.pow_le_pow_right (by norm_num) (by omega)
        omega
      have hb : v &&& 0x7f ||| 0x80 = v % 128 + 128 := by
        have h7 : v &&& 0x7f < 2 ^ 7 := by rw [and_127_eq_mod]; omega
        have := lor_shiftLeft_eq_add (a := v &&& 0x7f) 1 h7
        simpa [and_127_eq_mod] using this
      have hble : ¬ (v &&& 0x7f ||| 0x80) < 0x80 := by rw [hb]; omega
      have hbmod : (v &&& 0x7f ||| 0x80) &&& 0x7f = v % 128 := by
        rw [hb, and_127_eq_mod]
        omega
      rw [readVarint.eq_def]
      simp only [List.cons_append, Nat.not_le.mpr (by omega : shift < 64), if_false, hble,
        hbmod]
      have hmodsh : (v % 128) <<< shift % 2 ^ 64 = (v % 128) <<< shift := by
        apply Nat.mod_eq_of_lt
        rw [Nat.shiftLeft_eq]
        calc (v % 128) * 2 ^ shift < 128 * 2 ^ shift :=
              (Nat.mul_lt_mul_right (Nat.pos_pow_of_pos shift (by norm_num))).mpr (by omega)
          _ = 2 ^ (shift + 7) := by rw [Nat.pow_add]; ring
          _ ≤ 2 ^ 64 := Nat.pow_le_pow_right (by norm_num) (by omega)
      rw [hmodsh, lor_shiftLeft_eq_add (v % 128) hacc]
      have hacc2 : acc + (v % 128) * 2 ^ shift < 2 ^ (shift + 7) := by
        have hm : v % 128 ≤ 127 := by omega
        calc acc + (v % 128) * 2 ^ shift < 2 ^ shift + 127 * 2 ^ shift + 0 := by
              have := Nat.mul_le_mul_right (2 ^ shift) hm
              omega
          _ ≤ 2 ^ (shift + 7) := by rw [Nat.pow_add]; ring_nf; omega
      have hrec := ih (v >>> 7)
        (by rw [Nat.shiftRight_eq_div_pow]; exact Nat.div_lt_self (by omega) (by norm_num))
        (shift + 7) (acc + (v % 128) * 2 ^ shift) rest (by omega) hacc2
        (by
          rw [Nat.shiftRight_eq_div_pow]
          have h1 : (0:Nat) < 2 ^ 7 := by norm_num
          rw [Nat.div_lt_iff_lt_mul h1]
          calc v < 2 ^ (64 - shift) := hv
            _ = 2 ^ (64 - (shift + 7)) * 2 ^ 7 := by rw [← Nat.pow_add]; congr 1; omega)
      rw [hrec]
      have hval : acc + (v % 128) * 2 ^ shift + (v >>> 7) * 2 ^ (shift + 7)
          = acc + v * 2 ^ shift := by
        rw [Nat.shiftRight_eq_div_pow]
        have : (2:Nat) ^ (shift + 7) = 2 ^ 7 * 2 ^ shift := by rw [← Nat.pow_add]; congr 1; omega
        rw [this]
        have hsplit : v % 128 + 2 ^ 7 * (v / 2 ^ 7) = v := by
          have := Nat.mod_add_div v 128
          norm_num at this ⊢
          omega
        calc acc + (v % 128) * 2 ^ shift + v / 2 ^ 7 * (2 ^ 7 * 2 ^ shift)
            = acc + (v % 128 + 2 ^ 7 * (v / 2 ^ 7)) * 2 ^ shift := by ring
          _ = acc + v * 2 ^ shift := by rw [hsplit]
      rw [hval]
      simp [List.length_cons]

/-- Round trip of a single varint at the top of the input. -/
theorem readVarint_putVarint {v : Nat} (hv : v < 2 ^ 64) (rest : List Nat) :
    readVarint (putVarint v ++ rest) 0 0 =
      .ok (v, (putVarint v).length, rest) := by
  have := readVarint_putVarint_general v 0 0 rest (by omega) (by norm_num) (by simpa using hv)
  simpa using this

/-- A single byte below `0x80` is a complete varint. -/
theorem readVarint_single {t : Nat} (ht : t < 0x80) (rest : List Nat) :
    readVarint (t :: rest) 0 0 = .ok (t, 1, rest) := by
  have := readVarint_putVarint (v := t) (by omega) rest
  rwa [putVarint_small ht] at this

theorem lor_one_eq (v : Nat) : v ||| 1 = 2 * (v / 2) + 1 := by
  have hv : v = 2 * (v / 2) + v % 2 := by omega
  have hsplit : v = 2 ^ 1 * (v / 2) ||| v % 2 := by
    rw [← Nat.mul_add_lt_is_or (by omega : v % 2 < 2 ^ 1) (v / 2)]
    omega
  conv_lhs => rw [hsplit]
  rw [Nat.lor_assoc]
  have hr : v % 2 ||| 1 = 1 := by
    rcases Nat.mod_two_eq_zero_or_one v with h | h <;> rw [h] <;> decide
  rw [hr, ← Nat.mul_add_lt_is_or (by norm_num : (1:Nat) < 2 ^ 1) (v / 2)]

theorem log2_lor_one {v : Nat} (h : 1 ≤ v) : Nat.log2 (v ||| 1) = Nat.log2 v := by
  rw [lor_one_eq]
  rcases Nat.lt_or_ge v 2 with h2 | h2
  · have hv1 : v = 1 := by omega
    subst hv1
    norm_num
  · conv_rhs => rw [Nat.log2]
    rw [Nat.log2]
    rw [if_pos (by omega : 2 * (v / 2) + 1 ≥ 2), if_pos h2]
    have hdd : (2 * (v / 2) + 1) / 2 = v / 2 := by omega
    rw [hdd]

theorem sov_small {v : Nat} (h : v < 128) : sovPacket v = 1 := by
  unfold sovPacket len64
  have h1 : v ||| 1 = 2 * (v / 2) + 1 := lor_one_eq v
  have hne : ¬ (v ||| 1 = 0) := by omega
  rw [if_neg hne]
  have hlt : Nat.log2 (v ||| 1) < 7 := by
    rw [Nat.log2_lt (by omega)]
    omega
  omega

theorem log2_div_128 {v : Nat} (h : 128 ≤ v) : Nat.log2 (v / 128) = Nat.log2 v - 7 := by
  rw [Nat.log2_eq_log_two, Nat.log2_eq_log_two]
  have hdiv : v / 128 = v / 2 / 2 / 2 / 2 / 2 / 2 / 2 := by omega
  rw [hdiv]
  simp only [Nat.log_div_base]
  omega

theorem log2_ge_7 {v : Nat} (h : 128 ≤ v) : 7 ≤ Nat.log2 v := by
  rw [Nat.log2_eq_log_two]
  exact (Nat.pow_le_iff_le_log (by norm_num) (by omega)).mp (by norm_num; omega)

theorem sov_large {v : Nat} (h : 128 ≤ v) : sovPacket v = sovPacket (v >>> 7) + 1 := by
  unfold sovPacket len64
  have hne : ¬ (v ||| 1 = 0) := by have := lor_one_eq v; omega
  have hq : 1 ≤ v >>> 7 := by rw [Nat.shiftRight_eq_div_pow]; norm_num; omega
  have hne2 : ¬ ((v >>> 7) ||| 1 = 0) := by have := lor_one_eq (v >>> 7); omega
  rw [if_neg hne, if_neg hne2, log2_lor_one (by omega), log2_lor_one hq]
  have hlog : Nat.log2 v = Nat.log2 (v >>> 7) + 7 := by
    rw [Nat.shiftRight_eq_div_pow]
    norm_num
    rw [log2_div_128 h]
    have := log2_ge_7 h
    omega
  rw [hlog]
  omega

theorem putVarint_length (v : Nat) : (putVarint v).length = sovPacket v := by
  induction v using Nat.strong_induction_on with
  | _ v ih =>
    by_cases h : v < 0x80
    · rw [putVarint_small h, sov_small h]
      rfl
    · rw [putVarint_large h, sov_large (by omega)]
      have hlt : v >>> 7 < v := by
        rw [Nat.shiftRight_eq_div_pow]
        exact Nat.div_lt_self (by omega) (by norm_num)
      simp [ih (v >>> 7) hlt]

/-- One-step unfolding of `readVarint` on empty input. -/
theorem readVarint_nil (shift acc : Nat) :
    readVarint [] shift acc =
      if 64 ≤ shift then .error .intOverflow else .error .unexpectedEOF := by
  rw [readVarint.eq_def]

/-- One-step unfolding of `readVarint` on a nonempty input. -/
theorem readVarint_cons (b : Nat) (tl : List Nat) (shift acc : Nat) :
    readVarint (b :: tl) shift acc =
      if 64 ≤ shift then .error .intOverflow
      else if b < 0x80 then .ok (acc ||| (((b &&& 0x7f) <<< shift) % 2 ^ 64), 1, tl)
      else
        match readVarint tl (shift + 7) (acc ||| (((b &&& 0x7f) <<< shift) % 2 ^ 64)) with
        | .error e => .error e
        | .ok (v, c, r) => .ok (v, c + 1, r) := by
  rw [readVarint.eq_def]

/-- A successful varint read consumes at least one byte, and the count plus
the remainder account for the whole input. -/
theorem readVarint_ok_length :
    ∀ (rem : List Nat) (shift acc v c : Nat) (r : List Nat),
      readVarint rem shift acc = .ok (v, c, r) → 1 ≤ c ∧ r.length + c = rem.length := by
  intro rem
  induction rem with
  | nil =>
    intro shift acc v c r h
    rw [readVarint_nil] at h
    split at h <;> simp at h
  | cons b tl ih =>
    intro shift acc v c r h
    rw [readVarint_cons] at h
    split at h
    · simp at h
    · split at h
      · simp only [Except.ok.injEq, Prod.mk.injEq] at h
        obtain ⟨_, hc, hr⟩ := h
        subst hc hr
        simp
      · rcases hrec : readVarint tl (shift + 7) (acc ||| (((b &&& 0x7f) <<< shift) % 2 ^ 64))
          with e | ⟨v0, c0, r0⟩
        · rw [hrec] at h
          simp at h
        · rw [hrec] at h
          simp only [Except.ok.injEq, Prod.mk.injEq] at h
          obtain ⟨hv, hc, hr⟩ := h
          have := ih (shift + 7) _ v0 c0 r0 hrec
          subst hc hr
          simp only [List.length_cons]
          omega

/-- `readVarint` never reports the fuel sentinel (it is structurally
recursive; only the loops carry fuel). -/
theorem readVarint_ne_fuelOut :
    ∀ (rem : List Nat) (shift acc : Nat), readVarint rem shift acc ≠ .error .fuelOut := by
  intro rem
  induction rem with
  | nil => intro shift acc; rw [readVarint_nil]; split <;> simp
  | cons b tl ih =>
    intro shift acc
    rw [readVarint_cons]
    split
    · simp
    · split
      · simp
      · rcases hrec : readVarint tl (shift + 7) (acc ||| (((b &&& 0x7f) <<< shift) % 2 ^ 64))
          with e | ⟨v, c, r⟩
        · have h2 := ih (shift + 7) (acc ||| (((b &&& 0x7f) <<< shift) % 2 ^ 64))
          rw [hrec] at h2
          simpa using h2
        · simp

/-- One-step unfolding of `skipLoop` with fuel left, on a nonempty input. -/
theorem skipLoop_cons (fuel : Nat) (b : Nat) (tl : List Nat) (n depth : Nat) :
    skipLoop (fuel + 1) (b :: tl) n depth =
      match readVarint (b :: tl) 0 0 with
      | .error e => .error e
      | .ok (wire, c, rem1) =>
        if wire &&& 0x7 = 0 then
          match readVarint rem1 0 0 with
          | .error e => .error e
          | .ok (_, c2, rem2) =>
            if depth = 0 then .ok (n + c + c2) else skipLoop fuel rem2 (n + c + c2) depth
        else if wire &&& 0x7 = 1 then
          if depth = 0 then .ok (n + c + 8) else skipLoop fuel (rem1.drop 8) (n + c + 8) depth
        else if wire &&& 0x7 = 2 then
          match readVarint rem1 0 0 with
          | .error e => .error e
          | .ok (len, c2, rem2) =>
            if (9223372036854775808 : Nat) ≤ len then .error .invalidLength
            else if depth = 0 then .ok (n + c + c2 + len)
            else skipLoop fuel (rem2.drop len) (n + c + c2 + len) depth
        else if wire &&& 0x7 = 3 then
          skipLoop fuel rem1 (n + c) (depth + 1)
        else if wire &&& 0x7 = 4 then
          if depth = 0 then .error .unexpectedEndOfGroup
          else if depth - 1 = 0 then .ok (n + c)
          else skipLoop fuel rem1 (n + c) (depth - 1)
        else if wire &&& 0x7 = 5 then
          if depth = 0 then .ok (n + c + 4) else skipLoop fuel (rem1.drop 4) (n + c + 4) depth
        else .error .illegalWireType := rfl

/-- One-step unfolding of `skipLoop` with fuel left, on exhausted input. -/
theorem skipLoop_nil (fuel : Nat) (n depth : Nat) :
    skipLoop (fuel + 1) [] n depth = .error .unexpectedEOF := rfl

/-- Fuel adequacy and irrelevance for `skipLoop`: any fuel exceeding the
input length yields the same result, and that result is never the fuel
sentinel.  This is the termination argument for the source's `for` loop:
every iteration advances `iNdEx` by at least one. -/
theorem skipLoop_fuel :
    ∀ (fuel : Nat) (rem : List Nat) (n depth fuel' : Nat),
      rem.length < fuel → rem.length < fuel' →
      skipLoop fuel rem n depth = skipLoop fuel' rem n depth ∧
        skipLoop fuel rem n depth ≠ .error .fuelOut := by
  intro fuel
  induction fuel with
  | zero => intro rem n depth fuel' h h'; omega
  | succ fuel ih =>
    intro rem n depth fuel' h h'
    cases fuel' with
    | zero => omega
    | succ f' =>
      cases rem with
      | nil =>
        refine ⟨rfl, ?_⟩
        show (Except.error PErr.unexpectedEOF : Except PErr Nat) ≠ .error .fuelOut
        simp
      | cons b tl =>
        rw [skipLoop_cons, skipLoop_cons]
        rcases hrv : readVarint (b :: tl) 0 0 with e | ⟨wire, c, rem1⟩
        · refine ⟨rfl, ?_⟩
          have h2 := readVarint_ne_fuelOut (b :: tl) 0 0
          rw [hrv] at h2
          simpa using h2
        · obtain ⟨hc1, hlen⟩ := readVarint_ok_length _ _ _ _ _ _ hrv
          simp only [List.length_cons] at hlen h h'
          by_cases h0 : wire &&& 0x7 = 0
          · simp only [h0, if_pos]
            rcases hrv2 : readVarint rem1 0 0 with e2 | ⟨v2, c2, rem2⟩
            · refine ⟨rfl, ?_⟩
              have h2 := readVarint_ne_fuelOut rem1 0 0
              rw [hrv2] at h2
              simpa using h2
            · obtain ⟨hc2, hlen2⟩ := readVarint_ok_length _ _ _ _ _ _ hrv2
              by_cases hd : depth = 0
              · simp [hd]
              · simp only [hd, if_neg, if_false]
                exact ih rem2 (n + c + c2) depth f' (by omega) (by omega)
          · simp only [h0, if_neg, if_false]
            by_cases h1 : wire &&& 0x7 = 1
            · simp only [h1, if_pos]
              by_cases hd : depth = 0
              · simp [hd]
              · simp only [hd, if_neg, if_false]
                refine ih (rem1.drop 8) (n + c + 8) depth f' ?_ ?_ <;>
                  simp only [List.length_drop] <;> omega
            · simp only [h1, if_neg, if_false]
              by_cases h2 : wire &&& 0x7 = 2
              · simp only [h2, if_pos]
                rcases hrv2 : readVarint rem1 0 0 with e2 | ⟨len, c2, rem2⟩
                · refine ⟨rfl, ?_⟩
                  have hx := readVarint_ne_fuelOut rem1 0 0
                  rw [hrv2] at hx
                  simpa using hx
                · obtain ⟨hc2, hlen2⟩ := readVarint_ok_length _ _ _ _ _ _ hrv2
                  by_cases hbig : (9223372036854775808 : Nat) ≤ len
                  · simp [hbig]
                  · simp only [hbig, if_neg, if_false]
                    by_cases hd : depth = 0
                    · simp [hd]
                    · simp only [hd, if_neg, if_false]
                      refine ih (rem2.drop len) (n + c + c2 + len) depth f' ?_ ?_ <;>
                        simp only [List.length_drop] <;> omega
              · simp only [h2, if_neg, if_false]
                by_cases h3 : wire &&& 0x7 = 3
                · simp only [h3, if_pos]
                  exact ih rem1 (n + c) (depth + 1) f' (by omega) (by omega)
                · simp only [h3, if_neg, if_false]
                  by_cases h4 : wire &&& 0x7 = 4
                  · simp only [h4, if_pos]
                    by_cases hd : depth = 0
                    · simp [hd]
                    · simp only [hd, if_neg, if_false]
                      by_cases hd1 : depth - 1 = 0
                      · simp [hd1]
                      · simp only [hd1, if_neg, if_false]
                        exact ih rem1 (n + c) (depth - 1) f' (by omega) (by omega)
                  · simp only [h4, if_neg, if_false]
                    by_cases h5 : wire &&& 0x7 = 5
                    · simp only [h5, if_pos]
                      by_cases hd : depth = 0
                      · simp [hd]
                      · simp only [hd, if_neg, if_false]
                        refine ih (rem1.drop 4) (n + c + 4) depth f' ?_ ?_ <;>
                          simp only [List.length_drop] <;> omega
                    · simp [h5]

/-- A successful `skipLoop` run strictly advances the index. -/
theorem skipLoop_ok_pos :
    ∀ (fuel : Nat) (rem : List Nat) (n depth res : Nat),
      skipLoop fuel rem n depth = .ok res → n < res := by
  intro fuel
  induction fuel with
  | zero => intro rem n depth res h; simp [skipLoop] at h
  | succ fuel ih =>
    intro rem n depth res h
    cases rem with
    | nil => rw [skipLoop_nil] at h; simp at h
    | cons b tl =>
      rw [skipLoop_cons] at h
      rcases hrv : readVarint (b :: tl) 0 0 with e | ⟨wire, c, rem1⟩ <;> rw [hrv] at h
      · simp at h
      · obtain ⟨hc1, -⟩ := readVarint_ok_length _ _ _ _ _ _ hrv
        by_cases h0 : wire &&& 0x7 = 0
        · simp only [h0, if_pos] at h
          rcases hrv2 : readVarint rem1 0 0 with e2 | ⟨v2, c2, rem2⟩ <;> rw [hrv2] at h
          · simp at h
          · obtain ⟨hc2, -⟩ := readVarint_ok_length _ _ _ _ _ _ hrv2
            by_cases hd : depth = 0
            · simp [hd] at h; omega
            · simp only [hd, if_neg, if_false] at h
              have := ih rem2 (n + c + c2) depth res h; omega
        · simp only [h0, if_neg, if_false] at h
          by_cases h1 : wire &&& 0x7 = 1
          · simp only [h1, if_pos] at h
            by_cases hd : depth = 0
            · simp [hd] at h; omega
            · simp only [hd, if_neg, if_false] at h
              have := ih (rem1.drop 8) (n + c + 8) depth res h; omega
          · simp only [h1, if_neg, if_false] at h
            by_cases h2 : wire &&& 0x7 = 2
            · simp only [h2, if_pos] at h
              rcases hrv2 : readVarint rem1 0 0 with e2 | ⟨len, c2, rem2⟩ <;> rw [hrv2] at h
              · simp at h
              · obtain ⟨hc2, -⟩ := readVarint_ok_length _ _ _ _ _ _ hrv2
                by_cases hbig : (9223372036854775808 : Nat) ≤ len
                · simp [hbig] at h
                · simp only [hbig, if_neg, if_false] at h
                  by_cases hd : depth = 0
                  · simp [hd] at h; omega
                  · simp only [hd, if_neg, if_false] at h
                    have := ih (rem2.drop len) (n + c + c2 + len) depth res h; omega
            · simp only [h2, if_neg, if_false] at h
              by_cases h3 : wire &&& 0x7 = 3
              · simp only [h3, if_pos] at h
                have := ih rem1 (n + c) (depth + 1) res h; omega
              · simp only [h3, if_neg, if_false] at h
                by_cases h4 : wire &&& 0x7 = 4
                · simp only [h4, if_pos] at h
                  by_cases hd : depth = 0
                  · simp [hd] at h
                  · simp only [hd, if_neg, if_false] at h
                    by_cases hd1 : depth - 1 = 0
                    · simp [hd1] at h; omega
                    · simp only [hd1, if_neg, if_false] at h
                      have := ih rem1 (n + c) (depth - 1) res h; omega
                · simp only [h4, if_neg, if_false] at h
                  by_cases h5 : wire &&& 0x7 = 5
                  · simp only [h5, if_pos] at h
                    by_cases hd : depth = 0
                    · simp [hd] at h; omega
                    · simp only [hd, if_neg, if_false] at h
                      have := ih (rem1.drop 4) (n + c + 4) depth res h; omega
                  · simp [h5] at h

/-- `skipPacket` with its own input-derived fuel never reports the sentinel. -/
theorem skipPacket_ne_fuelOut (bs : List Nat) : skipPacket bs ≠ .error .fuelOut :=
  (skipLoop_fuel (bs.length + 1) bs 0 0 (bs.length + 1) (by omega) (by omega)).2

/-- A successful `skipPacket` skips at least one byte. -/
theorem skipPacket_ok_pos {bs : List Nat} {n : Nat} (h : skipPacket bs = .ok n) : 1 ≤ n :=
  skipLoop_ok_pos (bs.length + 1) bs 0 0 n h

/-- One-step unfolding of the legacy unmarshal loop on exhausted input. -/
theorem FungibleTokenPacketData.unmarshalLoop_nil (fuel : Nat) (m : FungibleTokenPacketData) :
    FungibleTokenPacketData.unmarshalLoop (fuel + 1) [] m = .ok m := rfl

/-- One-step unfolding of the legacy unmarshal loop on a nonempty input. -/
theorem FungibleTokenPacketData.unmarshalLoop_cons (fuel b : Nat) (tl : List Nat)
    (m : FungibleTokenPacketData) :
    FungibleTokenPacketData.unmarshalLoop (fuel + 1) (b :: tl) m =
      match readVarint (b :: tl) 0 0 with
      | .error e => .error e
      | .ok (wire, _, rem1) =>
        if wire &&& 0x7 = 4 then .error .endGroupForNonGroup
        else if toInt32 (wire >>> 3) ≤ 0 then .error .illegalTag
        else if toInt32 (wire >>> 3) = 1 then
          if wire &&& 0x7 ≠ 2 then .error .wrongWireType
          else
            match readVarint rem1 0 0 with
            | .error e => .error e
            | .ok (stringLen, _, rem2) =>
              if (9223372036854775808 : Nat) ≤ stringLen then .error .invalidLength
              else if rem2.length < stringLen then .error .unexpectedEOF
              else FungibleTokenPacketData.unmarshalLoop fuel (rem2.drop stringLen)
                { m with Denom := rem2.take stringLen }
        else if toInt32 (wire >>> 3) = 2 then
          if wire &&& 0x7 ≠ 2 then .error .wrongWireType
          else
            match readVarint rem1 0 0 with
            | .error e => .error e
            | .ok (stringLen, _, rem2) =>
              if (9223372036854775808 : Nat) ≤ stringLen then .error .invalidLength
              else if rem2.length < stringLen then .error .unexpectedEOF
              else FungibleTokenPacketData.unmarshalLoop fuel (rem2.drop stringLen)
                { m with Amount := rem2.take stringLen }
        else if toInt32 (wire >>> 3) = 3 then
          if wire &&& 0x7 ≠ 2 then .error .wrongWireType
          else
            match readVarint rem1 0 0 with
            | .error e => .error e
            | .ok (stringLen, _, rem2) =>
              if (9223372036854775808 : Nat) ≤ stringLen then .error .invalidLength
              else if rem2.length < stringLen then .error .unexpectedEOF
              else FungibleTokenPacketData.unmarshalLoop fuel (rem2.drop stringLen)
                { m with Sender := rem2.take stringLen }
        else if toInt32 (wire >>> 3) = 4 then
          if wire &&& 0x7 ≠ 2 then .error .wrongWireType
          else
            match readVarint rem1 0 0 with
            | .error e => .error e
            | .ok (stringLen, _, rem2) =>
              if (9223372036854775808 : Nat) ≤ stringLen then .error .invalidLength
              else if rem2.length < stringLen then .error .unexpectedEOF
              else FungibleTokenPacketData.unmarshalLoop fuel (rem2.drop stringLen)
                { m with Receiver := rem2.take stringLen }
        else if toInt32 (wire >>> 3) = 5 then
          if wire &&& 0x7 ≠ 2 then .error .wrongWireType
          else
            match readVarint rem1 0 0 with
            | .error e => .error e
            | .ok (stringLen, _, rem2) =>
              if (9223372036854775808 : Nat) ≤ stringLen then .error .invalidLength
              else if rem2.length < stringLen then .error .unexpectedEOF
              else FungibleTokenPacketData.unmarshalLoop fuel (rem2.drop stringLen)
                { m with Memo := rem2.take stringLen }
        else
          match skipPacket (b :: tl) with
          | .error e => .error e
          | .ok skippy =>
            if (b :: tl).length < skippy then .error .unexpectedEOF
            else FungibleTokenPacketData.unmarshalLoop fuel ((b :: tl).drop skippy) m := rfl

/-- Fuel adequacy and irrelevance for the legacy unmarshal loop. -/
theorem FungibleTokenPacketData.unmarshalLoop_fuel :
    ∀ (fuel : Nat) (rem : List Nat) (m : FungibleTokenPacketData) (fuel' : Nat),
      rem.length < fuel → rem.length < fuel' →
      FungibleTokenPacketData.unmarshalLoop fuel rem m =
          FungibleTokenPacketData.unmarshalLoop fuel' rem m ∧
        FungibleTokenPacketData.unmarshalLoop fuel rem m ≠ .error .fuelOut := by
  intro fuel
  induction fuel with
  | zero => intro rem m fuel' h h'; omega
  | succ fuel ih =>
    intro rem m fuel' h h'
    cases fuel' with
    | zero => omega
    | succ f' =>
      cases rem with
      | nil =>
        rw [FungibleTokenPacketData.unmarshalLoop_nil, FungibleTokenPacketData.unmarshalLoop_nil]
        simp
      | cons b tl =>
        rw [FungibleTokenPacketData.unmarshalLoop_cons, FungibleTokenPacketData.unmarshalLoop_cons]
        simp only [List.length_cons]
        rcases hrv : readVarint (b :: tl) 0 0 with e | ⟨wire, c, rem1⟩
        · refine ⟨rfl, ?_⟩
          have h2 := readVarint_ne_fuelOut (b :: tl) 0 0
          rw [hrv] at h2
          simpa using h2
        · obtain ⟨hc1, hlen⟩ := readVarint_ok_length _ _ _ _ _ _ hrv
          simp only [List.length_cons] at hlen h h'
          by_cases hw4 : wire &&& 0x7 = 4
          · simp [hw4]
          · simp only [hw4, if_neg, if_false]
            by_cases htag : toInt32 (wire >>> 3) ≤ 0
            · simp [htag]
            · simp only [htag, if_neg, if_false]
              by_cases hwt : wire &&& 0x7 ≠ 2
              case pos =>
                -- every string field rejects the wire type identically
                by_cases hf1 : toInt32 (wire >>> 3) = 1
                · simp [hf1, hwt]
                · simp only [hf1, if_neg, if_false]
                  by_cases hf2 : toInt32 (wire >>> 3) = 2
                  · simp [hf2, hwt]
                  · simp only [hf2, if_neg, if_false]
                    by_cases hf3 : toInt32 (wire >>> 3) = 3
                    · simp [hf3, hwt]
                    · simp only [hf3, if_neg, if_false]
                      by_cases hf4 : toInt32 (wire >>> 3) = 4
                      · simp [hf4, hwt]
                      · simp only [hf4, if_neg, if_false]
                        by_cases hf5 : toInt32 (wire >>> 3) = 5
                        · simp [hf5, hwt]
                        · simp only [hf5, if_neg, if_false]
                          rcases hsp : skipPacket (b :: tl) with e | skippy
                          · refine ⟨rfl, ?_⟩
                            have h2 := skipPacket_ne_fuelOut (b :: tl)
                            rw [hsp] at h2
                            simpa using h2
                          · have hpos := skipPacket_ok_pos hsp
                            by_cases hsk : tl.length + 1 < skippy
                            · simp [hsk]
                            · simp only [hsk, if_neg, if_false]
                              refine ih ((b :: tl).drop skippy) m f' ?_ ?_ <;>
                                simp only [List.length_drop, List.length_cons] <;> omega
              case neg =>
                have hwt2 : wire &&& 0x7 = 2 := by omega
                have hcond : (wire &&& 0x7 ≠ 2) = False := by simp [hwt2]
                rcases hrv2 : readVarint rem1 0 0 with e2 | ⟨stringLen, c2, rem2⟩
                · have h2 := readVarint_ne_fuelOut rem1 0 0
                  rw [hrv2] at h2
                  by_cases hf1 : toInt32 (wire >>> 3) = 1
                  · simp only [hf1, if_pos, hcond, if_false, hrv2]
                    exact ⟨by trivial, by simpa using h2⟩
                  · simp only [hf1, if_neg, if_false]
                    by_cases hf2 : toInt32 (wire >>> 3) = 2
                    · simp only [hf2, if_pos, hcond, if_false, hrv2]
                      exact ⟨by trivial, by simpa using h2⟩
                    · simp only [hf2, if_neg, if_false]
                      by_cases hf3 : toInt32 (wire >>> 3) = 3
                      · simp only [hf3, if_pos, hcond, if_false, hrv2]
                        exact ⟨by trivial, by simpa using h2⟩
                      · simp only [hf3, if_neg, if_false]
                        by_cases hf4 : toInt32 (wire >>> 3) = 4
                        · simp only [hf4, if_pos, hcond, if_false, hrv2]
                          exact ⟨by trivial, by simpa using h2⟩
                        · simp only [hf4, if_neg, if_false]
                          by_cases hf5 : toInt32 (wire >>> 3) = 5
                          · simp only [hf5, if_pos, hcond, if_false, hrv2]
                            exact ⟨by trivial, by simpa using h2⟩
                          · simp only [hf5, if_neg, if_false]
                            rcases hsp : skipPacket (b :: tl) with e | skippy
                            · refine ⟨rfl, ?_⟩
                              have h3 := skipPacket_ne_fuelOut (b :: tl)
                              rw [hsp] at h3
                              simpa using h3
                            · have hpos := skipPacket_ok_pos hsp
                              by_cases hsk : tl.length + 1 < skippy
                              · simp [hsk]
                              · simp only [hsk, if_neg, if_false]
                                refine ih ((b :: tl).drop skippy) m f' ?_ ?_ <;>
                                  simp only [List.length_drop, List.length_cons] <;> omega
                · obtain ⟨hc2, hlen2⟩ := readVarint_ok_length _ _ _ _ _ _ hrv2
                  have hrec : ∀ (s : List Nat) (m2 : FungibleTokenPacketData),
                      s.length ≤ rem2.length →
                      FungibleTokenPacketData.unmarshalLoop fuel s m2 =
                          FungibleTokenPacketData.unmarshalLoop f' s m2 ∧
                        FungibleTokenPacketData.unmarshalLoop fuel s m2 ≠ .error .fuelOut :=
                    fun s m2 hs => ih s m2 f' (by omega) (by omega)
                  by_cases hbig : (9223372036854775808 : Nat) ≤ stringLen
                  · by_cases hf1 : toInt32 (wire >>> 3) = 1
                    · simp [hf1, hwt2, hrv2, hbig]
                    · simp only [hf1, if_neg, if_false]
                      by_cases hf2 : toInt32 (wire >>> 3) = 2
                      · simp [hf2, hwt2, hrv2, hbig]
                      · simp only [hf2, if_neg, if_false]
                        by_cases hf3 : toInt32 (wire >>> 3) = 3
                        · simp [hf3, hwt2, hrv2, hbig]
                        · simp only [hf3, if_neg, if_false]
                          by_cases hf4 : toInt32 (wire >>> 3) = 4
                          · simp [hf4, hwt2, hrv2, hbig]
                          · simp only [hf4, if_neg, if_false]
                            by_cases hf5 : toInt32 (wire >>> 3) = 5
                            · simp [hf5, hwt2, hrv2, hbig]
                            · simp only [hf5, if_neg, if_false]
                              rcases hsp : skipPacket (b :: tl) with e | skippy
                              · refine ⟨rfl, ?_⟩
                                have h3 := skipPacket_ne_fuelOut (b :: tl)
                                rw [hsp] at h3
                                simpa using h3
                              · have hpos := skipPacket_ok_pos hsp
                                by_cases hsk : tl.length + 1 < skippy
                                · simp [hsk]
                                · simp only [hsk, if_neg, if_false]
                                  refine ih ((b :: tl).drop skippy) m f' ?_ ?_ <;>
                                    simp only [List.length_drop, List.length_cons] <;> omega
                  · by_cases hshort : rem2.length < stringLen
                    · by_cases hf1 : toInt32 (wire >>> 3) = 1
                      · simp [hf1, hwt2, hrv2, hbig, hshort]
                      · simp only [hf1, if_neg, if_false]
                        by_cases hf2 : toInt32 (wire >>> 3) = 2
                        · simp [hf2, hwt2, hrv2, hbig, hshort]
                        · simp only [hf2, if_neg, if_false]
                          by_cases hf3 : toInt32 (wire >>> 3) = 3
                          · simp [hf3, hwt2, hrv2, hbig, hshort]
                          · simp only [hf3, if_neg, if_false]
                            by_cases hf4 : toInt32 (wire >>> 3) = 4
                            · simp [hf4, hwt2, hrv2, hbig, hshort]
                            · simp only [hf4, if_neg, if_false]
                              by_cases hf5 : toInt32 (wire >>> 3) = 5
                              · simp [hf5, hwt2, hrv2, hbig, hshort]
                              · simp only [hf5, if_neg, if_false]
                                rcases hsp : skipPacket (b :: tl) with e | skippy
                                · refine ⟨rfl, ?_⟩
                                  have h3 := skipPacket_ne_fuelOut (b :: tl)
                                  rw [hsp] at h3
                                  simpa using h3
                                · have hpos := skipPacket_ok_pos hsp
                                  by_cases hsk : tl.length + 1 < skippy
                                  · simp [hsk]
                                  · simp only [hsk, if_neg, if_false]
                                    refine ih ((b :: tl).drop skippy) m f' ?_ ?_ <;>
                                      simp only [List.length_drop, List.length_cons] <;> omega
                    · by_cases hf1 : toInt32 (wire >>> 3) = 1
                      · simp only [hf1, if_pos, hcond, if_false, hrv2, hbig, hshort]
                        exact hrec _ _ (by simp [List.length_drop])
                      · simp only [hf1, if_neg, if_false]
                        by_cases hf2 : toInt32 (wire >>> 3) = 2
                        · simp only [hf2, if_pos, hcond, if_false, hrv2, hbig, hshort]
                          exact hrec _ _ (by simp [List.length_drop])
                        · simp only [hf2, if_neg, if_false]
                          by_cases hf3 : toInt32 (wire >>> 3) = 3
                          · simp only [hf3, if_pos, hcond, if_false, hrv2, hbig, hshort]
                            exact hrec _ _ (by simp [List.length_drop])
                          · simp only [hf3, if_neg, if_false]
                            by_cases hf4 : toInt32 (wire >>> 3) = 4
                            · simp only [hf4, if_pos, hcond, if_false, hrv2, hbig, hshort]
                              exact hrec _ _ (by simp [List.length_drop])
                            · simp only [hf4, if_neg, if_false]
                              by_cases hf5 : toInt32 (wire >>> 3) = 5
                              · simp only [hf5, if_pos, hcond, if_false, hrv2, hbig,
                                  hshort]
                                exact hrec _ _ (by simp [List.length_drop])
                              · simp only [hf5, if_neg, if_false]
                                rcases hsp : skipPacket (b :: tl) with e | skippy
                                · refine ⟨rfl, ?_⟩
                                  have h3 := skipPacket_ne_fuelOut (b :: tl)
                                  rw [hsp] at h3
                                  simpa using h3
                                · have hpos := skipPacket_ok_pos hsp
                                  by_cases hsk : tl.length + 1 < skippy
                                  · simp [hsk]
                                  · simp only [hsk, if_neg, if_false]
                                    refine ih ((b :: tl).drop skippy) m f' ?_ ?_ <;>
                                      simp only [List.length_drop, List.length_cons] <;> omega

/-- `FungibleTokenPacketData.Unmarshal` never reports the fuel sentinel:
the loop terminates within input-length iterations for every input. -/
theorem FungibleTokenPacketData.Unmarshal_ne_fuelOut (bs : List Nat) :
    FungibleTokenPacketData.Unmarshal bs ≠ .error .fuelOut :=
  (FungibleTokenPacketData.unmarshalLoop_fuel (bs.length + 1) bs ⟨[], [], [], [], []⟩
    (bs.length + 1) (by omega) (by omega)).2

/-- One-step unfolding of the `Token` unmarshal loop on exhausted input. -/
theorem Token.unmarshalLoop_nil_tok (fuel : Nat) (m : Token) :
    Token.unmarshalLoop (fuel + 1) [] m = .ok m := rfl

/-- One-step unfolding of the `Token` unmarshal loop on a nonempty input. -/
theorem Token.unmarshalLoop_cons_tok (fuel b : Nat) (tl : List Nat) (m : Token) :
    Token.unmarshalLoop (fuel + 1) (b :: tl) m =
      match readVarint (b :: tl) 0 0 with
      | .error e => .error e
      | .ok (wire, _, rem1) =>
        if wire &&& 0x7 = 4 then .error .endGroupForNonGroup
        else if toInt32 (wire >>> 3) ≤ 0 then .error .illegalTag
        else if toInt32 (wire >>> 3) = 1 then
          if wire &&& 0x7 ≠ 2 then .error .wrongWireType
          else
            match readVarint rem1 0 0 with
            | .error e => .error e
            | .ok (stringLen, _, rem2) =>
              if (9223372036854775808 : Nat) ≤ stringLen then .error .invalidLength
              else if rem2.length < stringLen then .error .unexpectedEOF
              else Token.unmarshalLoop fuel (rem2.drop stringLen)
                { m with Denom := rem2.take stringLen }
        else if toInt32 (wire >>> 3) = 2 then
          if wire &&& 0x7 ≠ 0 then .error .wrongWireType
          else
            match readVarint rem1 0 0 with
            | .error e => .error e
            | .ok (amount, _, rem2) =>
              Token.unmarshalLoop fuel rem2 { m with Amount := amount }
        else if toInt32 (wire >>> 3) = 3 then
          if wire &&& 0x7 ≠ 2 then .error .wrongWireType
          else
            match readVarint rem1 0 0 with
            | .error e => .error e
            | .ok (stringLen, _, rem2) =>
              if (9223372036854775808 : Nat) ≤ stringLen then .error .invalidLength
              else if rem2.length < stringLen then .error .unexpectedEOF
              else Token.unmarshalLoop fuel (rem2.drop stringLen)
                { m with Trace := m.Trace ++ [rem2.take stringLen] }
        else
          match skipPacket (b :: tl) with
          | .error e => .error e
          | .ok skippy =>
            if (b :: tl).length < skippy then .error .unexpectedEOF
            else Token.unmarshalLoop fuel ((b :: tl).drop skippy) m := rfl

/-- Fuel adequacy and irrelevance for the `Token` unmarshal loop. -/
theorem Token.unmarshalLoop_fuel_tok :
    ∀ (fuel : Nat) (rem : List Nat) (m : Token) (fuel' : Nat),
      rem.length < fuel → rem.length < fuel' →
      Token.unmarshalLoop fuel rem m = Token.unmarshalLoop fuel' rem m ∧
        Token.unmarshalLoop fuel rem m ≠ .error .fuelOut := by
  intro fuel
  induction fuel with
  | zero => intro rem m fuel' h h'; omega
  | succ fuel ih =>
    intro rem m fuel' h h'
    cases fuel' with
    | zero => omega
    | succ f' =>
      cases rem with
      | nil =>
        rw [Token.unmarshalLoop_nil_tok, Token.unmarshalLoop_nil_tok]
        simp
      | cons b tl =>
        rw [Token.unmarshalLoop_cons_tok, Token.unmarshalLoop_cons_tok]
        simp only [List.length_cons]
        rcases hrv : readVarint (b :: tl) 0 0 with e | ⟨wire, c, rem1⟩
        · refine ⟨rfl, ?_⟩
          have h2 := readVarint_ne_fuelOut (b :: tl) 0 0
          rw [hrv] at h2
          simpa using h2
        · obtain ⟨hc1, hlen⟩ := readVarint_ok_length _ _ _ _ _ _ hrv
          simp only [List.length_cons] at hlen h h'
          by_cases hw4 : wire &&& 0x7 = 4
          · simp [hw4]
          · simp only [hw4, if_neg, if_false]
            by_cases htag : toInt32 (wire >>> 3) ≤ 0
            · simp [htag]
            · simp only [htag, if_neg, if_false]
              by_cases hf1 : toInt32 (wire >>> 3) = 1
              · by_cases hwt : wire &&& 0x7 ≠ 2
                · simp [hf1, hwt]
                · have hcond : (wire &&& 0x7 ≠ 2) = False := by
                    simp [show wire &&& 0x7 = 2 by omega]
                  rcases hrv2 : readVarint rem1 0 0 with e2 | ⟨stringLen, c2, rem2⟩
                  · have h2 := readVarint_ne_fuelOut rem1 0 0
                    rw [hrv2] at h2
                    simp only [hf1, if_pos, hcond, if_false, hrv2]
                    exact ⟨by trivial, by simpa using h2⟩
                  · obtain ⟨hc2, hlen2⟩ := readVarint_ok_length _ _ _ _ _ _ hrv2
                    by_cases hbig : (9223372036854775808 : Nat) ≤ stringLen
                    · simp [hf1, hcond, hrv2, hbig]
                    · by_cases hshort : rem2.length < stringLen
                      · simp [hf1, hcond, hrv2, hbig, hshort]
                      · simp only [hf1, if_pos, hcond, if_false, hrv2, hbig, hshort]
                        exact ih _ _ f' (by simp only [List.length_drop]; omega)
                          (by simp only [List.length_drop]; omega)
              · simp only [hf1, if_neg, if_false]
                by_cases hf2 : toInt32 (wire >>> 3) = 2
                · by_cases hwt : wire &&& 0x7 ≠ 0
                  · simp [hf2, hwt]
                  · have hcond : (wire &&& 0x7 ≠ 0) = False := by
                      simp [show wire &&& 0x7 = 0 by omega]
                    rcases hrv2 : readVarint rem1 0 0 with e2 | ⟨amount, c2, rem2⟩
                    · have h2 := readVarint_ne_fuelOut rem1 0 0
                      rw [hrv2] at h2
                      simp only [hf2, if_pos, hcond, if_false, hrv2]
                      exact ⟨by trivial, by simpa using h2⟩
                    · obtain ⟨hc2, hlen2⟩ := readVarint_ok_length _ _ _ _ _ _ hrv2
                      simp only [hf2, if_pos, hcond, if_false, hrv2]
                      exact ih _ _ f' (by omega) (by omega)
                · simp only [hf2, if_neg, if_false]
                  by_cases hf3 : toInt32 (wire >>> 3) = 3
                  · by_cases hwt : wire &&& 0x7 ≠ 2
                    · simp [hf3, hwt]
                    · have hcond : (wire &&& 0x7 ≠ 2) = False := by
                        simp [show wire &&& 0x7 = 2 by omega]
                      rcases hrv2 : readVarint rem1 0 0 with e2 | ⟨stringLen, c2, rem2⟩
                      · have h2 := readVarint_ne_fuelOut rem1 0 0
                        rw [hrv2] at h2
                        simp only [hf3, if_pos, hcond, if_false, hrv2]
                        exact ⟨by trivial, by simpa using h2⟩
                      · obtain ⟨hc2, hlen2⟩ := readVarint_ok_length _ _ _ _ _ _ hrv2
                        by_cases hbig : (9223372036854775808 : Nat) ≤ stringLen
                        · simp [hf3, hcond, hrv2, hbig]
                        · by_cases hshort : rem2.length < stringLen
                          · simp [hf3, hcond, hrv2, hbig, hshort]
                          · simp only [hf3, if_pos, hcond, if_false, hrv2, hbig, hshort]
                            exact ih _ _ f' (by simp only [List.length_drop]; omega)
                              (by simp only [List.length_drop]; omega)
                  · simp only [hf3, if_neg, if_false]
                    rcases hsp : skipPacket (b :: tl) with e | skippy
                    · refine ⟨rfl, ?_⟩
                      have h3 := skipPacket_ne_fuelOut (b :: tl)
                      rw [hsp] at h3
                      simpa using h3
                    · have hpos := skipPacket_ok_pos hsp
                      by_cases hsk : tl.length + 1 < skippy
                      · simp [hsk]
                      · simp only [hsk, if_neg, if_false]
                        refine ih ((b :: tl).drop skippy) m f' ?_ ?_ <;>
                          simp only [List.length_drop, List.length_cons] <;> omega

/-- `Token.Unmarshal` never reports the fuel sentinel. -/
theorem Token.Unmarshal_ne_fuelOut_tok (bs : List Nat) :
    Token.Unmarshal bs ≠ .error .fuelOut :=
  (Token.unmarshalLoop_fuel_tok (bs.length + 1) bs ⟨[], 0, []⟩
    (bs.length + 1) (by omega) (by omega)).2

/-- One-step unfolding of the V2 unmarshal loop on exhausted input. -/
theorem FungibleTokenPacketDataV2.unmarshalLoop_nil_v2 (fuel : Nat)
    (m : FungibleTokenPacketDataV2) :
    FungibleTokenPacketDataV2.unmarshalLoop (fuel + 1) [] m = .ok m := rfl

/-- One-step unfolding of the V2 unmarshal loop on a nonempty input. -/
theorem FungibleTokenPacketDataV2.unmarshalLoop_cons_v2 (fuel b : Nat) (tl : List Nat)
    (m : FungibleTokenPacketDataV2) :
    FungibleTokenPacketDataV2.unmarshalLoop (fuel + 1) (b :: tl) m =
      match readVarint (b :: tl) 0 0 with
      | .error e => .error e
      | .ok (wire, _, rem1) =>
        if wire &&& 0x7 = 4 then .error .endGroupForNonGroup
        else if toInt32 (wire >>> 3) ≤ 0 then .error .illegalTag
        else if toInt32 (wire >>> 3) = 1 then
          if wire &&& 0x7 ≠ 2 then .error .wrongWireType
          else
            match readVarint rem1 0 0 with
            | .error e => .error e
            | .ok (msglen, _, rem2) =>
              if (9223372036854775808 : Nat) ≤ msglen then .error .invalidLength
              else if rem2.length < msglen then .error .unexpectedEOF
              else
                match Token.Unmarshal (rem2.take msglen) with
                | .error e => .error e
                | .ok t => FungibleTokenPacketDataV2.unmarshalLoop fuel (rem2.drop msglen)
                    { m with Tokens := m.Tokens ++ [t] }
        else if toInt32 (wire >>> 3) = 2 then
          if wire &&& 0x7 ≠ 2 then .error .wrongWireType
          else
            match readVarint rem1 0 0 with
            | .error e => .error e
            | .ok (stringLen, _, rem2) =>
              if (9223372036854775808 : Nat) ≤ stringLen then .error .invalidLength
              else if rem2.length < stringLen then .error .unexpectedEOF
              else FungibleTokenPacketDataV2.unmarshalLoop fuel (rem2.drop stringLen)
                { m with Sender := rem2.take stringLen }
        else if toInt32 (wire >>> 3) = 3 then
          if wire &&& 0x7 ≠ 2 then .error .wrongWireType
          else
            match readVarint rem1 0 0 with
            | .error e => .error e
            | .ok (stringLen, _, rem2) =>
              if (9223372036854775808 : Nat) ≤ stringLen then .error .invalidLength
              else if rem2.length < stringLen then .error .unexpectedEOF
              else FungibleTokenPacketDataV2.unmarshalLoop fuel (rem2.drop stringLen)
                { m with Receiver := rem2.take stringLen }
        else if toInt32 (wire >>> 3) = 4 then
          if wire &&& 0x7 ≠ 2 then .error .wrongWireType
          else
            match readVarint rem1 0 0 with
            | .error e => .error e
            | .ok (stringLen, _, rem2) =>
              if (9223372036854775808 : Nat) ≤ stringLen then .error .invalidLength
              else if rem2.length < stringLen then .error .unexpectedEOF
              else FungibleTokenPacketDataV2.unmarshalLoop fuel (rem2.drop stringLen)
                { m with Memo := rem2.take stringLen }
        else
          match skipPacket (b :: tl) with
          | .error e => .error e
          | .ok skippy =>
            if (b :: tl).length < skippy then .error .unexpectedEOF
            else FungibleTokenPacketDataV2.unmarshalLoop fuel ((b :: tl).drop skippy) m := rfl

/-- Fuel adequacy and irrelevance for the V2 unmarshal loop. -/
theorem FungibleTokenPacketDataV2.unmarshalLoop_fuel_v2 :
    ∀ (fuel : Nat) (rem : List Nat) (m : FungibleTokenPacketDataV2) (fuel' : Nat),
      rem.length < fuel → rem.length < fuel' →
      FungibleTokenPacketDataV2.unmarshalLoop fuel rem m =
          FungibleTokenPacketDataV2.unmarshalLoop fuel' rem m ∧
        FungibleTokenPacketDataV2.unmarshalLoop fuel rem m ≠ .error .fuelOut := by
  intro fuel
  induction fuel with
  | zero => intro rem m fuel' h h'; omega
  | succ fuel ih =>
    intro rem m fuel' h h'
    cases fuel' with
    | zero => omega
    | succ f' =>
      cases rem with
      | nil =>
        rw [FungibleTokenPacketDataV2.unmarshalLoop_nil_v2,
          FungibleTokenPacketDataV2.unmarshalLoop_nil_v2]
        simp
      | cons b tl =>
        rw [FungibleTokenPacketDataV2.unmarshalLoop_cons_v2,
          FungibleTokenPacketDataV2.unmarshalLoop_cons_v2]
        simp only [List.length_cons]
        rcases hrv : readVarint (b :: tl) 0 0 with e | ⟨wire, c, rem1⟩
        · refine ⟨rfl, ?_⟩
          have h2 := readVarint_ne_fuelOut (b :: tl) 0 0
          rw [hrv] at h2
          simpa using h2
        · obtain ⟨hc1, hlen⟩ := readVarint_ok_length _ _ _ _ _ _ hrv
          simp only [List.length_cons] at hlen h h'
          by_cases hw4 : wire &&& 0x7 = 4
          · simp [hw4]
          · simp only [hw4, if_neg, if_false]
            by_cases htag : toInt32 (wire >>> 3) ≤ 0
            · simp [htag]
            · simp only [htag, if_neg, if_false]
              by_cases hwt : wire &&& 0x7 ≠ 2
              case pos =>
                by_cases hf1 : toInt32 (wire >>> 3) = 1
                · simp [hf1, hwt]
                · simp only [hf1, if_neg, if_false]
                  by_cases hf2 : toInt32 (wire >>> 3) = 2
                  · simp [hf2, hwt]
                  · simp only [hf2, if_neg, if_false]
                    by_cases hf3 : toInt32 (wire >>> 3) = 3
                    · simp [hf3, hwt]
                    · simp only [hf3, if_neg, if_false]
                      by_cases hf4 : toInt32 (wire >>> 3) = 4
                      · simp [hf4, hwt]
                      · simp only [hf4, if_neg, if_false]
                        rcases hsp : skipPacket (b :: tl) with e | skippy
                        · refine ⟨rfl, ?_⟩
                          have h2 := skipPacket_ne_fuelOut (b :: tl)
                          rw [hsp] at h2
                          simpa using h2
                        · have hpos := skipPacket_ok_pos hsp
                          by_cases hsk : tl.length + 1 < skippy
                          · simp [hsk]
                          · simp only [hsk, if_neg, if_false]
                            refine ih ((b :: tl).drop skippy) m f' ?_ ?_ <;>
                              simp only [List.length_drop, List.length_cons] <;> omega
              case neg =>
                have hwt2 : wire &&& 0x7 = 2 := by omega
                have hcond : (wire &&& 0x7 ≠ 2) = False := by simp [hwt2]
                rcases hrv2 : readVarint rem1 0 0 with e2 | ⟨stringLen, c2, rem2⟩
                · have h2 := readVarint_ne_fuelOut rem1 0 0
                  rw [hrv2] at h2
                  by_cases hf1 : toInt32 (wire >>> 3) = 1
                  · simp only [hf1, if_pos, hcond, if_false, hrv2]
                    exact ⟨by trivial, by simpa using h2⟩
                  · simp only [hf1, if_neg, if_false]
                    by_cases hf2 : toInt32 (wire >>> 3) = 2
                    · simp only [hf2, if_pos, hcond, if_false, hrv2]
                      exact ⟨by trivial, by simpa using h2⟩
                    · simp only [hf2, if_neg, if_false]
                      by_cases hf3 : toInt32 (wire >>> 3) = 3
                      · simp only [hf3, if_pos, hcond, if_false, hrv2]
                        exact ⟨by trivial, by simpa using h2⟩
                      · simp only [hf3, if_neg, if_false]
                        by_cases hf4 : toInt32 (wire >>> 3) = 4
                        · simp only [hf4, if_pos, hcond, if_false, hrv2]
                          exact ⟨by trivial, by simpa using h2⟩
                        · simp only [hf4, if_neg, if_false]
                          rcases hsp : skipPacket (b :: tl) with e | skippy
                          · refine ⟨rfl, ?_⟩
                            have h3 := skipPacket_ne_fuelOut (b :: tl)
                            rw [hsp] at h3
                            simpa using h3
                          · have hpos := skipPacket_ok_pos hsp
                            by_cases hsk : tl.length + 1 < skippy
                            · simp [hsk]
                            · simp only [hsk, if_neg, if_false]
                              refine ih ((b :: tl).drop skippy) m f' ?_ ?_ <;>
                                simp only [List.length_drop, List.length_cons] <;> omega
                · obtain ⟨hc2, hlen2⟩ := readVarint_ok_length _ _ _ _ _ _ hrv2
                  have hrec : ∀ (s : List Nat) (m2 : FungibleTokenPacketDataV2),
                      s.length ≤ rem2.length →
                      FungibleTokenPacketDataV2.unmarshalLoop fuel s m2 =
                          FungibleTokenPacketDataV2.unmarshalLoop f' s m2 ∧
                        FungibleTokenPacketDataV2.unmarshalLoop fuel s m2 ≠ .error .fuelOut :=
                    fun s m2 hs => ih s m2 f' (by omega) (by omega)
                  by_cases hbig : (9223372036854775808 : Nat) ≤ stringLen
                  · by_cases hf1 : toInt32 (wire >>> 3) = 1
                    · simp [hf1, hcond, hrv2, hbig]
                    · simp only [hf1, if_neg, if_false]
                      by_cases hf2 : toInt32 (wire >>> 3) = 2
                      · simp [hf2, hcond, hrv2, hbig]
                      · simp only [hf2, if_neg, if_false]
                        by_cases hf3 : toInt32 (wire >>> 3) = 3
                        · simp [hf3, hcond, hrv2, hbig]
                        · simp only [hf3, if_neg, if_false]
                          by_cases hf4 : toInt32 (wire >>> 3) = 4
                          · simp [hf4, hcond, hrv2, hbig]
                          · simp only [hf4, if_neg, if_false]
                            rcases hsp : skipPacket (b :: tl) with e | skippy
                            · refine ⟨rfl, ?_⟩
                              have h3 := skipPacket_ne_fuelOut (b :: tl)
                              rw [hsp] at h3
                              simpa using h3
                            · have hpos := skipPacket_ok_pos hsp
                              by_cases hsk : tl.length + 1 < skippy
                              · simp [hsk]
                              · simp only [hsk, if_neg, if_false]
                                refine ih ((b :: tl).drop skippy) m f' ?_ ?_ <;>
                                  simp only [List.length_drop, List.length_cons] <;> omega
                  · by_cases hshort : rem2.length < stringLen
                    · by_cases hf1 : toInt32 (wire >>> 3) = 1
                      · simp [hf1, hcond, hrv2, hbig, hshort]
                      · simp only [hf1, if_neg, if_false]
                        by_cases hf2 : toInt32 (wire >>> 3) = 2
                        · simp [hf2, hcond, hrv2, hbig, hshort]
                        · simp only [hf2, if_neg, if_false]
                          by_cases hf3 : toInt32 (wire >>> 3) = 3
                          · simp [hf3, hcond, hrv2, hbig, hshort]
                          · simp only [hf3, if_neg, if_false]
                            by_cases hf4 : toInt32 (wire >>> 3) = 4
                            · simp [hf4, hcond, hrv2, hbig, hshort]
                            · simp only [hf4, if_neg, if_false]
                              rcases hsp : skipPacket (b :: tl) with e | skippy
                              · refine ⟨rfl, ?_⟩
                                have h3 := skipPacket_ne_fuelOut (b :: tl)
                                rw [hsp] at h3
                                simpa using h3
                              · have hpos := skipPacket_ok_pos hsp
                                by_cases hsk : tl.length + 1 < skippy
                                · simp [hsk]
                                · simp only [hsk, if_neg, if_false]
                                  refine ih ((b :: tl).drop skippy) m f' ?_ ?_ <;>
                                    simp only [List.length_drop, List.length_cons] <;> omega
                    · by_cases hf1 : toInt32 (wire >>> 3) = 1
                      · simp only [hf1, if_pos, hcond, if_false, hrv2, hbig, hshort]
                        rcases htk : Token.Unmarshal (rem2.take stringLen) with e3 | t
                        · refine ⟨rfl, ?_⟩
                          have h3 := Token.Unmarshal_ne_fuelOut_tok (rem2.take stringLen)
                          rw [htk] at h3
                          simpa using h3
                        · exact hrec _ _ (by simp [List.length_drop])
                      · simp only [hf1, if_neg, if_false]
                        by_cases hf2 : toInt32 (wire >>> 3) = 2
                        · simp only [hf2, if_pos, hcond, if_false, hrv2, hbig, hshort]
                          exact hrec _ _ (by simp [List.length_drop])
                        · simp only [hf2, if_neg, if_false]
                          by_cases hf3 : toInt32 (wire >>> 3) = 3
                          · simp only [hf3, if_pos, hcond, if_false, hrv2, hbig, hshort]
                            exact hrec _ _ (by simp [List.length_drop])
                          · simp only [hf3, if_neg, if_false]
                            by_cases hf4 : toInt32 (wire >>> 3) = 4
                            · simp only [hf4, if_pos, hcond, if_false, hrv2, hbig, hshort]
                              exact hrec _ _ (by simp [List.length_drop])
                            · simp only [hf4, if_neg, if_false]
                              rcases hsp : skipPacket (b :: tl) with e | skippy
                              · refine ⟨rfl, ?_⟩
                                have h3 := skipPacket_ne_fuelOut (b :: tl)
                                rw [hsp] at h3
                                simpa using h3
                              · have hpos := skipPacket_ok_pos hsp
                                by_cases hsk : tl.length + 1 < skippy
                                · simp [hsk]
                                · simp only [hsk, if_neg, if_false]
                                  refine ih ((b :: tl).drop skippy) m f' ?_ ?_ <;>
                                    simp only [List.length_drop, List.length_cons] <;> omega

/-- `FungibleTokenPacketDataV2.Unmarshal` never reports the fuel sentinel. -/
theorem FungibleTokenPacketDataV2.Unmarshal_ne_fuelOut_v2 (bs : List Nat) :
    FungibleTokenPacketDataV2.Unmarshal bs ≠ .error .fuelOut :=
  (FungibleTokenPacketDataV2.unmarshalLoop_fuel_v2 (bs.length + 1) bs ⟨[], [], [], []⟩
    (bs.length + 1) (by omega) (by omega)).2

/-! ### Round-trip: decoding one marshalled field block -/

theorem putVarint_pos (v : Nat) : 1 ≤ (putVarint v).length := by
  rw [putVarint]
  split <;> simp

theorem rawLenField_length (tag : Nat) (s : List Nat) :
    (rawLenField tag s).length = 1 + (putVarint s.length).length + s.length := by
  simp [rawLenField]
  omega

/-- Decoding a marshalled Denom field block sets `Denom` and continues. -/
theorem FungibleTokenPacketData.decode_denom (fuel fuel2 : Nat) (d rest : List Nat)
    (m : FungibleTokenPacketData) (hd : d.length < 2 ^ 63)
    (hfuel : (rawLenField 0xa d ++ rest).length < fuel) (hfuel2 : rest.length < fuel2) :
    FungibleTokenPacketData.unmarshalLoop fuel (rawLenField 0xa d ++ rest) m =
      FungibleTokenPacketData.unmarshalLoop fuel2 rest { m with Denom := d } := by
  cases fuel with
  | zero => omega
  | succ f =>
    have hblock : rawLenField 0xa d ++ rest = 0xa :: (putVarint d.length ++ (d ++ rest)) := by
      simp [rawLenField]
    rw [hblock]
    rw [FungibleTokenPacketData.unmarshalLoop_cons]
    rw [readVarint_single (by norm_num) _]
    simp only []
    rw [if_neg (by decide : ¬((0xa : Nat) &&& 0x7 = 4))]
    rw [if_neg (by decide : ¬(toInt32 ((0xa : Nat) >>> 3) ≤ 0))]
    rw [if_pos (by decide : toInt32 ((0xa : Nat) >>> 3) = 1)]
    rw [if_neg (by decide : ¬((0xa : Nat) &&& 0x7 ≠ 2))]
    rw [readVarint_putVarint (by omega) (d ++ rest)]
    simp only []
    rw [if_neg (by omega : ¬((9223372036854775808 : Nat) ≤ d.length))]
    rw [if_neg (by simp : ¬((d ++ rest).length < d.length))]
    rw [List.take_left, List.drop_left]
    have hlen := rawLenField_length 0xa d
    have hpv := putVarint_pos d.length
    refine (FungibleTokenPacketData.unmarshalLoop_fuel f rest _ fuel2 ?_ hfuel2).1
    simp only [List.length_append] at hfuel
    omega

/-- Decoding a marshalled Amount field block sets `Amount` and continues. -/
theorem FungibleTokenPacketData.decode_amount (fuel fuel2 : Nat) (d rest : List Nat)
    (m : FungibleTokenPacketData) (hd : d.length < 2 ^ 63)
    (hfuel : (rawLenField 0x12 d ++ rest).length < fuel) (hfuel2 : rest.length < fuel2) :
    FungibleTokenPacketData.unmarshalLoop fuel (rawLenField 0x12 d ++ rest) m =
      FungibleTokenPacketData.unmarshalLoop fuel2 rest { m with Amount := d } := by
  cases fuel with
  | zero => omega
  | succ f =>
    have hblock : rawLenField 0x12 d ++ rest = 0x12 :: (putVarint d.length ++ (d ++ rest)) := by
      simp [rawLenField]
    rw [hblock]
    rw [FungibleTokenPacketData.unmarshalLoop_cons]
    rw [readVarint_single (by norm_num) _]
    simp only []
    rw [if_neg (by decide : ¬((0x12 : Nat) &&& 0x7 = 4))]
    rw [if_neg (by decide : ¬(toInt32 ((0x12 : Nat) >>> 3) ≤ 0))]
    rw [if_neg (by decide : ¬(toInt32 ((0x12 : Nat) >>> 3) = 1))]
    rw [if_pos (by decide : toInt32 ((0x12 : Nat) >>> 3) = 2)]
    rw [if_neg (by decide : ¬((0x12 : Nat) &&& 0x7 ≠ 2))]
    rw [readVarint_putVarint (by omega) (d ++ rest)]
    simp only []
    rw [if_neg (by omega : ¬((9223372036854775808 : Nat) ≤ d.length))]
    rw [if_neg (by simp : ¬((d ++ rest).length < d.length))]
    rw [List.take_left, List.drop_left]
    have hlen := rawLenField_length 0x12 d
    have hpv := putVarint_pos d.length
    refine (FungibleTokenPacketData.unmarshalLoop_fuel f rest _ fuel2 ?_ hfuel2).1
    simp only [List.length_append] at hfuel
    omega

/-- Decoding a marshalled Sender field block sets `Sender` and continues. -/
theorem FungibleTokenPacketData.decode_sender (fuel fuel2 : Nat) (d rest : List Nat)
    (m : FungibleTokenPacketData) (hd : d.length < 2 ^ 63)
    (hfuel : (rawLenField 0x1a d ++ rest).length < fuel) (hfuel2 : rest.length < fuel2) :
    FungibleTokenPacketData.unmarshalLoop fuel (rawLenField 0x1a d ++ rest) m =
      FungibleTokenPacketData.unmarshalLoop fuel2 rest { m with Sender := d } := by
  cases fuel with
  | zero => omega
  | succ f =>
    have hblock : rawLenField 0x1a d ++ rest = 0x1a :: (putVarint d.length ++ (d ++ rest)) := by
      simp [rawLenField]
    rw [hblock]
    rw [FungibleTokenPacketData.unmarshalLoop_cons]
    rw [readVarint_single (by norm_num) _]
    simp only []
    rw [if_neg (by decide : ¬((0x1a : Nat) &&& 0x7 = 4))]
    rw [if_neg (by decide : ¬(toInt32 ((0x1a : Nat) >>> 3) ≤ 0))]
    rw [if_neg (by decide : ¬(toInt32 ((0x1a : Nat) >>> 3) = 1))]
    rw [if_neg (by decide : ¬(toInt32 ((0x1a : Nat) >>> 3) = 2))]
    rw [if_pos (by decide : toInt32 ((0x1a : Nat) >>> 3) = 3)]
    rw [if_neg (by decide : ¬((0x1a : Nat) &&& 0x7 ≠ 2))]
    rw [readVarint_putVarint (by omega) (d ++ rest)]
    simp only []
    rw [if_neg (by omega : ¬((9223372036854775808 : Nat) ≤ d.length))]
    rw [if_neg (by simp : ¬((d ++ rest).length < d.length))]
    rw [List.take_left, List.drop_left]
    have hlen := rawLenField_length 0x1a d
    have hpv := putVarint_pos d.length
    refine (FungibleTokenPacketData.unmarshalLoop_fuel f rest _ fuel2 ?_ hfuel2).1
    simp only [List.length_append] at hfuel
    omega

/-- Decoding a marshalled Receiver field block sets `Receiver` and continues. -/
theorem FungibleTokenPacketData.decode_receiver (fuel fuel2 : Nat) (d rest : List Nat)
    (m : FungibleTokenPacketData) (hd : d.length < 2 ^ 63)
    (hfuel : (rawLenField 0x22 d ++ rest).length < fuel) (hfuel2 : rest.length < fuel2) :
    FungibleTokenPacketData.unmarshalLoop fuel (rawLenField 0x22 d ++ rest) m =
      FungibleTokenPacketData.unmarshalLoop fuel2 rest { m with Receiver := d } := by
  cases fuel with
  | zero => omega
  | succ f =>
    have hblock : rawLenField 0x22 d ++ rest = 0x22 :: (putVarint d.length ++ (d ++ rest)) := by
      simp [rawLenField]
    rw [hblock]
    rw [FungibleTokenPacketData.unmarshalLoop_cons]
    rw [readVarint_single (by norm_num) _]
    simp only []
    rw [if_neg (by decide : ¬((0x22 : Nat) &&& 0x7 = 4))]
    rw [if_neg (by decide : ¬(toInt32 ((0x22 : Nat) >>> 3) ≤ 0))]
    rw [if_neg (by decide : ¬(toInt32 ((0x22 : Nat) >>> 3) = 1))]
    rw [if_neg (by decide : ¬(toInt32 ((0x22 : Nat) >>> 3) = 2))]
    rw [if_neg (by decide : ¬(toInt32 ((0x22 : Nat) >>> 3) = 3))]
    rw [if_pos (by decide : toInt32 ((0x22 : Nat) >>> 3) = 4)]
    rw [if_neg (by decide : ¬((0x22 : Nat) &&& 0x7 ≠ 2))]
    rw [readVarint_putVarint (by omega) (d ++ rest)]
    simp only []
    rw [if_neg (by omega : ¬((9223372036854775808 : Nat) ≤ d.length))]
    rw [if_neg (by simp : ¬((d ++ rest).length < d.length))]
    rw [List.take_left, List.drop_left]
    have hlen := rawLenField_length 0x22 d
    have hpv := putVarint_pos d.length
    refine (FungibleTokenPacketData.unmarshalLoop_fuel f rest _ fuel2 ?_ hfuel2).1
    simp only [List.length_append] at hfuel
    omega

/-- Decoding a marshalled Memo field block sets `Memo` and continues. -/
theorem FungibleTokenPacketData.decode_memo (fuel fuel2 : Nat) (d rest : List Nat)
    (m : FungibleTokenPacketData) (hd : d.length < 2 ^ 63)
    (hfuel : (rawLenField 0x2a d ++ rest).length < fuel) (hfuel2 : rest.length < fuel2) :
    FungibleTokenPacketData.unmarshalLoop fuel (rawLenField 0x2a d ++ rest) m =
      FungibleTokenPacketData.unmarshalLoop fuel2 rest { m with Memo := d } := by
  cases fuel with
  | zero => omega
  | succ f =>
    have hblock : rawLenField 0x2a d ++ rest = 0x2a :: (putVarint d.length ++ (d ++ rest)) := by
      simp [rawLenField]
    rw [hblock]
    rw [FungibleTokenPacketData.unmarshalLoop_cons]
    rw [readVarint_single (by norm_num) _]
    simp only []
    rw [if_neg (by decide : ¬((0x2a : Nat) &&& 0x7 = 4))]
    rw [if_neg (by decide : ¬(toInt32 ((0x2a : Nat) >>> 3) ≤ 0))]
    rw [if_neg (by decide : ¬(toInt32 ((0x2a : Nat) >>> 3) = 1))]
    rw [if_neg (by decide : ¬(toInt32 ((0x2a : Nat) >>> 3) = 2))]
    rw [if_neg (by decide : ¬(toInt32 ((0x2a : Nat) >>> 3) = 3))]
    rw [if_neg (by decide : ¬(toInt32 ((0x2a : Nat) >>> 3) = 4))]
    rw [if_pos (by decide : toInt32 ((0x2a : Nat) >>> 3) = 5)]
    rw [if_neg (by decide : ¬((0x2a : Nat) &&& 0x7 ≠ 2))]
    rw [readVarint_putVarint (by omega) (d ++ rest)]
    simp only []
    rw [if_neg (by omega : ¬((9223372036854775808 : Nat) ≤ d.length))]
    rw [if_neg (by simp : ¬((d ++ rest).length < d.length))]
    rw [List.take_left, List.drop_left]
    have hlen := rawLenField_length 0x2a d
    have hpv := putVarint_pos d.length
    refine (FungibleTokenPacketData.unmarshalLoop_fuel f rest _ fuel2 ?_ hfuel2).1
    simp only [List.length_append] at hfuel
    omega

/-- Decoding an optionally-empty Denom block (`lenField`): when the field
is empty nothing was emitted and nothing is read. -/
theorem FungibleTokenPacketData.decode_denom_len (fuel fuel2 : Nat) (d rest : List Nat)
    (m : FungibleTokenPacketData) (hd : d.length < 2 ^ 63) (hm : m.Denom = [])
    (hfuel : (lenField 0xa d ++ rest).length < fuel) (hfuel2 : rest.length < fuel2) :
    FungibleTokenPacketData.unmarshalLoop fuel (lenField 0xa d ++ rest) m =
      FungibleTokenPacketData.unmarshalLoop fuel2 rest { m with Denom := d } := by
  by_cases h : 0 < d.length
  · rw [lenField, if_pos h] at hfuel ⊢
    exact FungibleTokenPacketData.decode_denom fuel fuel2 d rest m hd hfuel hfuel2
  · have hd0 : d = [] := by cases d <;> simp_all
    subst hd0
    have hmm : { m with Denom := ([] : List Nat) } = m := by
      cases m
      simp_all
    rw [hmm]
    rw [lenField] at hfuel ⊢
    simp only [Nat.lt_irrefl, List.length_nil, if_neg, if_false, List.nil_append] at hfuel ⊢
    exact (FungibleTokenPacketData.unmarshalLoop_fuel fuel rest m fuel2 hfuel hfuel2).1

/-- Decoding an optionally-empty Amount block (`lenField`): when the field
is empty nothing was emitted and nothing is read. -/
theorem FungibleTokenPacketData.decode_amount_len (fuel fuel2 : Nat) (d rest : List Nat)
    (m : FungibleTokenPacketData) (hd : d.length < 2 ^ 63) (hm : m.Amount = [])
    (hfuel : (lenField 0x12 d ++ rest).length < fuel) (hfuel2 : rest.length < fuel2) :
    FungibleTokenPacketData.unmarshalLoop fuel (lenField 0x12 d ++ rest) m =
      FungibleTokenPacketData.unmarshalLoop fuel2 rest { m with Amount := d } := by
  by_cases h : 0 < d.length
  · rw [lenField, if_pos h] at hfuel ⊢
    exact FungibleTokenPacketData.decode_amount fuel fuel2 d rest m hd hfuel hfuel2
  · have hd0 : d = [] := by cases d <;> simp_all
    subst hd0
    have hmm : { m with Amount := ([] : List Nat) } = m := by
      cases m
      simp_all
    rw [hmm]
    rw [lenField] at hfuel ⊢
    simp only [Nat.lt_irrefl, List.length_nil, if_neg, if_false, List.nil_append] at hfuel ⊢
    exact (FungibleTokenPacketData.unmarshalLoop_fuel fuel rest m fuel2 hfuel hfuel2).1

/-- Decoding an optionally-empty Sender block (`lenField`): when the field
is empty nothing was emitted and nothing is read. -/
theorem FungibleTokenPacketData.decode_sender_len (fuel fuel2 : Nat) (d rest : List Nat)
    (m : FungibleTokenPacketData) (hd : d.length < 2 ^ 63) (hm : m.Sender = [])
    (hfuel : (lenField 0x1a d ++ rest).length < fuel) (hfuel2 : rest.length < fuel2) :
    FungibleTokenPacketData.unmarshalLoop fuel (lenField 0x1a d ++ rest) m =
      FungibleTokenPacketData.unmarshalLoop fuel2 rest { m with Sender := d } := by
  by_cases h : 0 < d.length
  · rw [lenField, if_pos h] at hfuel ⊢
    exact FungibleTokenPacketData.decode_sender fuel fuel2 d rest m hd hfuel hfuel2
  · have hd0 : d = [] := by cases d <;> simp_all
    subst hd0
    have hmm : { m with Sender := ([] : List Nat) } = m := by
      cases m
      simp_all
    rw [hmm]
    rw [lenField] at hfuel ⊢
    simp only [Nat.lt_irrefl, List.length_nil, if_neg, if_false, List.nil_append] at hfuel ⊢
    exact (FungibleTokenPacketData.unmarshalLoop_fuel fuel rest m fuel2 hfuel hfuel2).1

/-- Decoding an optionally-empty Receiver block (`lenField`): when the field
is empty nothing was emitted and nothing is read. -/
theorem FungibleTokenPacketData.decode_receiver_len (fuel fuel2 : Nat) (d rest : List Nat)
    (m : FungibleTokenPacketData) (hd : d.length < 2 ^ 63) (hm : m.Receiver = [])
    (hfuel : (lenField 0x22 d ++ rest).length < fuel) (hfuel2 : rest.length < fuel2) :
    FungibleTokenPacketData.unmarshalLoop fuel (lenField 0x22 d ++ rest) m =
      FungibleTokenPacketData.unmarshalLoop fuel2 rest { m with Receiver := d } := by
  by_cases h : 0 < d.length
  · rw [lenField, if_pos h] at hfuel ⊢
    exact FungibleTokenPacketData.decode_receiver fuel fuel2 d rest m hd hfuel hfuel2
  · have hd0 : d = [] := by cases d <;> simp_all
    subst hd0
    have hmm : { m with Receiver := ([] : List Nat) } = m := by
      cases m
      simp_all
    rw [hmm]
    rw [lenField] at hfuel ⊢
    simp only [Nat.lt_irrefl, List.length_nil, if_neg, if_false, List.nil_append] at hfuel ⊢
    exact (FungibleTokenPacketData.unmarshalLoop_fuel fuel rest m fuel2 hfuel hfuel2).1

/-- Decoding an optionally-empty Memo block (`lenField`): when the field
is empty nothing was emitted and nothing is read. -/
theorem FungibleTokenPacketData.decode_memo_len (fuel fuel2 : Nat) (d rest : List Nat)
    (m : FungibleTokenPacketData) (hd : d.length < 2 ^ 63) (hm : m.Memo = [])
    (hfuel : (lenField 0x2a d ++ rest).length < fuel) (hfuel2 : rest.length < fuel2) :
    FungibleTokenPacketData.unmarshalLoop fuel (lenField 0x2a d ++ rest) m =
      FungibleTokenPacketData.unmarshalLoop fuel2 rest { m with Memo := d } := by
  by_cases h : 0 < d.length
  · rw [lenField, if_pos h] at hfuel ⊢
    exact FungibleTokenPacketData.decode_memo fuel fuel2 d rest m hd hfuel hfuel2
  · have hd0 : d = [] := by cases d <;> simp_all
    subst hd0
    have hmm : { m with Memo := ([] : List Nat) } = m := by
      cases m
      simp_all
    rw [hmm]
    rw [lenField] at hfuel ⊢
    simp only [Nat.lt_irrefl, List.length_nil, if_neg, if_false, List.nil_append] at hfuel ⊢
    exact (FungibleTokenPacketData.unmarshalLoop_fuel fuel rest m fuel2 hfuel hfuel2).1

/-- Well-formedness for the legacy packet: every field short enough for its
length to be representable (`int64` nonnegative). -/
def FungibleTokenPacketData.WF (m : FungibleTokenPacketData) : Prop :=
  m.Denom.length < 2 ^ 63 ∧ m.Amount.length < 2 ^ 63 ∧ m.Sender.length < 2 ^ 63 ∧
    m.Receiver.length < 2 ^ 63 ∧ m.Memo.length < 2 ^ 63

/-- Round trip for the legacy wire form. -/
theorem FungibleTokenPacketData.unmarshal_marshal (p : FungibleTokenPacketData)
    (h : p.WF) : FungibleTokenPacketData.Unmarshal p.Marshal = .ok p := by
  obtain ⟨den, amt, snd, rcv, memo⟩ := p
  obtain ⟨h1, h2, h3, h4, h5⟩ := h
  unfold FungibleTokenPacketData.Unmarshal
  rw [show FungibleTokenPacketData.Marshal ⟨den, amt, snd, rcv, memo⟩ =
      lenField 0xa den ++ (lenField 0x12 amt ++ (lenField 0x1a snd ++
        (lenField 0x22 rcv ++ lenField 0x2a memo))) from rfl]
  rw [FungibleTokenPacketData.decode_denom_len _
    ((lenField 0x12 amt ++ (lenField 0x1a snd ++ (lenField 0x22 rcv ++
      lenField 0x2a memo))).length + 1) den _ _ h1 rfl (Nat.lt_succ_self _) (Nat.lt_succ_self _)]
  rw [FungibleTokenPacketData.decode_amount_len _
    ((lenField 0x1a snd ++ (lenField 0x22 rcv ++ lenField 0x2a memo)).length + 1) amt _ _
    h2 rfl (Nat.lt_succ_self _) (Nat.lt_succ_self _)]
  rw [FungibleTokenPacketData.decode_sender_len _
    ((lenField 0x22 rcv ++ lenField 0x2a memo).length + 1) snd _ _
    h3 rfl (Nat.lt_succ_self _) (Nat.lt_succ_self _)]
  rw [FungibleTokenPacketData.decode_receiver_len _
    ((lenField 0x2a memo).length + 1) rcv _ _
    h4 rfl (Nat.lt_succ_self _) (Nat.lt_succ_self _)]
  rw [show lenField 0x2a memo = lenField 0x2a memo ++ [] by simp]
  rw [FungibleTokenPacketData.decode_memo_len _ 1 memo [] _
    h5 rfl (Nat.lt_succ_self _) (by simp)]
  rfl

/-- Decoding a marshalled block for field 1 of `Token`. -/
theorem Token.decode_denom_tok (fuel fuel2 : Nat) (d rest : List Nat)
    (m : Token) (hd : d.length < 2 ^ 63)
    (hfuel : (rawLenField 0xa d ++ rest).length < fuel) (hfuel2 : rest.length < fuel2) :
    Token.unmarshalLoop fuel (rawLenField 0xa d ++ rest) m =
      Token.unmarshalLoop fuel2 rest { m with Denom := d } := by
  cases fuel with
  | zero => omega
  | succ f =>
    have hblock : rawLenField 0xa d ++ rest = 0xa :: (putVarint d.length ++ (d ++ rest)) := by
      simp [rawLenField]
    rw [hblock]
    rw [Token.unmarshalLoop_cons_tok]
    rw [readVarint_single (by norm_num) _]
    simp only []
    rw [if_neg (by decide : ¬((0xa : Nat) &&& 0x7 = 4))]
    rw [if_neg (by decide : ¬(toInt32 ((0xa : Nat) >>> 3) ≤ 0))]
    rw [if_pos (by decide : toInt32 ((0xa : Nat) >>> 3) = 1)]
    rw [if_neg (by decide : ¬((0xa : Nat) &&& 0x7 ≠ 2))]
    rw [readVarint_putVarint (by omega) (d ++ rest)]
    simp only []
    rw [if_neg (by omega : ¬((9223372036854775808 : Nat) ≤ d.length))]
    rw [if_neg (by simp : ¬((d ++ rest).length < d.length))]
    rw [List.take_left, List.drop_left]
    have hlen := rawLenField_length 0xa d
    have hpv := putVarint_pos d.length
    refine (Token.unmarshalLoop_fuel_tok f rest _ fuel2 ?_ hfuel2).1
    simp only [List.length_append] at hfuel
    omega

/-- Decoding a marshalled block for field 3 of `Token`. -/
theorem Token.decode_trace_entry (fuel fuel2 : Nat) (d rest : List Nat)
    (m : Token) (hd : d.length < 2 ^ 63)
    (hfuel : (rawLenField 0x1a d ++ rest).length < fuel) (hfuel2 : rest.length < fuel2) :
    Token.unmarshalLoop fuel (rawLenField 0x1a d ++ rest) m =
      Token.unmarshalLoop fuel2 rest { m with Trace := m.Trace ++ [d] } := by
  cases fuel with
  | zero => omega
  | succ f =>
    have hblock : rawLenField 0x1a d ++ rest = 0x1a :: (putVarint d.length ++ (d ++ rest)) := by
      simp [rawLenField]
    rw [hblock]
    rw [Token.unmarshalLoop_cons_tok]
    rw [readVarint_single (by norm_num) _]
    simp only []
    rw [if_neg (by decide : ¬((0x1a : Nat) &&& 0x7 = 4))]
    rw [if_neg (by decide : ¬(toInt32 ((0x1a : Nat) >>> 3) ≤ 0))]
    rw [if_neg (by decide : ¬(toInt32 ((0x1a : Nat) >>> 3) = 1))]
    rw [if_neg (by decide : ¬(toInt32 ((0x1a : Nat) >>> 3) = 2))]
    rw [if_pos (by decide : toInt32 ((0x1a : Nat) >>> 3) = 3)]
    rw [if_neg (by decide : ¬((0x1a : Nat) &&& 0x7 ≠ 2))]
    rw [readVarint_putVarint (by omega) (d ++ rest)]
    simp only []
    rw [if_neg (by omega : ¬((9223372036854775808 : Nat) ≤ d.length))]
    rw [if_neg (by simp : ¬((d ++ rest).length < d.length))]
    rw [List.take_left, List.drop_left]
    have hlen := rawLenField_length 0x1a d
    have hpv := putVarint_pos d.length
    refine (Token.unmarshalLoop_fuel_tok f rest _ fuel2 ?_ hfuel2).1
    simp only [List.length_append] at hfuel
    omega

/-- Decoding an optionally-empty Denom block of a `Token`. -/
theorem Token.decode_denom_len_tok (fuel fuel2 : Nat) (d rest : List Nat)
    (m : Token) (hd : d.length < 2 ^ 63) (hm : m.Denom = [])
    (hfuel : (lenField 0xa d ++ rest).length < fuel) (hfuel2 : rest.length < fuel2) :
    Token.unmarshalLoop fuel (lenField 0xa d ++ rest) m =
      Token.unmarshalLoop fuel2 rest { m with Denom := d } := by
  by_cases h : 0 < d.length
  · rw [lenField, if_pos h] at hfuel ⊢
    exact Token.decode_denom_tok fuel fuel2 d rest m hd hfuel hfuel2
  · have hd0 : d = [] := by cases d <;> simp_all
    subst hd0
    have hmm : { m with Denom := ([] : List Nat) } = m := by
      cases m
      simp_all
    rw [hmm]
    rw [lenField] at hfuel ⊢
    simp only [Nat.lt_irrefl, List.length_nil, if_neg, if_false, List.nil_append] at hfuel ⊢
    exact (Token.unmarshalLoop_fuel_tok fuel rest m fuel2 hfuel hfuel2).1

/-- Decoding a marshalled Amount varint block (tag 2, wire type 0). -/
theorem Token.decode_amount_tok (fuel fuel2 : Nat) (a : Nat) (rest : List Nat) (m : Token)
    (ha : a < 2 ^ 64)
    (hfuel : ((0x10 :: putVarint a) ++ rest).length < fuel) (hfuel2 : rest.length < fuel2) :
    Token.unmarshalLoop fuel ((0x10 :: putVarint a) ++ rest) m =
      Token.unmarshalLoop fuel2 rest { m with Amount := a } := by
  cases fuel with
  | zero => omega
  | succ f =>
    rw [List.cons_append]
    rw [Token.unmarshalLoop_cons_tok]
    rw [readVarint_single (by norm_num) _]
    simp only []
    rw [if_neg (by decide : ¬((0x10 : Nat) &&& 0x7 = 4))]
    rw [if_neg (by decide : ¬(toInt32 ((0x10 : Nat) >>> 3) ≤ 0))]
    rw [if_neg (by decide : ¬(toInt32 ((0x10 : Nat) >>> 3) = 1))]
    rw [if_pos (by decide : toInt32 ((0x10 : Nat) >>> 3) = 2)]
    rw [if_neg (by decide : ¬((0x10 : Nat) &&& 0x7 ≠ 0))]
    rw [readVarint_putVarint ha rest]
    simp only []
    have hpv := putVarint_pos a
    refine (Token.unmarshalLoop_fuel_tok f rest _ fuel2 ?_ hfuel2).1
    simp only [List.length_cons, List.length_append] at hfuel
    omega

/-- Decoding the optionally-absent Amount block (absent exactly when 0). -/
theorem Token.decode_amount_opt (fuel fuel2 : Nat) (a : Nat) (rest : List Nat) (m : Token)
    (ha : a < 2 ^ 64) (hm : m.Amount = 0)
    (hfuel : ((if a ≠ 0 then 0x10 :: putVarint a else []) ++ rest).length < fuel)
    (hfuel2 : rest.length < fuel2) :
    Token.unmarshalLoop fuel ((if a ≠ 0 then 0x10 :: putVarint a else []) ++ rest) m =
      Token.unmarshalLoop fuel2 rest { m with Amount := a } := by
  by_cases h : a ≠ 0
  · rw [if_pos h] at hfuel ⊢
    exact Token.decode_amount_tok fuel fuel2 a rest m ha hfuel hfuel2
  · have ha0 : a = 0 := by omega
    subst ha0
    have hmm : { m with Amount := 0 } = m := by cases m; simp_all
    rw [hmm]
    simp only [ne_eq, not_true_eq_false, if_false, List.nil_append] at hfuel ⊢
    exact (Token.unmarshalLoop_fuel_tok fuel rest m fuel2 hfuel hfuel2).1

/-- Decoding a marshalled run of Trace entries appends them in order. -/
theorem Token.decode_traces (ts : List (List Nat)) :
    ∀ (fuel fuel2 : Nat) (rest : List Nat) (m : Token),
      (∀ s ∈ ts, s.length < 2 ^ 63) →
      ((ts.map (rawLenField 0x1a)).flatten ++ rest).length < fuel → rest.length < fuel2 →
      Token.unmarshalLoop fuel ((ts.map (rawLenField 0x1a)).flatten ++ rest) m =
        Token.unmarshalLoop fuel2 rest { m with Trace := m.Trace ++ ts } := by
  induction ts with
  | nil =>
    intro fuel fuel2 rest m hts hfuel hfuel2
    simp only [List.map_nil, List.flatten_nil, List.nil_append] at hfuel ⊢
    have hmm : { m with Trace := m.Trace ++ [] } = m := by cases m; simp
    rw [hmm]
    exact (Token.unmarshalLoop_fuel_tok fuel rest m fuel2 hfuel hfuel2).1
  | cons t ts ih =>
    intro fuel fuel2 rest m hts hfuel hfuel2
    simp only [List.map_cons, List.flatten_cons, List.append_assoc] at hfuel ⊢
    rw [Token.decode_trace_entry fuel (((ts.map (rawLenField 0x1a)).flatten ++ rest).length + 1)
      t _ m (hts t (by simp)) hfuel (Nat.lt_succ_self _)]
    rw [ih _ fuel2 rest _ (fun s hs => hts s (by simp [hs])) (Nat.lt_succ_self _) hfuel2]
    have hmm : { m with Trace := m.Trace ++ [t] ++ ts } = { m with Trace := m.Trace ++ t :: ts } := by
      cases m
      simp
    rw [hmm]

/-- Well-formedness for a `Token`: Denom and trace entries short enough,
Amount a `uint64` value. -/
def Token.WF (m : Token) : Prop :=
  m.Denom.length < 2 ^ 63 ∧ m.Amount < 2 ^ 64 ∧ ∀ s ∈ m.Trace, s.length < 2 ^ 63

/-- Round trip for a single `Token`. -/
theorem Token.unmarshal_marshal_tok (t : Token) (h : t.WF) :
    Token.Unmarshal t.Marshal = .ok t := by
  obtain ⟨den, amt, tr⟩ := t
  obtain ⟨h1, h2, h3⟩ := h
  unfold Token.Unmarshal
  rw [show Token.Marshal ⟨den, amt, tr⟩ =
      lenField 0xa den ++ ((if amt ≠ 0 then 0x10 :: putVarint amt else []) ++
        (tr.map (rawLenField 0x1a)).flatten) from rfl]
  rw [Token.decode_denom_len_tok _
    (((if amt ≠ 0 then 0x10 :: putVarint amt else []) ++
      (tr.map (rawLenField 0x1a)).flatten).length + 1) den _ _ h1 rfl
    (Nat.lt_succ_self _) (Nat.lt_succ_self _)]
  rw [Token.decode_amount_opt _ ((tr.map (rawLenField 0x1a)).flatten.length + 1) amt _ _
    h2 rfl (Nat.lt_succ_self _) (Nat.lt_succ_self _)]
  rw [show (tr.map (rawLenField 0x1a)).flatten =
      (tr.map (rawLenField 0x1a)).flatten ++ [] by simp]
  rw [Token.decode_traces tr _ 1 [] _ h3 (Nat.lt_succ_self _) (by simp)]
  rfl

/-- Decoding a marshalled block for field 2 of `FungibleTokenPacketDataV2`. -/
theorem FungibleTokenPacketDataV2.decode_sender_v2 (fuel fuel2 : Nat) (d rest : List Nat)
    (m : FungibleTokenPacketDataV2) (hd : d.length < 2 ^ 63)
    (hfuel : (rawLenField 0x12 d ++ rest).length < fuel) (hfuel2 : rest.length < fuel2) :
    FungibleTokenPacketDataV2.unmarshalLoop fuel (rawLenField 0x12 d ++ rest) m =
      FungibleTokenPacketDataV2.unmarshalLoop fuel2 rest { m with Sender := d } := by
  cases fuel with
  | zero => omega
  | succ f =>
    have hblock : rawLenField 0x12 d ++ rest = 0x12 :: (putVarint d.length ++ (d ++ rest)) := by
      simp [rawLenField]
    rw [hblock]
    rw [FungibleTokenPacketDataV2.unmarshalLoop_cons_v2]
    rw [readVarint_single (by norm_num) _]
    simp only []
    rw [if_neg (by decide : ¬((0x12 : Nat) &&& 0x7 = 4))]
    rw [if_neg (by decide : ¬(toInt32 ((0x12 : Nat) >>> 3) ≤ 0))]
    rw [if_neg (by decide : ¬(toInt32 ((0x12 : Nat) >>> 3) = 1))]
    rw [if_pos (by decide : toInt32 ((0x12 : Nat) >>> 3) = 2)]
    rw [if_neg (by decide : ¬((0x12 : Nat) &&& 0x7 ≠ 2))]
    rw [readVarint_putVarint (by omega) (d ++ rest)]
    simp only []
    rw [if_neg (by omega : ¬((9223372036854775808 : Nat) ≤ d.length))]
    rw [if_neg (by simp : ¬((d ++ rest).length < d.length))]
    rw [List.take_left, List.drop_left]
    have hlen := rawLenField_length 0x12 d
    have hpv := putVarint_pos d.length
    refine (FungibleTokenPacketDataV2.unmarshalLoop_fuel_v2 f rest _ fuel2 ?_ hfuel2).1
    simp only [List.length_append] at hfuel
    omega

/-- Decoding a marshalled block for field 3 of `FungibleTokenPacketDataV2`. -/
theorem FungibleTokenPacketDataV2.decode_receiver_v2 (fuel fuel2 : Nat) (d rest : List Nat)
    (m : FungibleTokenPacketDataV2) (hd : d.length < 2 ^ 63)
    (hfuel : (rawLenField 0x1a d ++ rest).length < fuel) (hfuel2 : rest.length < fuel2) :
    FungibleTokenPacketDataV2.unmarshalLoop fuel (rawLenField 0x1a d ++ rest) m =
      FungibleTokenPacketDataV2.unmarshalLoop fuel2 rest { m with Receiver := d } := by
  cases fuel with
  | zero => omega
  | succ f =>
    have hblock : rawLenField 0x1a d ++ rest = 0x1a :: (putVarint d.length ++ (d ++ rest)) := by
      simp [rawLenField]
    rw [hblock]
    rw [FungibleTokenPacketDataV2.unmarshalLoop_cons_v2]
    rw [readVarint_single (by norm_num) _]
    simp only []
    rw [if_neg (by decide : ¬((0x1a : Nat) &&& 0x7 = 4))]
    rw [if_neg (by decide : ¬(toInt32 ((0x1a : Nat) >>> 3) ≤ 0))]
    rw [if_neg (by decide : ¬(toInt32 ((0x1a : Nat) >>> 3) = 1))]
    rw [if_neg (by decide : ¬(toInt32 ((0x1a : Nat) >>> 3) = 2))]
    rw [if_pos (by decide : toInt32 ((0x1a : Nat) >>> 3) = 3)]
    rw [if_neg (by decide : ¬((0x1a : Nat) &&& 0x7 ≠ 2))]
    rw [readVarint_putVarint (by omega) (d ++ rest)]
    simp only []
    rw [if_neg (by omega : ¬((9223372036854775808 : Nat) ≤ d.length))]
    rw [if_neg (by simp : ¬((d ++ rest).length < d.length))]
    rw [List.take_left, List.drop_left]
    have hlen := rawLenField_length 0x1a d
    have hpv := putVarint_pos d.length
    refine (FungibleTokenPacketDataV2.unmarshalLoop_fuel_v2 f rest _ fuel2 ?_ hfuel2).1
    simp only [List.length_append] at hfuel
    omega

/-- Decoding a marshalled block for field 4 of `FungibleTokenPacketDataV2`. -/
theorem FungibleTokenPacketDataV2.decode_memo_v2 (fuel fuel2 : Nat) (d rest : List Nat)
    (m : FungibleTokenPacketDataV2) (hd : d.length < 2 ^ 63)
    (hfuel : (rawLenField 0x22 d ++ rest).length < fuel) (hfuel2 : rest.length < fuel2) :
    FungibleTokenPacketDataV2.unmarshalLoop fuel (rawLenField 0x22 d ++ rest) m =
      FungibleTokenPacketDataV2.unmarshalLoop fuel2 rest { m with Memo := d } := by
  cases fuel with
  | zero => omega
  | succ f =>
    have hblock : rawLenField 0x22 d ++ rest = 0x22 :: (putVarint d.length ++ (d ++ rest)) := by
      simp [rawLenField]
    rw [hblock]
    rw [FungibleTokenPacketDataV2.unmarshalLoop_cons_v2]
    rw [readVarint_single (by norm_num) _]
    simp only []
    rw [if_neg (by decide : ¬((0x22 : Nat) &&& 0x7 = 4))]
    rw [if_neg (by decide : ¬(toInt32 ((0x22 : Nat) >>> 3) ≤ 0))]
    rw [if_neg (by decide : ¬(toInt32 ((0x22 : Nat) >>> 3) = 1))]
    rw [if_neg (by decide : ¬(toInt32 ((0x22 : Nat) >>> 3) = 2))]
    rw [if_neg (by decide : ¬(toInt32 ((0x22 : Nat) >>> 3) = 3))]
    rw [if_pos (by decide : toInt32 ((0x22 : Nat) >>> 3) = 4)]
    rw [if_neg (by decide : ¬((0x22 : Nat) &&& 0x7 ≠ 2))]
    rw [readVarint_putVarint (by omega) (d ++ rest)]
    simp only []
    rw [if_neg (by omega : ¬((9223372036854775808 : Nat) ≤ d.length))]
    rw [if_neg (by simp : ¬((d ++ rest).length < d.length))]
    rw [List.take_left, List.drop_left]
    have hlen := rawLenField_length 0x22 d
    have hpv := putVarint_pos d.length
    refine (FungibleTokenPacketDataV2.unmarshalLoop_fuel_v2 f rest _ fuel2 ?_ hfuel2).1
    simp only [List.length_append] at hfuel
    omega

/-- Decoding an optionally-empty Sender block of `FungibleTokenPacketDataV2`. -/
theorem FungibleTokenPacketDataV2.decode_sender_len_v2 (fuel fuel2 : Nat) (d rest : List Nat)
    (m : FungibleTokenPacketDataV2) (hd : d.length < 2 ^ 63) (hm : m.Sender = [])
    (hfuel : (lenField 0x12 d ++ rest).length < fuel) (hfuel2 : rest.length < fuel2) :
    FungibleTokenPacketDataV2.unmarshalLoop fuel (lenField 0x12 d ++ rest) m =
      FungibleTokenPacketDataV2.unmarshalLoop fuel2 rest { m with Sender := d } := by
  by_cases h : 0 < d.length
  · rw [lenField, if_pos h] at hfuel ⊢
    exact FungibleTokenPacketDataV2.decode_sender_v2 fuel fuel2 d rest m hd hfuel hfuel2
  · have hd0 : d = [] := by cases d <;> simp_all
    subst hd0
    have hmm : { m with Sender := ([] : List Nat) } = m := by
      cases m
      simp_all
    rw [hmm]
    rw [lenField] at hfuel ⊢
    simp only [Nat.lt_irrefl, List.length_nil, if_neg, if_false, List.nil_append] at hfuel ⊢
    exact (FungibleTokenPacketDataV2.unmarshalLoop_fuel_v2 fuel rest m fuel2 hfuel hfuel2).1

/-- Decoding an optionally-empty Receiver block of `FungibleTokenPacketDataV2`. -/
theorem FungibleTokenPacketDataV2.decode_receiver_len_v2 (fuel fuel2 : Nat) (d rest : List Nat)
    (m : FungibleTokenPacketDataV2) (hd : d.length < 2 ^ 63) (hm : m.Receiver = [])
    (hfuel : (lenField 0x1a d ++ rest).length < fuel) (hfuel2 : rest.length < fuel2) :
    FungibleTokenPacketDataV2.unmarshalLoop fuel (lenField 0x1a d ++ rest) m =
      FungibleTokenPacketDataV2.unmarshalLoop fuel2 rest { m with Receiver := d } := by
  by_cases h : 0 < d.length
  · rw [lenField, if_pos h] at hfuel ⊢
    exact FungibleTokenPacketDataV2.decode_receiver_v2 fuel fuel2 d rest m hd hfuel hfuel2
  · have hd0 : d = [] := by cases d <;> simp_all
    subst hd0
    have hmm : { m with Receiver := ([] : List Nat) } = m := by
      cases m
      simp_all
    rw [hmm]
    rw [lenField] at hfuel ⊢
    simp only [Nat.lt_irrefl, List.length_nil, if_neg, if_false, List.nil_append] at hfuel ⊢
    exact (FungibleTokenPacketDataV2.unmarshalLoop_fuel_v2 fuel rest m fuel2 hfuel hfuel2).1

/-- Decoding an optionally-empty Memo block of `FungibleTokenPacketDataV2`. -/
theorem FungibleTokenPacketDataV2.decode_memo_len_v2 (fuel fuel2 : Nat) (d rest : List Nat)
    (m : FungibleTokenPacketDataV2) (hd : d.length < 2 ^ 63) (hm : m.Memo = [])
    (hfuel : (lenField 0x22 d ++ rest).length < fuel) (hfuel2 : rest.length < fuel2) :
    FungibleTokenPacketDataV2.unmarshalLoop fuel (lenField 0x22 d ++ rest) m =
      FungibleTokenPacketDataV2.unmarshalLoop fuel2 rest { m with Memo := d } := by
  by_cases h : 0 < d.length
  · rw [lenField, if_pos h] at hfuel ⊢
    exact FungibleTokenPacketDataV2.decode_memo_v2 fuel fuel2 d rest m hd hfuel hfuel2
  · have hd0 : d = [] := by cases d <;> simp_all
    subst hd0
    have hmm : { m with Memo := ([] : List Nat) } = m := by
      cases m
      simp_all
    rw [hmm]
    rw [lenField] at hfuel ⊢
    simp only [Nat.lt_irrefl, List.length_nil, if_neg, if_false, List.nil_append] at hfuel ⊢
    exact (FungibleTokenPacketDataV2.unmarshalLoop_fuel_v2 fuel rest m fuel2 hfuel hfuel2).1

/-- Decoding one marshalled Token submessage block appends the token. -/
theorem FungibleTokenPacketDataV2.decode_token (fuel fuel2 : Nat) (t : Token) (rest : List Nat)
    (m : FungibleTokenPacketDataV2) (ht : t.WF) (hlen63 : t.Marshal.length < 2 ^ 63)
    (hfuel : (rawLenField 0xa t.Marshal ++ rest).length < fuel) (hfuel2 : rest.length < fuel2) :
    FungibleTokenPacketDataV2.unmarshalLoop fuel (rawLenField 0xa t.Marshal ++ rest) m =
      FungibleTokenPacketDataV2.unmarshalLoop fuel2 rest { m with Tokens := m.Tokens ++ [t] } := by
  cases fuel with
  | zero => omega
  | succ f =>
    have hblock : rawLenField 0xa t.Marshal ++ rest =
        0xa :: (putVarint t.Marshal.length ++ (t.Marshal ++ rest)) := by
      simp [rawLenField]
    rw [hblock]
    rw [FungibleTokenPacketDataV2.unmarshalLoop_cons_v2]
    rw [readVarint_single (by norm_num) _]
    simp only []
    rw [if_neg (by decide : ¬((0xa : Nat) &&& 0x7 = 4))]
    rw [if_neg (by decide : ¬(toInt32 ((0xa : Nat) >>> 3) ≤ 0))]
    rw [if_pos (by decide : toInt32 ((0xa : Nat) >>> 3) = 1)]
    rw [if_neg (by decide : ¬((0xa : Nat) &&& 0x7 ≠ 2))]
    rw [readVarint_putVarint (by omega) (t.Marshal ++ rest)]
    simp only []
    rw [if_neg (by omega : ¬((9223372036854775808 : Nat) ≤ t.Marshal.length))]
    rw [if_neg (by simp : ¬((t.Marshal ++ rest).length < t.Marshal.length))]
    rw [List.take_left, List.drop_left]
    rw [Token.unmarshal_marshal_tok t ht]
    simp only []
    have hlen := rawLenField_length 0xa t.Marshal
    have hpv := putVarint_pos t.Marshal.length
    refine (FungibleTokenPacketDataV2.unmarshalLoop_fuel_v2 f rest _ fuel2 ?_ hfuel2).1
    simp only [List.length_append] at hfuel
    omega

/-- Decoding a marshalled run of Token submessages appends them in order. -/
theorem FungibleTokenPacketDataV2.decode_tokens (ts : List Token) :
    ∀ (fuel fuel2 : Nat) (rest : List Nat) (m : FungibleTokenPacketDataV2),
      (∀ t ∈ ts, t.WF ∧ t.Marshal.length < 2 ^ 63) →
      ((ts.map (fun t => rawLenField 0xa t.Marshal)).flatten ++ rest).length < fuel →
      rest.length < fuel2 →
      FungibleTokenPacketDataV2.unmarshalLoop fuel
          ((ts.map (fun t => rawLenField 0xa t.Marshal)).flatten ++ rest) m =
        FungibleTokenPacketDataV2.unmarshalLoop fuel2 rest
          { m with Tokens := m.Tokens ++ ts } := by
  induction ts with
  | nil =>
    intro fuel fuel2 rest m hts hfuel hfuel2
    simp only [List.map_nil, List.flatten_nil, List.nil_append] at hfuel ⊢
    have hmm : { m with Tokens := m.Tokens ++ [] } = m := by cases m; simp
    rw [hmm]
    exact (FungibleTokenPacketDataV2.unmarshalLoop_fuel_v2 fuel rest m fuel2 hfuel hfuel2).1
  | cons t ts ih =>
    intro fuel fuel2 rest m hts hfuel hfuel2
    simp only [List.map_cons, List.flatten_cons, List.append_assoc] at hfuel ⊢
    rw [FungibleTokenPacketDataV2.decode_token fuel
      (((ts.map (fun t => rawLenField 0xa t.Marshal)).flatten ++ rest).length + 1)
      t _ m (hts t (by simp)).1 (hts t (by simp)).2 hfuel (Nat.lt_succ_self _)]
    rw [ih _ fuel2 rest _ (fun u hu => hts u (by simp [hu])) (Nat.lt_succ_self _) hfuel2]
    have hmm : { m with Tokens := m.Tokens ++ [t] ++ ts } =
        { m with Tokens := m.Tokens ++ t :: ts } := by
      cases m
      simp
    rw [hmm]

/-- Well-formedness for the multi-token packet. -/
def FungibleTokenPacketDataV2.WF (m : FungibleTokenPacketDataV2) : Prop :=
  (∀ t ∈ m.Tokens, t.WF ∧ t.Marshal.length < 2 ^ 63) ∧
    m.Sender.length < 2 ^ 63 ∧ m.Receiver.length < 2 ^ 63 ∧ m.Memo.length < 2 ^ 63

/-- Round trip for the multi-token wire form. -/
theorem FungibleTokenPacketDataV2.unmarshal_marshal_v2 (p : FungibleTokenPacketDataV2)
    (h : p.WF) : FungibleTokenPacketDataV2.Unmarshal p.Marshal = .ok p := by
  obtain ⟨ts, snd, rcv, memo⟩ := p
  obtain ⟨h1, h2, h3, h4⟩ := h
  unfold FungibleTokenPacketDataV2.Unmarshal
  rw [show FungibleTokenPacketDataV2.Marshal ⟨ts, snd, rcv, memo⟩ =
      (ts.map (fun t => rawLenField 0xa t.Marshal)).flatten ++
        (lenField 0x12 snd ++ (lenField 0x1a rcv ++ lenField 0x22 memo)) from rfl]
  rw [FungibleTokenPacketDataV2.decode_tokens ts _
    ((lenField 0x12 snd ++ (lenField 0x1a rcv ++ lenField 0x22 memo)).length + 1) _ _
    h1 (Nat.lt_succ_self _) (Nat.lt_succ_self _)]
  rw [FungibleTokenPacketDataV2.decode_sender_len_v2 _
    ((lenField 0x1a rcv ++ lenField 0x22 memo).length + 1) snd _ _
    h2 rfl (Nat.lt_succ_self _) (Nat.lt_succ_self _)]
  rw [FungibleTokenPacketDataV2.decode_receiver_len_v2 _
    ((lenField 0x22 memo).length + 1) rcv _ _
    h3 rfl (Nat.lt_succ_self _) (Nat.lt_succ_self _)]
  rw [show lenField 0x22 memo = lenField 0x22 memo ++ [] by simp]
  rw [FungibleTokenPacketDataV2.decode_memo_len_v2 _ 1 memo [] _
    h4 rfl (Nat.lt_succ_self _) (by simp)]
  rfl

/-! ### Size agrees with the marshalled length -/

theorem lenField_length (tag : Nat) (s : List Nat) :
    (lenField tag s).length =
      if 0 < s.length then 1 + s.length + sovPacket s.length else 0 := by
  rw [lenField]
  split
  · rw [rawLenField_length, putVarint_length]
    omega
  · rfl

/-- `len(Marshal(m)) = Size(m)` for the legacy form. -/
theorem FungibleTokenPacketData.marshal_length (m : FungibleTokenPacketData) :
    m.Marshal.length = m.Size := by
  simp only [FungibleTokenPacketData.Marshal, FungibleTokenPacketData.Size,
    List.length_append, lenField_length]
  omega

/-- `len(Marshal(m)) = Size(m)` for a `Token`. -/
theorem Token.marshal_length_tok (m : Token) : m.Marshal.length = m.Size := by
  simp only [Token.Marshal, Token.Size, List.length_append, lenField_length,
    List.length_flatten, List.map_map, apply_ite List.length, List.length_cons,
    List.length_nil]
  have htr : List.map (List.length ∘ rawLenField 0x1a) m.Trace =
      List.map (fun s => 1 + s.length + sovPacket s.length) m.Trace := by
    apply List.map_congr_left
    intro s _
    simp only [Function.comp_apply, rawLenField_length, putVarint_length]
    omega
  rw [htr, putVarint_length]
  have hamt : ((putVarint m.Amount).length + 1 : Nat) = 1 + sovPacket m.Amount := by
    rw [putVarint_length]
    omega
  split_ifs <;> simp [putVarint_length] <;> omega

/-- `len(Marshal(m)) = Size(m)` for the multi-token form. -/
theorem FungibleTokenPacketDataV2.marshal_length_v2 (m : FungibleTokenPacketDataV2) :
    m.Marshal.length = m.Size := by
  simp only [FungibleTokenPacketDataV2.Marshal, FungibleTokenPacketDataV2.Size,
    List.length_append, lenField_length, List.length_flatten, List.map_map]
  have htk : List.map (List.length ∘ fun t => rawLenField 0xa t.Marshal) m.Tokens =
      List.map (fun t => 1 + t.Size + sovPacket t.Size) m.Tokens := by
    apply List.map_congr_left
    intro t _
    simp only [Function.comp_apply, rawLenField_length, putVarint_length,
      Token.marshal_length_tok]
    omega
  rw [htk]
  omega

/-! ### Malformed-input rejection -/

theorem readVarint_replicate_ff (j : Nat) :
    ∀ s a, s + 7 * j < 64 → readVarint (List.replicate j 0xFF) s a = .error .unexpectedEOF := by
  induction j with
  | zero =>
    intro s a h
    rw [List.replicate_zero, readVarint_nil, if_neg (by omega)]
  | succ j ih =>
    intro s a h
    rw [List.replicate_succ, readVarint_cons]
    rw [if_neg (by omega : ¬ (64 ≤ s)), if_neg (by norm_num : ¬ ((0xFF : Nat) < 0x80))]
    rw [ih (s + 7) _ (by omega)]

/-- A string-field tag of `FungibleTokenPacketData` followed by a failing length varint
propagates that error. -/
theorem FungibleTokenPacketData.field_varint_error (fuel b : Nat) (tl : List Nat) (m : FungibleTokenPacketData) (e : PErr)
    (hb : b < 0x80) (hw : b &&& 0x7 = 2) (hf1 : 1 ≤ toInt32 (b >>> 3)) (hf5 : toInt32 (b >>> 3) ≤ 5)
    (hrd : readVarint tl 0 0 = .error e) :
    FungibleTokenPacketData.unmarshalLoop (fuel + 1) (b :: tl) m = .error e := by
  rw [FungibleTokenPacketData.unmarshalLoop_cons, readVarint_single hb]
  simp only []
  rw [if_neg (by omega : ¬ (b &&& 0x7 = 4)), if_neg (by omega : ¬ (toInt32 (b >>> 3) ≤ 0))]
  rw [hrd]
  have hwne : ¬ (b &&& 0x7 ≠ 2) := by omega
  simp only [if_neg hwne]
  split_ifs <;> first | rfl | omega

/-- A string-field tag of `FungibleTokenPacketData` with a declared length at or above
`2 ^ 63` (a negative `int`) is rejected. -/
theorem FungibleTokenPacketData.field_len_overflow (fuel b : Nat) (tl : List Nat) (m : FungibleTokenPacketData)
    (n c : Nat) (rem2 : List Nat)
    (hb : b < 0x80) (hw : b &&& 0x7 = 2) (hf1 : 1 ≤ toInt32 (b >>> 3)) (hf5 : toInt32 (b >>> 3) ≤ 5)
    (hrd : readVarint tl 0 0 = .ok (n, c, rem2))
    (hbig : (9223372036854775808 : Nat) ≤ n) :
    FungibleTokenPacketData.unmarshalLoop (fuel + 1) (b :: tl) m = .error .invalidLength := by
  rw [FungibleTokenPacketData.unmarshalLoop_cons, readVarint_single hb]
  simp only []
  rw [if_neg (by omega : ¬ (b &&& 0x7 = 4)), if_neg (by omega : ¬ (toInt32 (b >>> 3) ≤ 0))]
  rw [hrd]
  simp only []
  have hwne : ¬ (b &&& 0x7 ≠ 2) := by omega
  simp only [if_neg hwne, if_pos hbig]
  split_ifs <;> first | rfl | omega

/-- A string-field tag of `FungibleTokenPacketData` with a declared length past the end of
the input is rejected with `unexpectedEOF`. -/
theorem FungibleTokenPacketData.field_len_overrun (fuel b : Nat) (tl : List Nat) (m : FungibleTokenPacketData)
    (n c : Nat) (rem2 : List Nat)
    (hb : b < 0x80) (hw : b &&& 0x7 = 2) (hf1 : 1 ≤ toInt32 (b >>> 3)) (hf5 : toInt32 (b >>> 3) ≤ 5)
    (hrd : readVarint tl 0 0 = .ok (n, c, rem2))
    (hbig : ¬ (9223372036854775808 : Nat) ≤ n) (hshort : rem2.length < n) :
    FungibleTokenPacketData.unmarshalLoop (fuel + 1) (b :: tl) m = .error .unexpectedEOF := by
  rw [FungibleTokenPacketData.unmarshalLoop_cons, readVarint_single hb]
  simp only []
  rw [if_neg (by omega : ¬ (b &&& 0x7 = 4)), if_neg (by omega : ¬ (toInt32 (b >>> 3) ≤ 0))]
  rw [hrd]
  simp only []
  have hwne : ¬ (b &&& 0x7 ≠ 2) := by omega
  simp only [if_neg hwne, if_neg hbig, if_pos hshort]
  split_ifs <;> first | rfl | omega

/-- A string-field tag of `FungibleTokenPacketDataV2` followed by a failing length varint
propagates that error. -/
theorem FungibleTokenPacketDataV2.field_varint_error_v2 (fuel b : Nat) (tl : List Nat) (m : FungibleTokenPacketDataV2) (e : PErr)
    (hb : b < 0x80) (hw : b &&& 0x7 = 2) (hf1 : 1 ≤ toInt32 (b >>> 3)) (hf5 : toInt32 (b >>> 3) ≤ 4)
    (hrd : readVarint tl 0 0 = .error e) :
    FungibleTokenPacketDataV2.unmarshalLoop (fuel + 1) (b :: tl) m = .error e := by
  rw [FungibleTokenPacketDataV2.unmarshalLoop_cons_v2, readVarint_single hb]
  simp only []
  rw [if_neg (by omega : ¬ (b &&& 0x7 = 4)), if_neg (by omega : ¬ (toInt32 (b >>> 3) ≤ 0))]
  rw [hrd]
  have hwne : ¬ (b &&& 0x7 ≠ 2) := by omega
  simp only [if_neg hwne]
  split_ifs <;> first | rfl | omega

/-- A string-field tag of `FungibleTokenPacketDataV2` with a declared length at or above
`2 ^ 63` (a negative `int`) is rejected. -/
theorem FungibleTokenPacketDataV2.field_len_overflow_v2 (fuel b : Nat) (tl : List Nat) (m : FungibleTokenPacketDataV2)
    (n c : Nat) (rem2 : List Nat)
    (hb : b < 0x80) (hw : b &&& 0x7 = 2) (hf1 : 1 ≤ toInt32 (b >>> 3)) (hf5 : toInt32 (b >>> 3) ≤ 4)
    (hrd : readVarint tl 0 0 = .ok (n, c, rem2))
    (hbig : (9223372036854775808 : Nat) ≤ n) :
    FungibleTokenPacketDataV2.unmarshalLoop (fuel + 1) (b :: tl) m = .error .invalidLength := by
  rw [FungibleTokenPacketDataV2.unmarshalLoop_cons_v2, readVarint_single hb]
  simp only []
  rw [if_neg (by omega : ¬ (b &&& 0x7 = 4)), if_neg (by omega : ¬ (toInt32 (b >>> 3) ≤ 0))]
  rw [hrd]
  simp only []
  have hwne : ¬ (b &&& 0x7 ≠ 2) := by omega
  simp only [if_neg hwne, if_pos hbig]
  split_ifs <;> first | rfl | omega

/-- A string-field tag of `FungibleTokenPacketDataV2` with a declared length past the end of
the input is rejected with `unexpectedEOF`. -/
theorem FungibleTokenPacketDataV2.field_len_overrun_v2 (fuel b : Nat) (tl : List Nat) (m : FungibleTokenPacketDataV2)
    (n c : Nat) (rem2 : List Nat)
    (hb : b < 0x80) (hw : b &&& 0x7 = 2) (hf1 : 1 ≤ toInt32 (b >>> 3)) (hf5 : toInt32 (b >>> 3) ≤ 4)
    (hrd : readVarint tl 0 0 = .ok (n, c, rem2))
    (hbig : ¬ (9223372036854775808 : Nat) ≤ n) (hshort : rem2.length < n) :
    FungibleTokenPacketDataV2.unmarshalLoop (fuel + 1) (b :: tl) m = .error .unexpectedEOF := by
  rw [FungibleTokenPacketDataV2.unmarshalLoop_cons_v2, readVarint_single hb]
  simp only []
  rw [if_neg (by omega : ¬ (b &&& 0x7 = 4)), if_neg (by omega : ¬ (toInt32 (b >>> 3) ≤ 0))]
  rw [hrd]
  simp only []
  have hwne : ¬ (b &&& 0x7 ≠ 2) := by omega
  simp only [if_neg hwne, if_neg hbig, if_pos hshort]
  split_ifs <;> first | rfl | omega

/-- A string-field tag of `Token` followed by a failing length varint
propagates that error. -/
theorem Token.field_varint_error_tok (fuel b : Nat) (tl : List Nat) (m : Token) (e : PErr)
    (hb : b < 0x80) (hw : b &&& 0x7 = 2) (hf : toInt32 (b >>> 3) = 1 ∨ toInt32 (b >>> 3) = 3)
    (hrd : readVarint tl 0 0 = .error e) :
    Token.unmarshalLoop (fuel + 1) (b :: tl) m = .error e := by
  rw [Token.unmarshalLoop_cons_tok, readVarint_single hb]
  simp only []
  rw [if_neg (by omega : ¬ (b &&& 0x7 = 4)), if_neg (by omega : ¬ (toInt32 (b >>> 3) ≤ 0))]
  rw [hrd]
  have hwne : ¬ (b &&& 0x7 ≠ 2) := by omega
  simp only [if_neg hwne]
  split_ifs <;> first | rfl | omega

/-- A string-field tag of `Token` with a declared length at or above
`2 ^ 63` (a negative `int`) is rejected. -/
theorem Token.field_len_overflow_tok (fuel b : Nat) (tl : List Nat) (m : Token)
    (n c : Nat) (rem2 : List Nat)
    (hb : b < 0x80) (hw : b &&& 0x7 = 2) (hf : toInt32 (b >>> 3) = 1 ∨ toInt32 (b >>> 3) = 3)
    (hrd : readVarint tl 0 0 = .ok (n, c, rem2))
    (hbig : (9223372036854775808 : Nat) ≤ n) :
    Token.unmarshalLoop (fuel + 1) (b :: tl) m = .error .invalidLength := by
  rw [Token.unmarshalLoop_cons_tok, readVarint_single hb]
  simp only []
  rw [if_neg (by omega : ¬ (b &&& 0x7 = 4)), if_neg (by omega : ¬ (toInt32 (b >>> 3) ≤ 0))]
  rw [hrd]
  simp only []
  have hwne : ¬ (b &&& 0x7 ≠ 2) := by omega
  simp only [if_neg hwne, if_pos hbig]
  split_ifs <;> first | rfl | omega

/-- A string-field tag of `Token` with a declared length past the end of
the input is rejected with `unexpectedEOF`. -/
theorem Token.field_len_overrun_tok (fuel b : Nat) (tl : List Nat) (m : Token)
    (n c : Nat) (rem2 : List Nat)
    (hb : b < 0x80) (hw : b &&& 0x7 = 2) (hf : toInt32 (b >>> 3) = 1 ∨ toInt32 (b >>> 3) = 3)
    (hrd : readVarint tl 0 0 = .ok (n, c, rem2))
    (hbig : ¬ (9223372036854775808 : Nat) ≤ n) (hshort : rem2.length < n) :
    Token.unmarshalLoop (fuel + 1) (b :: tl) m = .error .unexpectedEOF := by
  rw [Token.unmarshalLoop_cons_tok, readVarint_single hb]
  simp only []
  rw [if_neg (by omega : ¬ (b &&& 0x7 = 4)), if_neg (by omega : ¬ (toInt32 (b >>> 3) ≤ 0))]
  rw [hrd]
  simp only []
  have hwne : ¬ (b &&& 0x7 ≠ 2) := by omega
  simp only [if_neg hwne, if_neg hbig, if_pos hshort]
  split_ifs <;> first | rfl | omega

/-- The Amount tag of a `Token` followed by a failing varint propagates
that error. -/
theorem Token.amount_varint_error (fuel : Nat) (tl : List Nat) (m : Token) (e : PErr)
    (hrd : readVarint tl 0 0 = .error e) :
    Token.unmarshalLoop (fuel + 1) (0x10 :: tl) m = .error e := by
  rw [Token.unmarshalLoop_cons_tok, readVarint_single (by norm_num)]
  simp only []
  rw [if_neg (by decide : ¬ ((0x10 : Nat) &&& 0x7 = 4))]
  rw [if_neg (by decide : ¬ (toInt32 ((0x10 : Nat) >>> 3) ≤ 0))]
  rw [if_neg (by decide : ¬ (toInt32 ((0x10 : Nat) >>> 3) = 1))]
  rw [if_pos (by decide : toInt32 ((0x10 : Nat) >>> 3) = 2)]
  rw [if_neg (by decide : ¬ ((0x10 : Nat) &&& 0x7 ≠ 0))]
  rw [hrd]

/-- `skipPacket` over a well-formed unknown varint field (single-byte tag,
wire type 0) spans exactly the tag plus the varint. -/
theorem skipPacket_unknown_varint (k v : Nat) (rest : List Nat)
    (hk6 : 6 ≤ k) (hk15 : k ≤ 15) (hv : v < 2 ^ 64) :
    skipPacket ((k * 8) :: (putVarint v ++ rest)) = .ok (0 + 1 + (putVarint v).length) := by
  unfold skipPacket
  rw [skipLoop_cons]
  rw [readVarint_single (by omega : k * 8 < 0x80)]
  simp only []
  have hand : k * 8 &&& 0x7 = 0 := by
    have h3 := Nat.and_pow_two_sub_one_eq_mod (k * 8) 3
    norm_num at h3
    omega
  rw [if_pos hand]
  rw [readVarint_putVarint hv rest]
  simp

/-- An unknown varint field (field number 6..15, wire type 0) in front of a
marshalled legacy packet is skipped and the rest decodes as before. -/
theorem FungibleTokenPacketData.skips_unknown_varint_field (k v : Nat)
    (p : FungibleTokenPacketData) (hk6 : 6 ≤ k) (hk15 : k ≤ 15) (hv : v < 2 ^ 64)
    (hp : p.WF) :
    FungibleTokenPacketData.Unmarshal ((k * 8) :: (putVarint v ++ p.Marshal)) = .ok p := by
  unfold FungibleTokenPacketData.Unmarshal
  rw [show ((k * 8) :: (putVarint v ++ p.Marshal)).length =
      (putVarint v ++ p.Marshal).length + 1 from rfl]
  rw [FungibleTokenPacketData.unmarshalLoop_cons]
  rw [readVarint_single (by omega : k * 8 < 0x80)]
  simp only []
  have hand : k * 8 &&& 0x7 = 0 := by
    have h3 := Nat.and_pow_two_sub_one_eq_mod (k * 8) 3
    norm_num at h3
    omega
  have hti : toInt32 ((k * 8) >>> 3) = (k : Int) := by
    have hshr : (k * 8) >>> 3 = k := by
      rw [Nat.shiftRight_eq_div_pow]
      omega
    rw [hshr, toInt32, if_pos (by omega : k % 2 ^ 32 < 2 ^ 31)]
    congr 1
    omega
  rw [if_neg (by omega : ¬ (k * 8 &&& 0x7 = 4))]
  rw [hti]
  rw [if_neg (by omega : ¬ ((k : Int) ≤ 0))]
  rw [if_neg (by omega : ¬ ((k : Int) = 1))]
  rw [if_neg (by omega : ¬ ((k : Int) = 2))]
  rw [if_neg (by omega : ¬ ((k : Int) = 3))]
  rw [if_neg (by omega : ¬ ((k : Int) = 4))]
  rw [if_neg (by omega : ¬ ((k : Int) = 5))]
  rw [skipPacket_unknown_varint k v p.Marshal hk6 hk15 hv]
  simp only []
  rw [if_neg (by
    simp only [List.length_cons, List.length_append]
    omega)]
  rw [show ((k * 8) :: (putVarint v ++ p.Marshal)).drop (0 + 1 + (putVarint v).length) =
      p.Marshal by
    rw [show (0 + 1 + (putVarint v).length) = (putVarint v).length + 1 by omega]
    rw [List.drop_succ_cons, List.drop_left]]
  have hlen := putVarint_pos v
  calc FungibleTokenPacketData.unmarshalLoop ((putVarint v ++ p.Marshal).length + 1) p.Marshal
        ⟨[], [], [], [], []⟩
      = FungibleTokenPacketData.unmarshalLoop (p.Marshal.length + 1) p.Marshal
          ⟨[], [], [], [], []⟩ :=
        (FungibleTokenPacketData.unmarshalLoop_fuel _ _ _ _
          (by simp only [List.length_append]; omega) (Nat.lt_succ_self _)).1
    _ = .ok p := FungibleTokenPacketData.unmarshal_marshal p hp

/-! ### Validation layer (`ValidateBasic` from the repo's packet.go) -/

/-- Validation errors raised by `ValidateBasic` (`ErrInvalidAmount`,
`ErrInvalidAddress`, and the denom validator's error). -/
inductive ValErr where
  | invalidAmount
  | blankSender
  | blankReceiver
  | invalidDenom
deriving DecidableEq, Repr

/-- ASCII decimal digit. -/
def isDigit (b : Nat) : Bool := decide (0x30 ≤ b) && decide (b ≤ 0x39)

/-- ASCII whitespace bytes trimmed by `strings.TrimSpace` (the Go function
additionally trims multi-byte Unicode spaces, which this byte-level model
does not represent). -/
def isSpaceByte (b : Nat) : Bool :=
  decide (b = 0x20) || decide (b = 0x9) || decide (b = 0xa) || decide (b = 0xb) ||
    decide (b = 0xc) || decide (b = 0xd)

/-- `strings.TrimSpace` on ASCII. -/
def trimSpace (s : List Nat) : List Nat :=
  ((s.dropWhile isSpaceByte).reverse.dropWhile isSpaceByte).reverse

/-- Decimal digit-string accumulator of `big.Int.SetString`. -/
def digitsAcc : List Nat → Nat → Option Nat
  | [], acc => some acc
  | b :: rest, acc =>
    if isDigit b then digitsAcc rest (acc * 10 + (b - 0x30)) else none

/-- A nonempty all-digit string and its value. -/
def parseDigits (s : List Nat) : Option Nat :=
  if s.isEmpty then none else digitsAcc s 0

/-- Modelled (external library `cosmossdk.io/math`): `NewIntFromString`
parses a base-10 integer with an optional sign and rejects results whose
bit length exceeds 256. -/
def sdkNewIntFromString (s : List Nat) : Option Int :=
  let core : Option Int :=
    match s with
    | 0x2b :: rest => (parseDigits rest).map (fun n => (n : Int))
    | 0x2d :: rest => (parseDigits rest).map (fun n => -(n : Int))
    | _ => (parseDigits s).map (fun n => (n : Int))
  match core with
  | none => none
  | some v => if v.natAbs < 2 ^ 256 then some v else none

/-- Bytes allowed by the denom grammar. -/
def isDenomChar (b : Nat) : Bool :=
  isDigit b || (decide (0x41 ≤ b) && decide (b ≤ 0x5a)) ||
    (decide (0x61 ≤ b) && decide (b ≤ 0x7a)) ||
    decide (b = 0x2f) || decide (b = 0x2e) || decide (b = 0x2d)

/-- Modelled from the spec: `ValidatePrefixedDenom` is not under `src/`;
the spec says "denom must match a restricted grammar (alphanumerics, `/`,
`.`, `-`, length-bounded)".  Modelled as 1..128 bytes, each from that
character set. -/
def ValidatePrefixedDenom (d : List Nat) : Option ValErr :=
  if 0 < d.length && decide (d.length ≤ 128) && d.all isDenomChar then none
  else some .invalidDenom

/-- `FungibleTokenPacketData.ValidateBasic`: parse the amount
(`sdkmath.NewIntFromString`), require strict positivity, non-blank sender
and receiver, then validate the denom. -/
def FungibleTokenPacketData.ValidateBasic (ftpd : FungibleTokenPacketData) : Option ValErr :=
  match sdkNewIntFromString ftpd.Amount with
  | none => some .invalidAmount
  | some amount =>
    if ¬ 0 < amount then some .invalidAmount
    else if trimSpace ftpd.Sender = [] then some .blankSender
    else if trimSpace ftpd.Receiver = [] then some .blankReceiver
    else ValidatePrefixedDenom ftpd.Denom

/-- `ValidateBasic` succeeds exactly when the amount parses strictly
positive, sender and receiver are non-blank, and the denom passes the
grammar. -/
theorem FungibleTokenPacketData.validateBasic_iff (p : FungibleTokenPacketData) :
    p.ValidateBasic = none ↔
      (∃ v, sdkNewIntFromString p.Amount = some v ∧ 0 < v) ∧
        trimSpace p.Sender ≠ [] ∧ trimSpace p.Receiver ≠ [] ∧
        ValidatePrefixedDenom p.Denom = none := by
  unfold FungibleTokenPacketData.ValidateBasic
  rcases ha : sdkNewIntFromString p.Amount with _ | v
  · simp [ha]
  · simp only [ha]
    by_cases hv : 0 < v
    · simp only [hv, not_true_eq_false, if_false]
      by_cases hs : trimSpace p.Sender = []
      · simp [hs]
      · simp only [hs, if_false]
        by_cases hr : trimSpace p.Receiver = []
        · simp [hr]
        · simp only [hr, if_false]
          constructor
          · intro hd
            exact ⟨⟨v, rfl, hv⟩, hs, hr, hd⟩
          · intro ⟨_, _, _, hd⟩
            exact hd
    · simp only [hv, not_false_eq_true, if_true]
      constructor
      · intro hc
        simp at hc
      · intro hc
        obtain ⟨⟨w, hw, hw0⟩, -, -, -⟩ := hc
        injection hw with hw
        omega

/-- The validity predicate literally asserted by claim C2 (sender and
receiver merely non-empty, rather than non-blank). -/
def claimedValidC2 (p : FungibleTokenPacketData) : Prop :=
  (∃ v, sdkNewIntFromString p.Amount = some v ∧ 0 < v) ∧
    p.Sender ≠ [] ∧ p.Receiver ≠ [] ∧ ValidatePrefixedDenom p.Denom = none

/-! ### Canonical JSON serialisation (`GetBytes`) -/

/-- Hexadecimal digit byte (lower case). -/
def hexDigit (n : Nat) : Nat := if n < 10 then 0x30 + n else 0x61 + (n - 10)

/-- JSON string escaping as performed by `encoding/json` with HTML escaping
(quotes and backslashes escaped, control bytes and `<`, `>`, `&` written as
`\u00XX`). -/
def jsonEscape : List Nat → List Nat
  | [] => []
  | b :: rest =>
    if b = 0x22 then 0x5c :: 0x22 :: jsonEscape rest
    else if b = 0x5c then 0x5c :: 0x5c :: jsonEscape rest
    else if b < 0x20 || b = 0x3c || b = 0x3e || b = 0x26 then
      0x5c :: 0x75 :: 0x30 :: 0x30 :: hexDigit (b / 16) :: hexDigit (b % 16) :: jsonEscape rest
    else b :: jsonEscape rest

/-- A JSON string token. -/
def jsonStrToken (s : List Nat) : List Nat := 0x22 :: (jsonEscape s ++ [0x22])

/-- The v1 proto-JSON field names, as byte strings, in sorted order. -/
def keyAmount : List Nat := [0x61, 0x6d, 0x6f, 0x75, 0x6e, 0x74]
def keyDenom : List Nat := [0x64, 0x65, 0x6e, 0x6f, 0x6d]
def keyMemo : List Nat := [0x6d, 0x65, 0x6d, 0x6f]
def keyReceiver : List Nat := [0x72, 0x65, 0x63, 0x65, 0x69, 0x76, 0x65, 0x72]
def keySender : List Nat := [0x73, 0x65, 0x6e, 0x64, 0x65, 0x72]

/-- The key/value pairs serialised by `GetBytes`, with empty fields omitted
(proto3 JSON `omitempty`) and keys in sorted order (`sdk.MustSortJSON`). -/
def FungibleTokenPacketData.jsonFields (p : FungibleTokenPacketData) :
    List (List Nat × List Nat) :=
  (if p.Amount ≠ [] then [(keyAmount, p.Amount)] else []) ++
  (if p.Denom ≠ [] then [(keyDenom, p.Denom)] else []) ++
  (if p.Memo ≠ [] then [(keyMemo, p.Memo)] else []) ++
  (if p.Receiver ≠ [] then [(keyReceiver, p.Receiver)] else []) ++
  (if p.Sender ≠ [] then [(keySender, p.Sender)] else [])

/-- Modelled from the spec (`canonicalize`): `GetBytes` is
`sdk.MustSortJSON(mustProtoMarshalJSON(&ftpd))` — neither helper is under
`src/` — producing a sorted-key JSON object over the five string fields with
empty fields omitted. -/
def FungibleTokenPacketData.GetBytes (p : FungibleTokenPacketData) : List Nat :=
  0x7b ::
    ((List.intersperse [0x2c]
      (p.jsonFields.map (fun kv => jsonStrToken kv.1 ++ (0x3a :: jsonStrToken kv.2)))).flatten
      ++ [0x7d])

/-! ### Forwarding state tracker (spec section 4.3; not under `src/`) -/

/-- Key of a forwarding entry: (port, channel, sequence) of the packet this
chain sent onward. -/
structure ForwardKey where
  port : List Nat
  channel : List Nat
  sequence : Nat
deriving DecidableEq, Repr

/-- Modelled from the spec: a Forwarding State Entry holds the original
incoming packet identity, the escrow/mint operations to reverse on failure,
the original sender, and the remaining forwarding instruction. -/
structure ForwardEntry where
  srcPort : List Nat
  srcChannel : List Nat
  srcSequence : Nat
  reversalOps : List (List Nat × Nat)
  originalSender : List Nat
  remainingHops : List (List Nat × List Nat)
deriving DecidableEq, Repr

/-- Modelled from the spec: tracker state (the persistent mapping) together
with the escrow ledger it must leave untouched on a no-op resolution. -/
structure TrackerState where
  tracker : List (ForwardKey × ForwardEntry)
  ledger : List (List Nat × Int)
deriving DecidableEq, Repr

/-- Modelled from the spec: `begin(outgoingPacketKey, entry)` records an
entry, failing with `DuplicateForward` when the key already has one. -/
def beginForward (k : ForwardKey) (e : ForwardEntry) (s : TrackerState) :
    Except Unit TrackerState :=
  match s.tracker.find? (fun kv => decide (kv.1 = k)) with
  | some _ => .error ()
  | none => .ok { s with tracker := (k, e) :: s.tracker }

/-- Modelled from the spec: `resolve(outgoingPacketKey)` is an atomic
lookup-and-remove; a missing key is `NotFound` (`none`) and leaves the state
unchanged. -/
def resolveForward (k : ForwardKey) (s : TrackerState) :
    Option ForwardEntry × TrackerState :=
  match s.tracker.find? (fun kv => decide (kv.1 = k)) with
  | some kv => (some kv.2, { s with tracker := s.tracker.eraseP (fun kv => decide (kv.1 = k)) })
  | none => (none, s)

/-- At-most-once resolution: after `begin`, the first `resolve` removes and
returns the entry; a second `resolve` is a `NotFound` no-op, and the state
after two resolutions equals the state after one. -/
theorem resolveForward_at_most_once (s : TrackerState) (k : ForwardKey)
    (e : ForwardEntry) (s1 : TrackerState)
    (hfresh : s.tracker.find? (fun kv => decide (kv.1 = k)) = none)
    (hbegin : beginForward k e s = .ok s1) :
    resolveForward k s1 = (some e, { s1 with tracker := s.tracker }) ∧
      resolveForward k { s1 with tracker := s.tracker } =
        (none, { s1 with tracker := s.tracker }) ∧
      (resolveForward k (resolveForward k s1).2).2 = (resolveForward k s1).2 := by
  have hs1 : s1 = { s with tracker := (k, e) :: s.tracker } := by
    unfold beginForward at hbegin
    rw [hfresh] at hbegin
    injection hbegin with h
    exact h.symm
  subst hs1
  have hres1 : resolveForward k { s with tracker := (k, e) :: s.tracker } =
      (some e, { s with tracker := s.tracker }) := by
    unfold resolveForward
    simp [List.find?, List.eraseP]
  have hres2 : resolveForward k { s with tracker := s.tracker } =
      (none, { s with tracker := s.tracker }) := by
    unfold resolveForward
    simp only
    rw [show ({ s with tracker := s.tracker } : TrackerState).tracker = s.tracker from rfl]
    rw [hfresh]
  constructor
  · exact hres1
  constructor
  · exact hres2
  · rw [hres1]
    rw [hres2]

/-! ### Memo metadata probing (ADR-8 callback getters) -/

/-- JSON values as decoded by `encoding/json` into `interface` values.
Numbers are kept as their raw text (Go converts them to `float64`; none of
the probed fields are numeric). -/
inductive JVal where
  | null
  | bool (b : Bool)
  | num (raw : List Nat)
  | str (s : List Nat)
  | arr (xs : List JVal)
  | obj (kvs : List (List Nat × JVal))

/-- JSON whitespace. -/
def isWSByte (b : Nat) : Bool :=
  decide (b = 0x20) || decide (b = 0x9) || decide (b = 0xa) || decide (b = 0xd)

/-- Skip JSON whitespace. -/
def skipWS (s : List Nat) : List Nat := s.dropWhile isWSByte

/-- Hex digit value. -/
def hexVal (c : Nat) : Option Nat :=
  if isDigit c then some (c - 0x30)
  else if 0x61 ≤ c ∧ c ≤ 0x66 then some (c - 0x61 + 10)
  else if 0x41 ≤ c ∧ c ≤ 0x46 then some (c - 0x41 + 10)
  else none

/-- UTF-8 encoding of a code point (used for `\\u` escapes; surrogate pairs
are not recombined in this model). -/
def utf8Encode (cp : Nat) : List Nat :=
  if cp < 0x80 then [cp]
  else if cp < 0x800 then [0xc0 + cp / 64, 0x80 + cp % 64]
  else [0xe0 + cp / 4096, 0x80 + cp / 64 % 64, 0x80 + cp % 64]

/-- Parse a JSON string body after the opening quote; returns the decoded
bytes and the input after the closing quote. -/
def parseStringBody : Nat → List Nat → Option (List Nat × List Nat)
  | 0, _ => none
  | _ + 1, [] => none
  | fuel + 1, b :: rest =>
    if b = 0x22 then some ([], rest)
    else if b = 0x5c then
      match rest with
      | 0x22 :: r => (parseStringBody fuel r).map (fun p => (0x22 :: p.1, p.2))
      | 0x5c :: r => (parseStringBody fuel r).map (fun p => (0x5c :: p.1, p.2))
      | 0x2f :: r => (parseStringBody fuel r).map (fun p => (0x2f :: p.1, p.2))
      | 0x62 :: r => (parseStringBody fuel r).map (fun p => (0x8 :: p.1, p.2))
      | 0x66 :: r => (parseStringBody fuel r).map (fun p => (0xc :: p.1, p.2))
      | 0x6e :: r => (parseStringBody fuel r).map (fun p => (0xa :: p.1, p.2))
      | 0x72 :: r => (parseStringBody fuel r).map (fun p => (0xd :: p.1, p.2))
      | 0x74 :: r => (parseStringBody fuel r).map (fun p => (0x9 :: p.1, p.2))
      | 0x75 :: h1 :: h2 :: h3 :: h4 :: r =>
        match hexVal h1, hexVal h2, hexVal h3, hexVal h4 with
        | some v1, some v2, some v3, some v4 =>
          (parseStringBody fuel r).map
            (fun p => (utf8Encode (((v1 * 16 + v2) * 16 + v3) * 16 + v4) ++ p.1, p.2))
        | _, _, _, _ => none
      | _ => none
    else if b < 0x20 then none
    else (parseStringBody fuel rest).map (fun p => (b :: p.1, p.2))

/-- At least one digit, returning the rest. -/
def chompDigits1 : List Nat → Option (List Nat)
  | [] => none
  | b :: rest => if isDigit b then some (rest.dropWhile isDigit) else none

/-- Exponent part of a JSON number (or nothing). -/
def expOK : List Nat → Bool
  | [] => true
  | b :: rest =>
    if b = 0x65 ∨ b = 0x45 then
      match rest with
      | 0x2b :: r2 => (chompDigits1 r2).isSome && ((chompDigits1 r2).getD []).isEmpty
      | 0x2d :: r2 => (chompDigits1 r2).isSome && ((chompDigits1 r2).getD []).isEmpty
      | r2 => (chompDigits1 r2).isSome && ((chompDigits1 r2).getD []).isEmpty
    else false

/-- Fraction-then-exponent part of a JSON number. -/
def fracExpOK : List Nat → Bool
  | 0x2e :: rest =>
    match chompDigits1 rest with
    | some r2 => expOK r2
    | none => false
  | s => expOK s

/-- JSON number grammar `-?(0|[1-9][0-9]*)(\.[0-9]+)?([eE][+-]?[0-9]+)?`. -/
def numberWF (s : List Nat) : Bool :=
  let s1 := match s with | 0x2d :: r => r | _ => s
  match s1 with
  | 0x30 :: r => fracExpOK r
  | b :: r => if isDigit b then fracExpOK (r.dropWhile isDigit) else false
  | [] => false

/-- Bytes that can occur inside a number literal. -/
def isNumByte (b : Nat) : Bool :=
  isDigit b || decide (b = 0x2d) || decide (b = 0x2b) || decide (b = 0x2e) ||
    decide (b = 0x65) || decide (b = 0x45)

/-- Scan a JSON number at the head of the input. -/
def scanNumber (s : List Nat) : Option (List Nat × List Nat) :=
  let raw := s.takeWhile isNumByte
  if numberWF raw then some (raw, s.drop raw.length) else none

mutual

/-- Model of `encoding/json` value parsing (recursive descent, fueled). -/
def parseVal : Nat → List Nat → Option (JVal × List Nat)
  | 0, _ => none
  | fuel + 1, s =>
    match s with
    | [] => none
    | 0x7b :: rest =>
      match skipWS rest with
      | 0x7d :: r2 => some (.obj [], r2)
      | r1 => (parseMembers fuel r1).map (fun p => (JVal.obj p.1, p.2))
    | 0x5b :: rest =>
      match skipWS rest with
      | 0x5d :: r2 => some (.arr [], r2)
      | r1 => (parseElems fuel r1).map (fun p => (JVal.arr p.1, p.2))
    | 0x22 :: rest => (parseStringBody (rest.length + 1) rest).map (fun p => (JVal.str p.1, p.2))
    | 0x6e :: 0x75 :: 0x6c :: 0x6c :: rest => some (.null, rest)
    | 0x74 :: 0x72 :: 0x75 :: 0x65 :: rest => some (.bool true, rest)
    | 0x66 :: 0x61 :: 0x6c :: 0x73 :: 0x65 :: rest => some (.bool false, rest)
    | s => (scanNumber s).map (fun p => (JVal.num p.1, p.2))

/-- Object members: `"key" : value (, ...)* }`. -/
def parseMembers : Nat → List Nat → Option (List (List Nat × JVal) × List Nat)
  | 0, _ => none
  | fuel + 1, s =>
    match s with
    | 0x22 :: rest =>
      match parseStringBody (rest.length + 1) rest with
      | none => none
      | some (key, r1) =>
        match skipWS r1 with
        | 0x3a :: r2 =>
          match parseVal fuel (skipWS r2) with
          | none => none
          | some (v, r3) =>
            match skipWS r3 with
            | 0x2c :: r4 =>
              (parseMembers fuel (skipWS r4)).map (fun p => ((key, v) :: p.1, p.2))
            | 0x7d :: r4 => some ([(key, v)], r4)
            | _ => none
        | _ => none
    | _ => none

/-- Array elements: `value (, ...)* ]`. -/
def parseElems : Nat → List Nat → Option (List JVal × List Nat)
  | 0, _ => none
  | fuel + 1, s =>
    match parseVal fuel s with
    | none => none
    | some (v, r1) =>
      match skipWS r1 with
      | 0x2c :: r2 => (parseElems fuel (skipWS r2)).map (fun p => (v :: p.1, p.2))
      | 0x5d :: r2 => some ([v], r2)
      | _ => none

end

/-- Model of `json.Unmarshal` of a whole input into an `interface` value:
one value, surrounded only by whitespace. -/
def parseJson (s : List Nat) : Option JVal :=
  match parseVal (s.length + 1) (skipWS s) with
  | some (v, rest) => if skipWS rest = [] then some v else none
  | none => none

/-- Lookup in a decoded object; later duplicates win, as with Go's map. -/
def lookupLast (kvs : List (List Nat × JVal)) (k : List Nat) : Option JVal :=
  (kvs.reverse.find? (fun kv => decide (kv.1 = k))).map Prod.snd

/-- The reserved memo keys. -/
def keyCallback : List Nat := [0x63, 0x61, 0x6c, 0x6c, 0x62, 0x61, 0x63, 0x6b]
def keySrcCallbackAddress : List Nat :=
  [0x73, 0x72, 0x63, 0x5f, 0x63, 0x61, 0x6c, 0x6c, 0x62, 0x61, 0x63, 0x6b,
   0x5f, 0x61, 0x64, 0x64, 0x72, 0x65, 0x73, 0x73]
def keyDestCallbackAddress : List Nat :=
  [0x64, 0x65, 0x73, 0x74, 0x5f, 0x63, 0x61, 0x6c, 0x6c, 0x62, 0x61, 0x63, 0x6b,
   0x5f, 0x61, 0x64, 0x64, 0x72, 0x65, 0x73, 0x73]
def keyCallbackMsg : List Nat :=
  [0x63, 0x61, 0x6c, 0x6c, 0x62, 0x61, 0x63, 0x6b, 0x5f, 0x6d, 0x73, 0x67]

/-- Base64 value of one alphabet byte (`A-Za-z0-9+/`). -/
def b64Val (c : Nat) : Option Nat :=
  if 0x41 ≤ c ∧ c ≤ 0x5a then some (c - 0x41)
  else if 0x61 ≤ c ∧ c ≤ 0x7a then some (c - 0x61 + 26)
  else if isDigit c then some (c - 0x30 + 52)
  else if c = 0x2b then some 62
  else if c = 0x2f then some 63
  else none

/-- Model of `base64.StdEncoding.DecodeString` (quadruples with `=` padding
only in the final quadruple; the Go decoder additionally tolerates embedded
newlines, which this model does not). -/
def base64Chunks : List Nat → Option (List Nat)
  | [] => some []
  | c1 :: c2 :: c3 :: c4 :: rest =>
    match b64Val c1, b64Val c2 with
    | some v1, some v2 =>
      if c3 = 0x3d then
        if c4 = 0x3d ∧ rest = [] then
          if v2 % 16 = 0 then some [v1 * 4 + v2 / 16] else none
        else none
      else
        match b64Val c3 with
        | some v3 =>
          if c4 = 0x3d then
            if rest = [] then
              if v3 % 4 = 0 then some [v1 * 4 + v2 / 16, v2 % 16 * 16 + v3 / 4] else none
            else none
          else
            match b64Val c4 with
            | some v4 =>
              (base64Chunks rest).map
                (fun bs => (v1 * 4 + v2 / 16) :: (v2 % 16 * 16 + v3 / 4) ::
                  (v3 % 4 * 64 + v4) :: bs)
            | none => none
        | none => none
    | _, _ => none
  | _ => none

/-- `base64.StdEncoding.DecodeString`. -/
def base64Decode (s : List Nat) : Option (List Nat) := base64Chunks s

/-- `FungibleTokenPacketData.getCallbackData`: empty memo means none;
otherwise `json.Unmarshal` into a map (failing unless the top level is an
object), then the `"callback"` entry if it is itself an object. -/
def FungibleTokenPacketData.getCallbackData (ftpd : FungibleTokenPacketData) :
    Option (List (List Nat × JVal)) :=
  if ftpd.Memo.length = 0 then none
  else
    match parseJson ftpd.Memo with
    | some (.obj kvs) =>
      match lookupLast kvs keyCallback with
      | some (.obj cb) => some cb
      | _ => none
    | _ => none

/-- `GetSourceCallbackAddress`. -/
def FungibleTokenPacketData.GetSourceCallbackAddress
    (ftpd : FungibleTokenPacketData) : List Nat :=
  match ftpd.getCallbackData with
  | none => []
  | some cb =>
    match lookupLast cb keySrcCallbackAddress with
    | some (.str s) => s
    | _ => []

/-- `GetDestCallbackAddress`. -/
def FungibleTokenPacketData.GetDestCallbackAddress
    (ftpd : FungibleTokenPacketData) : List Nat :=
  match ftpd.getCallbackData with
  | none => []
  | some cb =>
    match lookupLast cb keyDestCallbackAddress with
    | some (.str s) => s
    | _ => []

/-- `GetUserDefinedCustomMessage`: the base64-decoded `"callback_msg"`
string, or nil. -/
def FungibleTokenPacketData.GetUserDefinedCustomMessage
    (ftpd : FungibleTokenPacketData) : Option (List Nat) :=
  match ftpd.getCallbackData with
  | none => none
  | some cb =>
    match lookupLast cb keyCallbackMsg with
    | some (.str s) =>
      match base64Decode s with
      | some bs => some bs
      | none => none
    | _ => none

/-- `UserDefinedGasLimit` always returns 0. -/
def FungibleTokenPacketData.UserDefinedGasLimit (_ : FungibleTokenPacketData) : Nat := 0

/-! ## The claims -/

/-- Claim C1: for every valid packet payload of either wire form (legacy
`FungibleTokenPacketData` or multi-token `FungibleTokenPacketDataV2`),
decoding the bytes produced by encoding it returns the payload unchanged,
every field preserved including the order of the `Tokens` and `Trace`
lists (validity: each string field, and each token's marshalled block,
shorter than `2 ^ 63`, amounts below `2 ^ 64`). -/
theorem claim_C1_roundtrip :
    (∀ p : FungibleTokenPacketData, p.WF →
      FungibleTokenPacketData.Unmarshal p.Marshal = .ok p) ∧
    (∀ p : FungibleTokenPacketDataV2, p.WF →
      FungibleTokenPacketDataV2.Unmarshal p.Marshal = .ok p) :=
  ⟨FungibleTokenPacketData.unmarshal_marshal, FungibleTokenPacketDataV2.unmarshal_marshal_v2⟩

/-- Witness for claim C1 at one concrete payload of each wire form. -/
theorem claim_C1_roundtrip_witness :
    FungibleTokenPacketData.Unmarshal
        (FungibleTokenPacketData.Marshal ⟨[0x64], [0x35], [0x73], [0x72], [0x6d]⟩) =
      .ok ⟨[0x64], [0x35], [0x73], [0x72], [0x6d]⟩ ∧
    FungibleTokenPacketDataV2.Unmarshal
        (FungibleTokenPacketDataV2.Marshal ⟨[⟨[0x64], 5, [[0x70]]⟩], [0x73], [0x72], []⟩) =
      .ok ⟨[⟨[0x64], 5, [[0x70]]⟩], [0x73], [0x72], []⟩ := by
  refine ⟨claim_C1_roundtrip.1 _ (by unfold FungibleTokenPacketData.WF; decide),
    claim_C1_roundtrip.2 _ ?_⟩
  refine ⟨?_, by norm_num, by norm_num, by norm_num⟩
  intro t ht
  simp only [List.mem_singleton] at ht
  subst ht
  refine ⟨by unfold Token.WF; decide, ?_⟩
  rw [Token.marshal_length_tok]
  show Token.Size ⟨[0x64], 5, [[0x70]]⟩ < 2 ^ 63
  unfold Token.Size
  norm_num [sov_small]

/-- Counterexample to claim C2 as frozen: a sender of one space byte is
non-empty, so the claimed right-hand side holds, yet `ValidateBasic`
rejects the packet (it requires non-blankness after `strings.TrimSpace`,
not mere non-emptiness). -/
theorem claim_C2_counterexample :
    claimedValidC2 ⟨[0x61, 0x74, 0x6f, 0x6d], [0x31], [0x20], [0x72], []⟩ ∧
      FungibleTokenPacketData.ValidateBasic
        ⟨[0x61, 0x74, 0x6f, 0x6d], [0x31], [0x20], [0x72], []⟩ ≠ none :=
  ⟨⟨⟨1, by decide, by decide⟩, by decide, by decide, by decide⟩, by decide⟩

/-- Claim C2 (amended): `ValidateBasic` returns nil exactly when the amount
parses strictly positive, sender and receiver are non-BLANK (non-empty
after trimming ASCII space characters, not merely non-empty), and the
denom passes the restricted grammar. -/
theorem claim_C2_validate (p : FungibleTokenPacketData) :
    p.ValidateBasic = none ↔
      (∃ v, sdkNewIntFromString p.Amount = some v ∧ 0 < v) ∧
        trimSpace p.Sender ≠ [] ∧ trimSpace p.Receiver ≠ [] ∧
        ValidatePrefixedDenom p.Denom = none :=
  FungibleTokenPacketData.validateBasic_iff p

/-- Counterexample to claim C3 as frozen: the byte string `[0x30, 0x00]`
(unknown field 6, wire type 0) is accepted by the decoder, but re-encoding
the decoded value yields the empty byte string, not the input. -/
theorem claim_C3_counterexample :
    FungibleTokenPacketData.Unmarshal [0x30, 0x00] = .ok ⟨[], [], [], [], []⟩ ∧
      FungibleTokenPacketData.Marshal ⟨[], [], [], [], []⟩ ≠ [0x30, 0x00] :=
  ⟨rfl, by decide⟩

/-- Claim C3 (amended): re-encoding the decoded value reproduces the input
byte-for-byte for canonically encoded inputs — the outputs of `Marshal` on
valid values, where fields appear in schema order with minimal varints and
no unknown fields — but not for every accepted input (unknown fields are
skipped and dropped, as the counterexample shows). -/
theorem claim_C3_reencode :
    (∀ p q : FungibleTokenPacketData, p.WF →
      FungibleTokenPacketData.Unmarshal p.Marshal = .ok q →
      q.Marshal = p.Marshal) ∧
    (∀ p q : Token, p.WF → Token.Unmarshal p.Marshal = .ok q →
      q.Marshal = p.Marshal) ∧
    (∀ p q : FungibleTokenPacketDataV2, p.WF →
      FungibleTokenPacketDataV2.Unmarshal p.Marshal = .ok q →
      q.Marshal = p.Marshal) := by
  refine ⟨fun p q hwf hok => ?_, fun p q hwf hok => ?_, fun p q hwf hok => ?_⟩
  · rw [FungibleTokenPacketData.unmarshal_marshal p hwf] at hok
    injection hok with h
    rw [h]
  · rw [Token.unmarshal_marshal_tok p hwf] at hok
    injection hok with h
    rw [h]
  · rw [FungibleTokenPacketDataV2.unmarshal_marshal_v2 p hwf] at hok
    injection hok with h
    rw [h]

/-- Witness for claim C3 (amended) at a concrete legacy packet. -/
theorem claim_C3_reencode_witness :
    FungibleTokenPacketData.Marshal ⟨[0x61], [0x31], [0x73], [0x72], []⟩ =
      FungibleTokenPacketData.Marshal ⟨[0x61], [0x31], [0x73], [0x72], []⟩ :=
  claim_C3_reencode.1 ⟨[0x61], [0x31], [0x73], [0x72], []⟩ _
    (by unfold FungibleTokenPacketData.WF; decide)
    (FungibleTokenPacketData.unmarshal_marshal _ (by unfold FungibleTokenPacketData.WF; decide))

/-- Counterexample to claim C4 as frozen: `[0x30, 0x00]` carries a
well-formed field with number 6, which the legacy schema does not define,
yet `Unmarshal` accepts the input (returning the zero message) instead of
rejecting it. -/
theorem claim_C4_counterexample :
    FungibleTokenPacketData.Unmarshal [0x30, 0x00] =
      .ok ⟨[], [], [], [], []⟩ ∧ ¬ (0x30 : Nat) >>> 3 ≤ 5 :=
  ⟨rfl, by decide⟩

/-- Claim C4 (amended): the decoder does not reject unknown fields — a
well-formed unknown varint field (field number 6..15, wire type 0) before a
valid encoding is silently skipped and the rest decodes as before; only a
MALFORMED unknown field is rejected, e.g. a tag carrying wire type 4 (end
group) fails with an error whatever bytes follow. -/
theorem claim_C4_unknown_fields :
    (∀ (k v : Nat) (p : FungibleTokenPacketData), 6 ≤ k → k ≤ 15 → v < 2 ^ 64 →
      p.WF →
      FungibleTokenPacketData.Unmarshal ((k * 8) :: (putVarint v ++ p.Marshal)) = .ok p) ∧
    (∀ rest : List Nat,
      FungibleTokenPacketData.Unmarshal (0x34 :: rest) = .error .endGroupForNonGroup) := by
  refine ⟨fun k v p hk6 hk15 hv hp =>
    FungibleTokenPacketData.skips_unknown_varint_field k v p hk6 hk15 hv hp,
    fun rest => ?_⟩
  rw [show FungibleTokenPacketData.Unmarshal (0x34 :: rest) =
      FungibleTokenPacketData.unmarshalLoop (rest.length + 1 + 1) (0x34 :: rest)
        ⟨[], [], [], [], []⟩ from rfl]
  rw [FungibleTokenPacketData.unmarshalLoop_cons, readVarint_single (by norm_num)]
  simp only []
  rw [if_pos (by decide : (0x34 : Nat) &&& 0x7 = 4)]

/-- Witness for claim C4 (amended): field 6, varint value 1, before the
empty message's encoding; and the end-group tag alone. -/
theorem claim_C4_unknown_fields_witness :
    FungibleTokenPacketData.Unmarshal ((6 * 8) :: (putVarint 1 ++
        FungibleTokenPacketData.Marshal ⟨[], [], [], [], []⟩)) =
      .ok ⟨[], [], [], [], []⟩ ∧
    FungibleTokenPacketData.Unmarshal [0x34] = .error .endGroupForNonGroup :=
  ⟨claim_C4_unknown_fields.1 6 1 _ (by norm_num) (by norm_num) (by norm_num)
      (by unfold FungibleTokenPacketData.WF; decide),
    claim_C4_unknown_fields.2 []⟩

/-- Claim C5: truncated or malformed input is rejected with an error by all
three decoders: a string-field length varint that reads past the end of the
input (0xFF continuation bytes to the end), a declared field length at or
above `2 ^ 63` (negative as an `int`), a declared field length past the end
of the input, and (for `Token`) a truncated Amount varint all fail. -/
theorem claim_C5_malformed_rejected :
    (∀ tag ∈ [0xa, 0x12, 0x1a, 0x22, 0x2a], ∀ (j : Nat), j ≤ 9 →
      FungibleTokenPacketData.Unmarshal (tag :: List.replicate j 0xFF) =
        .error .unexpectedEOF) ∧
    (∀ tag ∈ [0xa, 0x12, 0x1a, 0x22, 0x2a], ∀ (n : Nat) (rest : List Nat),
      2 ^ 63 ≤ n → n < 2 ^ 64 →
      FungibleTokenPacketData.Unmarshal (tag :: (putVarint n ++ rest)) =
        .error .invalidLength) ∧
    (∀ tag ∈ [0xa, 0x12, 0x1a, 0x22, 0x2a], ∀ (n : Nat) (rest : List Nat),
      n < 2 ^ 63 → rest.length < n →
      FungibleTokenPacketData.Unmarshal (tag :: (putVarint n ++ rest)) =
        .error .unexpectedEOF) ∧
    (∀ tag ∈ [0xa, 0x12, 0x1a, 0x22], ∀ (j : Nat), j ≤ 9 →
      FungibleTokenPacketDataV2.Unmarshal (tag :: List.replicate j 0xFF) =
        .error .unexpectedEOF) ∧
    (∀ tag ∈ [0xa, 0x12, 0x1a, 0x22], ∀ (n : Nat) (rest : List Nat),
      2 ^ 63 ≤ n → n < 2 ^ 64 →
      FungibleTokenPacketDataV2.Unmarshal (tag :: (putVarint n ++ rest)) =
        .error .invalidLength) ∧
    (∀ tag ∈ [0xa, 0x12, 0x1a, 0x22], ∀ (n : Nat) (rest : List Nat),
      n < 2 ^ 63 → rest.length < n →
      FungibleTokenPacketDataV2.Unmarshal (tag :: (putVarint n ++ rest)) =
        .error .unexpectedEOF) ∧
    (∀ tag ∈ [0xa, 0x1a], ∀ (j : Nat), j ≤ 9 →
      Token.Unmarshal (tag :: List.replicate j 0xFF) = .error .unexpectedEOF) ∧
    (∀ tag ∈ [0xa, 0x1a], ∀ (n : Nat) (rest : List Nat),
      2 ^ 63 ≤ n → n < 2 ^ 64 →
      Token.Unmarshal (tag :: (putVarint n ++ rest)) = .error .invalidLength) ∧
    (∀ tag ∈ [0xa, 0x1a], ∀ (n : Nat) (rest : List Nat),
      n < 2 ^ 63 → rest.length < n →
      Token.Unmarshal (tag :: (putVarint n ++ rest)) = .error .unexpectedEOF) ∧
    (∀ j : Nat, j ≤ 9 →
      Token.Unmarshal (0x10 :: List.replicate j 0xFF) = .error .unexpectedEOF) := by
  refine ⟨?_, ?_, ?_, ?_, ?_, ?_, ?_, ?_, ?_, ?_⟩
  · intro tag htag j hj
    fin_cases htag <;>
      exact FungibleTokenPacketData.field_varint_error _ _ _ _ _ (by norm_num) (by decide)
        (by decide) (by decide) (readVarint_replicate_ff j 0 0 (by omega))
  · intro tag htag n rest h1 h2
    fin_cases htag <;>
      exact FungibleTokenPacketData.field_len_overflow _ _ _ _ n _ rest (by norm_num)
        (by decide) (by decide) (by decide) (readVarint_putVarint (by omega) rest) (by omega)
  · intro tag htag n rest h1 h2
    fin_cases htag <;>
      exact FungibleTokenPacketData.field_len_overrun _ _ _ _ n _ rest (by norm_num)
        (by decide) (by decide) (by decide) (readVarint_putVarint (by omega) rest) (by omega) h2
  · intro tag htag j hj
    fin_cases htag <;>
      exact FungibleTokenPacketDataV2.field_varint_error_v2 _ _ _ _ _ (by norm_num) (by decide)
        (by decide) (by decide) (readVarint_replicate_ff j 0 0 (by omega))
  · intro tag htag n rest h1 h2
    fin_cases htag <;>
      exact FungibleTokenPacketDataV2.field_len_overflow_v2 _ _ _ _ n _ rest (by norm_num)
        (by decide) (by decide) (by decide) (readVarint_putVarint (by omega) rest) (by omega)
  · intro tag htag n rest h1 h2
    fin_cases htag <;>
      exact FungibleTokenPacketDataV2.field_len_overrun_v2 _ _ _ _ n _ rest (by norm_num)
        (by decide) (by decide) (by decide) (readVarint_putVarint (by omega) rest) (by omega) h2
  · intro tag htag j hj
    fin_cases htag <;>
      exact Token.field_varint_error_tok _ _ _ _ _ (by norm_num) (by decide) (by decide)
        (readVarint_replicate_ff j 0 0 (by omega))
  · intro tag htag n rest h1 h2
    fin_cases htag <;>
      exact Token.field_len_overflow_tok _ _ _ _ n _ rest (by norm_num) (by decide) (by decide)
        (readVarint_putVarint (by omega) rest) (by omega)
  · intro tag htag n rest h1 h2
    fin_cases htag <;>
      exact Token.field_len_overrun_tok _ _ _ _ n _ rest (by norm_num) (by decide) (by decide)
        (readVarint_putVarint (by omega) rest) (by omega) h2
  · intro j hj
    exact Token.amount_varint_error _ _ _ _ (readVarint_replicate_ff j 0 0 (by omega))

/-- Witness for claim C5: one concrete instance of each rejection family. -/
theorem claim_C5_malformed_rejected_witness :
    FungibleTokenPacketData.Unmarshal (0xa :: List.replicate 3 0xFF) =
      .error .unexpectedEOF ∧
    FungibleTokenPacketData.Unmarshal (0x12 :: (putVarint (2 ^ 63) ++ [])) =
      .error .invalidLength ∧
    FungibleTokenPacketData.Unmarshal (0x2a :: (putVarint 2 ++ [0x61])) =
      .error .unexpectedEOF ∧
    FungibleTokenPacketDataV2.Unmarshal (0x12 :: List.replicate 9 0xFF) =
      .error .unexpectedEOF ∧
    FungibleTokenPacketDataV2.Unmarshal (0x22 :: (putVarint (2 ^ 64 - 1) ++ [])) =
      .error .invalidLength ∧
    FungibleTokenPacketDataV2.Unmarshal (0xa :: (putVarint 1 ++ [])) =
      .error .unexpectedEOF ∧
    Token.Unmarshal (0x1a :: List.replicate 1 0xFF) = .error .unexpectedEOF ∧
    Token.Unmarshal (0xa :: (putVarint (2 ^ 63) ++ [0x61])) = .error .invalidLength ∧
    Token.Unmarshal (0x1a :: (putVarint 5 ++ [0x61, 0x62])) = .error .unexpectedEOF ∧
    Token.Unmarshal (0x10 :: List.replicate 9 0xFF) = .error .unexpectedEOF :=
  ⟨claim_C5_malformed_rejected.1 0xa (by simp) 3 (by norm_num),
   claim_C5_malformed_rejected.2.1 0x12 (by simp) (2 ^ 63) [] (by norm_num) (by norm_num),
   claim_C5_malformed_rejected.2.2.1 0x2a (by simp) 2 [0x61] (by norm_num) (by simp),
   claim_C5_malformed_rejected.2.2.2.1 0x12 (by simp) 9 (by norm_num),
   claim_C5_malformed_rejected.2.2.2.2.1 0x22 (by simp) (2 ^ 64 - 1) [] (by norm_num)
     (by norm_num),
   claim_C5_malformed_rejected.2.2.2.2.2.1 0xa (by simp) 1 [] (by norm_num) (by simp),
   claim_C5_malformed_rejected.2.2.2.2.2.2.1 0x1a (by simp) 1 (by norm_num),
   claim_C5_malformed_rejected.2.2.2.2.2.2.2.1 0xa (by simp) (2 ^ 63) [0x61] (by norm_num)
     (by norm_num),
   claim_C5_malformed_rejected.2.2.2.2.2.2.2.2.1 0x1a (by simp) 5 [0x61, 0x62] (by norm_num)
     (by simp),
   claim_C5_malformed_rejected.2.2.2.2.2.2.2.2.2 9 (by norm_num)⟩

/-- Claim C6: the canonical acknowledgement encoding is deterministic —
`GetBytes` is a pure function, so equal `FungibleTokenPacketData` values
yield byte-identical outputs — and the serialised keys appear in sorted
order (a sublist of the five field names in lexicographic order). -/
theorem claim_C6_deterministic (p q : FungibleTokenPacketData) (h : p = q) :
    FungibleTokenPacketData.GetBytes p = FungibleTokenPacketData.GetBytes q ∧
      List.Sublist (p.jsonFields.map Prod.fst)
        [keyAmount, keyDenom, keyMemo, keyReceiver, keySender] := by
  subst h
  refine ⟨rfl, ?_⟩
  unfold FungibleTokenPacketData.jsonFields
  split_ifs <;> simp_all <;> decide

/-- Witness for claim C6 at a concrete packet. -/
theorem claim_C6_deterministic_witness :
    FungibleTokenPacketData.GetBytes ⟨[0x61], [0x31], [0x73], [0x72], []⟩ =
      FungibleTokenPacketData.GetBytes ⟨[0x61], [0x31], [0x73], [0x72], []⟩ ∧
    List.Sublist
      (FungibleTokenPacketData.jsonFields ⟨[0x61], [0x31], [0x73], [0x72], []⟩ |>.map Prod.fst)
      [keyAmount, keyDenom, keyMemo, keyReceiver, keySender] :=
  claim_C6_deterministic ⟨[0x61], [0x31], [0x73], [0x72], []⟩ _ rfl

/-- Claim C7: resolution of a forwarding state entry is at-most-once —
after `begin` records the entry under a fresh key, the first `resolve`
removes and returns it, a second `resolve` on the same key returns
`NotFound` (`none`) and leaves the tracker and ledger unchanged, and the
state after two resolutions equals the state after one. -/
theorem claim_C7_resolve_at_most_once (s : TrackerState) (k : ForwardKey)
    (e : ForwardEntry) (s1 : TrackerState)
    (hfresh : s.tracker.find? (fun kv => decide (kv.1 = k)) = none)
    (hbegin : beginForward k e s = .ok s1) :
    resolveForward k s1 = (some e, { s1 with tracker := s.tracker }) ∧
      resolveForward k { s1 with tracker := s.tracker } =
        (none, { s1 with tracker := s.tracker }) ∧
      (resolveForward k (resolveForward k s1).2).2 = (resolveForward k s1).2 :=
  resolveForward_at_most_once s k e s1 hfresh hbegin

/-- Witness for claim C7 on a concrete tracker state. -/
theorem claim_C7_resolve_at_most_once_witness :
    resolveForward ⟨[0x70], [0x63], 1⟩
        ⟨[(⟨[0x70], [0x63], 1⟩, ⟨[0x71], [0x64], 7, [([0x61], 3)], [0x73], []⟩)], [([0x61], 3)]⟩ =
      (some ⟨[0x71], [0x64], 7, [([0x61], 3)], [0x73], []⟩, ⟨[], [([0x61], 3)]⟩) ∧
      resolveForward ⟨[0x70], [0x63], 1⟩ ⟨[], [([0x61], 3)]⟩ =
        (none, ⟨[], [([0x61], 3)]⟩) ∧
      (resolveForward ⟨[0x70], [0x63], 1⟩
          (resolveForward ⟨[0x70], [0x63], 1⟩
            ⟨[(⟨[0x70], [0x63], 1⟩, ⟨[0x71], [0x64], 7, [([0x61], 3)], [0x73], []⟩)],
              [([0x61], 3)]⟩).2).2 =
        (resolveForward ⟨[0x70], [0x63], 1⟩
          ⟨[(⟨[0x70], [0x63], 1⟩, ⟨[0x71], [0x64], 7, [([0x61], 3)], [0x73], []⟩)],
            [([0x61], 3)]⟩).2 :=
  claim_C7_resolve_at_most_once ⟨[], [([0x61], 3)]⟩ ⟨[0x70], [0x63], 1⟩
    ⟨[0x71], [0x64], 7, [([0x61], 3)], [0x73], []⟩ _ rfl rfl

/-- Claim C8: memo probing preserves absence-means-no-op semantics — when
the memo is empty, is not valid JSON, or is a JSON object whose
`"callback"` key does not map to an object, both callback-address getters
return the empty string and the custom message getter returns nil; and
when the callback object holds a string under `"src_callback_address"`
(resp. `"dest_callback_address"`), the corresponding getter returns exactly
that string. -/
theorem claim_C8_memo_probing :
    (∀ p : FungibleTokenPacketData,
      (p.Memo = [] ∨ parseJson p.Memo = none ∨
        (∃ kvs, parseJson p.Memo = some (.obj kvs) ∧
          ∀ cb, lookupLast kvs keyCallback ≠ some (.obj cb))) →
      p.GetSourceCallbackAddress = [] ∧ p.GetDestCallbackAddress = [] ∧
        p.GetUserDefinedCustomMessage = none) ∧
    (∀ (p : FungibleTokenPacketData) (kvs cb : List (List Nat × JVal)) (s : List Nat),
      parseJson p.Memo = some (.obj kvs) →
      lookupLast kvs keyCallback = some (.obj cb) →
      (lookupLast cb keySrcCallbackAddress = some (.str s) →
        p.GetSourceCallbackAddress = s) ∧
      (lookupLast cb keyDestCallbackAddress = some (.str s) →
        p.GetDestCallbackAddress = s)) := by
  constructor
  · intro p h
    have hcd : p.getCallbackData = none := by
      unfold FungibleTokenPacketData.getCallbackData
      rcases h with h | h | ⟨kvs, hp, hcb⟩
      · rw [if_pos (by rw [h]; rfl)]
      · by_cases hm : p.Memo.length = 0
        · rw [if_pos hm]
        · rw [if_neg hm, h]
      · by_cases hm : p.Memo.length = 0
        · rw [if_pos hm]
        · rw [if_neg hm, hp]
          show (match lookupLast kvs keyCallback with
            | some (JVal.obj cb) => some cb
            | _ => none) = none
          rcases hlk : lookupLast kvs keyCallback with _ | v
          · rfl
          · cases v with
            | obj cb => exact absurd hlk (hcb cb)
            | null => rfl
            | bool b => rfl
            | num t => rfl
            | str t => rfl
            | arr xs => rfl
    refine ⟨?_, ?_, ?_⟩
    · unfold FungibleTokenPacketData.GetSourceCallbackAddress
      rw [hcd]
    · unfold FungibleTokenPacketData.GetDestCallbackAddress
      rw [hcd]
    · unfold FungibleTokenPacketData.GetUserDefinedCustomMessage
      rw [hcd]
  · intro p kvs cb s hp hcb
    have hne : ¬ p.Memo.length = 0 := by
      intro h0
      rw [List.length_eq_zero] at h0
      rw [h0] at hp
      rw [show parseJson [] = none from rfl] at hp
      exact Option.noConfusion hp
    have hcd : p.getCallbackData = some cb := by
      unfold FungibleTokenPacketData.getCallbackData
      rw [if_neg hne, hp]
      simp only []
      rw [hcb]
    constructor
    · intro hs
      unfold FungibleTokenPacketData.GetSourceCallbackAddress
      rw [hcd]
      simp only []
      rw [hs]
    · intro hs
      unfold FungibleTokenPacketData.GetDestCallbackAddress
      rw [hcd]
      simp only []
      rw [hs]

/-- Witness for claim C8: the empty memo yields the no-op results, and a
concrete memo carrying a callback object yields exactly its source and
destination address strings. -/
theorem claim_C8_memo_probing_witness :
    (FungibleTokenPacketData.GetSourceCallbackAddress ⟨[], [], [], [], []⟩ = [] ∧
      FungibleTokenPacketData.GetDestCallbackAddress ⟨[], [], [], [], []⟩ = [] ∧
      FungibleTokenPacketData.GetUserDefinedCustomMessage ⟨[], [], [], [], []⟩ = none) ∧
    FungibleTokenPacketData.GetSourceCallbackAddress
      ⟨[], [], [], [],
        [123, 34, 99, 97, 108, 108, 98, 97, 99, 107, 34, 58, 123, 34, 115, 114, 99, 95, 99,
          97, 108, 108, 98, 97, 99, 107, 95, 97, 100, 100, 114, 101, 115, 115, 34, 58, 34,
          115, 49, 34, 44, 34, 100, 101, 115, 116, 95, 99, 97, 108, 108, 98, 97, 99, 107,
          95, 97, 100, 100, 114, 101, 115, 115, 34, 58, 34, 100, 49, 34, 125, 125]⟩ =
      [0x73, 0x31] ∧
    FungibleTokenPacketData.GetDestCallbackAddress
      ⟨[], [], [], [],
        [123, 34, 99, 97, 108, 108, 98, 97, 99, 107, 34, 58, 123, 34, 115, 114, 99, 95, 99,
          97, 108, 108, 98, 97, 99, 107, 95, 97, 100, 100, 114, 101, 115, 115, 34, 58, 34,
          115, 49, 34, 44, 34, 100, 101, 115, 116, 95, 99, 97, 108, 108, 98, 97, 99, 107,
          95, 97, 100, 100, 114, 101, 115, 115, 34, 58, 34, 100, 49, 34, 125, 125]⟩ =
      [0x64, 0x31] := by
  refine ⟨claim_C8_memo_probing.1 ⟨[], [], [], [], []⟩ (Or.inl rfl), ?_, ?_⟩
  · exact (claim_C8_memo_probing.2 _ _ _ _ (by rfl) (by rfl)).1 (by rfl)
  · exact (claim_C8_memo_probing.2 _ _ _ _ (by rfl) (by rfl)).2 (by rfl)

/-- Claim C9: the decoders are total on arbitrary input — for every byte
string, `Unmarshal` of all three messages and the `skipPacket` helper
return a value or a genuine decoding error; the fuel sentinel that models
the source's loop is never the result, every read staying within the
input (the embedding reads only via pattern matching on the remaining
bytes). -/
theorem claim_C9_decoders_total (bs : List Nat) :
    FungibleTokenPacketData.Unmarshal bs ≠ .error .fuelOut ∧
      FungibleTokenPacketDataV2.Unmarshal bs ≠ .error .fuelOut ∧
      Token.Unmarshal bs ≠ .error .fuelOut ∧
      skipPacket bs ≠ .error .fuelOut :=
  ⟨FungibleTokenPacketData.Unmarshal_ne_fuelOut bs,
    FungibleTokenPacketDataV2.Unmarshal_ne_fuelOut_v2 bs,
    Token.Unmarshal_ne_fuelOut_tok bs, skipPacket_ne_fuelOut bs⟩

/-- Claim C10: for every value of the three message types the marshalled
byte string's length equals `Size`, and zero values (empty strings, zero
amount, empty lists) contribute no bytes — the zero message marshals to
the empty byte string. -/
theorem claim_C10_size_matches :
    (∀ m : FungibleTokenPacketData, m.Marshal.length = m.Size) ∧
      (∀ m : Token, m.Marshal.length = m.Size) ∧
      (∀ m : FungibleTokenPacketDataV2, m.Marshal.length = m.Size) ∧
      FungibleTokenPacketData.Marshal ⟨[], [], [], [], []⟩ = [] ∧
      Token.Marshal ⟨[], 0, []⟩ = [] ∧
      FungibleTokenPacketDataV2.Marshal ⟨[], [], [], []⟩ = [] :=
  ⟨FungibleTokenPacketData.marshal_length, Token.marshal_length_tok,
    FungibleTokenPacketDataV2.marshal_length_v2, rfl, rfl, rfl⟩

end IbcTransfer
